import Mathlib

/-!
Verification of the measurement-parsing pipeline (parse.py) of the
quic-opensand-evaluation repository.

The Python source is shallowly embedded: machine floats are modelled as exact
rationals (ℚ), Python ints as ℤ, pandas DataFrames as an explicit column list
together with association-list rows, and functions that may raise an uncaught
exception return an `Option` (with `none` standing for the exception).
-/

namespace QOE

/-! ## Basic character and string helpers (Python semantics, ASCII subset) -/

/-- Python `str.upper` on a single ASCII character (the repository only ever
upper-cases single ASCII letters captured by `[a-z]?`). -/
def pyUpperChar (c : Char) : Char :=
  if 'a' ≤ c ∧ c ≤ 'z' then Char.ofNat (c.toNat - 32) else c

/-- Python `str.upper`, restricted to ASCII. -/
def pyUpper (s : String) : String :=
  ⟨s.data.map pyUpperChar⟩

/-- Python whitespace test used by `str.strip` (ASCII subset). -/
def isPyWs (c : Char) : Bool :=
  c = ' ' ∨ c = '\t' ∨ c = '\n' ∨ c = '\r'

/-- Python `str.strip` on a character list. -/
def pyStrip (cs : List Char) : List Char :=
  ((cs.dropWhile isPyWs).reverse.dropWhile isPyWs).reverse

/-- Digit-string to natural number value. -/
def digitsVal (cs : List Char) : ℕ :=
  cs.foldl (fun acc c => 10 * acc + (c.toNat - 48)) 0

/-- Python `int(s)` for plain decimal strings: optional surrounding whitespace,
optional sign, then a nonempty run of digits (the underscore-separator
extension of Python is not modelled; no input of the pipeline uses it). -/
def pyInt (cs : List Char) : Option ℤ :=
  let s := pyStrip cs
  let (sgn, ds) : ℤ × List Char :=
    match s with
    | '-' :: t => (-1, t)
    | '+' :: t => (1, t)
    | t => (1, t)
  if ds ≠ [] ∧ ds.all Char.isDigit then some (sgn * digitsVal ds) else none

/-- Value of a decimal token `digits` or `digits.digits` as a rational. -/
def numVal (cs : List Char) : ℚ :=
  let ip := cs.takeWhile Char.isDigit
  let rest := cs.dropWhile Char.isDigit
  let fp := match rest with
    | '.' :: t => t
    | _ => []
  (digitsVal ip : ℚ) + (digitsVal fp : ℚ) / (10 : ℚ) ^ fp.length

/-- Python `float(s)` for finite decimal notation: optional whitespace and
sign, then `d+[.d*]`, `.d+` or `d+.`, with an optional exponent
`(e|E)[+|-]d+`.  The special values inf/nan are not modelled (no input of the
pipeline produces them). -/
def pyFloat (cs : List Char) : Option ℚ :=
  let s := pyStrip cs
  let (sgn, t0) : ℚ × List Char :=
    match s with
    | '-' :: t => (-1, t)
    | '+' :: t => (1, t)
    | t => (1, t)
  let ip := t0.takeWhile Char.isDigit
  let r1 := t0.dropWhile Char.isDigit
  let (fp, r2) : List Char × List Char :=
    match r1 with
    | '.' :: t => (t.takeWhile Char.isDigit, t.dropWhile Char.isDigit)
    | t => ([], t)
  if ip = [] ∧ fp = [] then none
  else
    let mant : ℚ := (digitsVal ip : ℚ) + (digitsVal fp : ℚ) / (10 : ℚ) ^ fp.length
    match r2 with
    | [] => some (sgn * mant)
    | e :: r3 =>
      if e = 'e' ∨ e = 'E' then
        let (esgn, r4) : ℤ × List Char :=
          match r3 with
          | '-' :: t => (-1, t)
          | '+' :: t => (1, t)
          | t => (1, t)
        if r4 ≠ [] ∧ r4.all Char.isDigit then
          let ex : ℤ := esgn * digitsVal r4
          some (sgn * mant * (10 : ℚ) ^ ex)
        else none
      else none

/-! ## bps_factor (parse.py lines 54-57)

The factor dictionary is transcribed exactly as written in the source,
including the `2*60`, `2*70`, `2*80` entries for the E/Z/Y prefixes. -/

/-- The `factor` dictionary of `bps_factor`, exactly as in the source. -/
def factorTable : List (String × ℕ) :=
  [("K", 2 ^ 10), ("M", 2 ^ 20), ("G", 2 ^ 30), ("T", 2 ^ 40),
   ("P", 2 ^ 50), ("E", 2 * 60), ("Z", 2 * 70), ("Y", 2 * 80)]

/-- `bps_factor(prefix)` from parse.py. -/
def bps_factor (pfx : String) : ℕ :=
  match factorTable.lookup (pyUpper pfx) with
  | some f => f
  | none => 1

/-! ## Directory-name decoding (measure_folders, parse.py lines 372-391)

The regex `^(GEO|MEO|LEO|NONE)_r(\d+)mbit_l(\d+(?:\.\d+)?)_q(\d+(?:\.\d+)?)(?:_txq(\d+))?$`
is embedded as a deterministic parser.  On this pattern greedy matching with
backtracking coincides with maximal-munch parsing: every group is a maximal
digit run (with an optional committed fraction whose presence is decided by a
two-character lookahead, exactly as the backtracking regex engine decides it),
and each group is followed by a literal that cannot begin with a digit.
Directory names are modelled as newline-free strings, so `$` is end-of-string. -/

/-- Strip an exact literal from the front of a character list. -/
def stripLit : List Char → List Char → Option (List Char)
  | [], cs => some cs
  | _ :: _, [] => none
  | l :: lt, c :: ct => if c = l then stripLit lt ct else none

/-- Maximal nonempty digit run (regex `(\d+)` followed by a non-digit). -/
def digits1 (cs : List Char) : Option (List Char × List Char) :=
  let ds := cs.takeWhile Char.isDigit
  if ds = [] then none else some (ds, cs.dropWhile Char.isDigit)

/-- Regex `(\d+(?:\.\d+)?)`: a digit run with an optional fractional part,
committed exactly when a dot followed by a digit comes next. -/
def numTok1 (cs : List Char) : Option (List Char × List Char) :=
  match digits1 cs with
  | none => none
  | some (ip, r1) =>
    match r1 with
    | c :: d :: t =>
      if c = '.' ∧ d.isDigit = true then
        some (ip ++ '.' :: d :: t.takeWhile Char.isDigit, t.dropWhile Char.isDigit)
      else
        some (ip, c :: d :: t)
    | r1 => some (ip, r1)

/-- The alternation `(GEO|MEO|LEO|NONE)`. -/
def satTok (cs : List Char) : Option (String × List Char) :=
  match stripLit "GEO".data cs with
  | some r => some ("GEO", r)
  | none =>
    match stripLit "MEO".data cs with
    | some r => some ("MEO", r)
    | none =>
      match stripLit "LEO".data cs with
      | some r => some ("LEO", r)
      | none =>
        match stripLit "NONE".data cs with
        | some r => some ("NONE", r)
        | none => none

/-- The per-directory experiment parameters yielded by `measure_folders`. -/
structure FolderParams where
  sat : String
  rate : ℤ
  loss : ℚ
  queue : ℚ
  txq : ℤ
deriving DecidableEq, Repr

/-- The match-and-decode step of `measure_folders` for a single directory
name: `none` models the `continue` (skip) on a non-matching name. -/
def decode_folder_name (name : String) : Option FolderParams :=
  (satTok name.data).bind fun sr =>
  (stripLit "_r".data sr.2).bind fun r2 =>
  (digits1 r2).bind fun dr =>
  (stripLit "mbit_l".data dr.2).bind fun r4 =>
  (numTok1 r4).bind fun lr =>
  (stripLit "_q".data lr.2).bind fun r6 =>
  (numTok1 r6).bind fun qr =>
  match qr.2 with
  | [] => some ⟨sr.1, digitsVal dr.1, numVal lr.1 / 100, numVal qr.1, 1000⟩
  | _ :: _ =>
    (stripLit "_txq".data qr.2).bind fun r8 =>
    (digits1 r8).bind fun tr =>
    if tr.2 = [] then
      some ⟨sr.1, digitsVal dr.1, numVal lr.1 / 100, numVal qr.1, digitsVal tr.1⟩
    else none

/-- A nonempty run of digits. -/
def isDigitStr (cs : List Char) : Prop :=
  cs ≠ [] ∧ ∀ c ∈ cs, c.isDigit = true

/-- A numeric field of the grammar: `digits` or `digits.digits`. -/
def isNumStr (cs : List Char) : Prop :=
  ∃ ip fp, isDigitStr ip ∧ (cs = ip ∨ (isDigitStr fp ∧ cs = ip ++ '.' :: fp))

/-- The Parameter Decoder contract, written from the spec's words: the name
decomposes per the grammar `SAT_r{rate}mbit_l{loss}_q{queue}[_txq{txq}]`
(with SAT one of GEO/MEO/LEO/NONE), loss is the encoded value divided by 100,
queue the encoded value, and txq the encoded value or 1000 when absent. -/
def SpecParses (name : String) (p : FolderParams) : Prop :=
  ∃ (sat : String) (rateDs lossTok queueTok txqPart : List Char),
    sat ∈ (["GEO", "MEO", "LEO", "NONE"] : List String) ∧
    isDigitStr rateDs ∧ isNumStr lossTok ∧ isNumStr queueTok ∧
    name.data = sat.data ++ "_r".data ++ rateDs ++ "mbit_l".data ++ lossTok ++
      "_q".data ++ queueTok ++ txqPart ∧
    ((txqPart = [] ∧ p.txq = 1000) ∨
      (∃ txqDs, isDigitStr txqDs ∧ txqPart = "_txq".data ++ txqDs ∧
        p.txq = digitsVal txqDs)) ∧
    p.sat = sat ∧ p.rate = digitsVal rateDs ∧
    p.loss = numVal lossTok / 100 ∧ p.queue = numVal queueTok

/-! ## DataFrame model

A pandas DataFrame is modelled as an ordered column-name list together with
rows kept as association lists (cell order = dict insertion order).  Appending
a row/frame aligns by column name; columns absent from the caller are added at
the end, exactly as `DataFrame.append(..., ignore_index=True)` does. -/

/-- A cell value: Python int, float (exact rational model), str, bool, or the
NaN/None missing marker. -/
inductive Val where
  | i : ℤ → Val
  | f : ℚ → Val
  | s : String → Val
  | b : Bool → Val
  | na : Val
deriving DecidableEq, Repr

structure DF where
  cols : List String
  rows : List (List (String × Val))
deriving DecidableEq, Repr

/-- `df.append(rowdict, ignore_index=True)`: keys not yet among the columns
are appended (in dict order); the row is added at the end. -/
def DF.appendRow (df : DF) (r : List (String × Val)) : DF :=
  ⟨df.cols ++ (r.map Prod.fst).filter (fun k => !df.cols.contains k),
   df.rows ++ [r]⟩

/-- `df.append(other, ignore_index=True)`. -/
def DF.appendDF (df other : DF) : DF :=
  ⟨df.cols ++ other.cols.filter (fun k => !df.cols.contains k),
   df.rows ++ other.rows⟩

/-- Python-dict assignment `d[k] = v`: overwrite in place or insert at the
end. -/
def dictSet (d : List (String × Val)) (k : String) (v : Val) : List (String × Val) :=
  if (d.map Prod.fst).contains k then
    d.map (fun kv => if kv.1 = k then (k, v) else kv)
  else d ++ [(k, v)]

/-- `df[name] = scalar`: set a column on every row, adding the column at the
end if it is new. -/
def DF.setCol (df : DF) (name : String) (v : Val) : DF :=
  ⟨if df.cols.contains name then df.cols else df.cols ++ [name],
   df.rows.map (fun r => dictSet r name v)⟩

/-! ## File and line utilities -/

/-- Python text-file line iteration, with the trailing newline of each line
dropped (no consumer of a line in parse.py distinguishes the two: each line is
either stripped or matched by a pattern that ignores the line end). -/
def splitLinesCore : List Char → List Char → List (List Char)
  | [], acc => if acc.isEmpty then [] else [acc.reverse]
  | c :: t, acc =>
    if c = '\n' then acc.reverse :: splitLinesCore t []
    else splitLinesCore t (c :: acc)

def fileLines (content : String) : List (List Char) :=
  splitLinesCore content.data []

/-- Greedy `.*`: try the splits right-to-left, i.e. deepest suffix first. -/
def searchLast {α : Type} (f : List Char → Option α) : List Char → Option α
  | [] => f []
  | c :: t =>
    match searchLast f t with
    | some r => some r
    | none => f (c :: t)

/-- Unanchored `re.search`: leftmost matching start position. -/
def searchFirst {α : Type} (f : List Char → Option α) : List Char → Option α
  | [] => f []
  | c :: t =>
    match f (c :: t) with
    | some r => some r
    | none => searchFirst f t

/-- Python `int()` applied to a float: truncation toward zero. -/
def truncQ (q : ℚ) : ℤ :=
  if q < 0 then -(Int.floor (-q)) else Int.floor q

/-- Python `str.startswith`. -/
def startsWithL (pre cs : List Char) : Bool :=
  (stripLit pre cs).isSome

/-- `line.split(sep, 1)[1]` for a one-character separator: everything after
the first occurrence (call sites guarantee the separator occurs). -/
def afterChar (c : Char) : List Char → List Char
  | [] => []
  | x :: t => if x = c then t else afterChar c t

/-- Python `s[:-2]`. -/
def dropLast2 (cs : List Char) : List Char :=
  cs.dropLast.dropLast

/-! ## File-name run matching

Each per-run extractor matches file names by the regex
`^<pre>(\d+)<post>$`, e.g. `^quic(_pep)?_(\d+)_client\.txt$`. -/

def matchRunFile (pre post fname : List Char) : Option ℤ :=
  (stripLit pre fname).bind fun r1 =>
  (digits1 r1).bind fun dr =>
  (stripLit post dr.2).bind fun r3 =>
  if r3 = [] then some (digitsVal dr.1) else none

def quicClientPre (pep : Bool) : List Char :=
  (if pep then "quic_pep_" else "quic_").data

def quicTtfbPre (pep : Bool) : List Char :=
  (if pep then "quic_pep_ttfb_" else "quic_ttfb_").data

def tcpClientPre (pep : Bool) : List Char :=
  (if pep then "tcp_pep_" else "tcp_").data

def tcpTtfbPre (pep : Bool) : List Char :=
  (if pep then "tcp_pep_ttfb_" else "tcp_ttfb_").data

/-! ## QUIC client extractor (parse_quic_client, parse.py lines 60-102) -/

/-- The `([a-z]?)bit/s` group: greedily take one lowercase letter, falling
back to the empty prefix when `bit/s` does not follow it. -/
def prefixBit (cs : List Char) : Option (String × List Char) :=
  match cs with
  | c :: t =>
    if 'a' ≤ c ∧ c ≤ 'z' then
      match stripLit "bit/s".data t with
      | some r => some (⟨[c]⟩, r)
      | none => (stripLit "bit/s".data cs).map (fun r => ("", r))
    else (stripLit "bit/s".data cs).map (fun r => ("", r))
  | [] => none

/-- The line regex of parse_quic_client applied to the stripped line:
`^second (\d+): (\d+(?:\.\d+)?) ([a-z]?)bit/s \((\d+) bytes received, (\d+)
packets received\)$`.  Returns (second, bps, bytes, packets_received) with
`bps = int(float(g2) * bps_factor(g3))`. -/
def quicClientLine (raw : List Char) : Option (ℤ × ℤ × ℤ × ℤ) :=
  let line := pyStrip raw
  (stripLit "second ".data line).bind fun r1 =>
  (digits1 r1).bind fun secp =>
  (stripLit ": ".data secp.2).bind fun r2 =>
  (numTok1 r2).bind fun nump =>
  (stripLit " ".data nump.2).bind fun r3 =>
  (prefixBit r3).bind fun pfxp =>
  (stripLit " (".data pfxp.2).bind fun r4 =>
  (digits1 r4).bind fun bytep =>
  (stripLit " bytes received, ".data bytep.2).bind fun r5 =>
  (digits1 r5).bind fun packp =>
  (stripLit " packets received)".data packp.2).bind fun r6 =>
  if r6 = [] then
    some (digitsVal secp.1,
          truncQ (numVal nump.1 * (bps_factor pfxp.1 : ℚ)),
          digitsVal bytep.1, digitsVal packp.1)
  else none

def parse_quic_client (dirFiles : List (String × String)) (pep : Bool) : DF :=
  dirFiles.foldl (fun df file =>
    match matchRunFile (quicClientPre pep) "_client.txt".data file.1.data with
    | none => df
    | some run =>
      (fileLines file.2).foldl (fun df2 line =>
        match quicClientLine line with
        | none => df2
        | some row =>
          df2.appendRow [("run", Val.i run), ("second", Val.i row.1),
            ("bps", Val.i row.2.1), ("bytes", Val.i row.2.2.1),
            ("packets_received", Val.i row.2.2.2)]) df)
    ⟨["run", "second", "bps", "bytes", "packets_received"], []⟩

/-! ## QUIC server extractor (parse_quic_server, parse.py lines 153-194) -/

/-- Tail of the server line regex after the greedy `.*`:
`second (\d+) send window: (\d+) packets sent: (\d+) packets lost: (\d+)$`. -/
def quicServerTail (cs : List Char) : Option (ℤ × ℤ × ℤ × ℤ) :=
  (stripLit "second ".data cs).bind fun r1 =>
  (digits1 r1).bind fun sp =>
  (stripLit " send window: ".data sp.2).bind fun r2 =>
  (digits1 r2).bind fun cp =>
  (stripLit " packets sent: ".data cp.2).bind fun r3 =>
  (digits1 r3).bind fun pp =>
  (stripLit " packets lost: ".data pp.2).bind fun r4 =>
  (digits1 r4).bind fun lp =>
  if lp.2 = [] then
    some (digitsVal sp.1, digitsVal cp.1, digitsVal pp.1, digitsVal lp.1)
  else none

/-- `^connection.*second (\d+) send window: (\d+) packets sent: (\d+) packets
lost: (\d+)$` on the stripped line. -/
def quicServerLine (raw : List Char) : Option (ℤ × ℤ × ℤ × ℤ) :=
  let line := pyStrip raw
  (stripLit "connection".data line).bind fun r => searchLast quicServerTail r

def parse_quic_server (dirFiles : List (String × String)) (pep : Bool) : DF :=
  dirFiles.foldl (fun df file =>
    match matchRunFile (quicClientPre pep) "_server.txt".data file.1.data with
    | none => df
    | some run =>
      (fileLines file.2).foldl (fun df2 line =>
        match quicServerLine line with
        | none => df2
        | some row =>
          df2.appendRow [("run", Val.i run), ("second", Val.i row.1),
            ("cwnd", Val.i row.2.1), ("packets_sent", Val.i row.2.2.1),
            ("packets_lost", Val.i row.2.2.2)]) df)
    ⟨["run", "second", "cwnd", "packets_sent", "packets_lost"], []⟩

/-! ## TTFB extractors (parse_quic_ttfb lines 105-150, parse_tcp_ttfb lines
240-285)

Python's `int()` / `float()` raise on a malformed value; the per-file parse is
therefore Option-valued, `none` standing for the uncaught exception. -/

/-- `int(line.split(':', 1)[1].strip()[:-2])` of a QUIC ttfb value line. -/
def quicTtfbVal (line : List Char) : Option ℤ :=
  pyInt (dropLast2 (pyStrip (afterChar ':' line)))

/-- `float(line.split('=', 1)[1].strip()) * 1000.0` of a TCP ttfb value
line. -/
def tcpTtfbVal (line : List Char) : Option ℚ :=
  (pyFloat (pyStrip (afterChar '=' line))).map (fun q => q * 1000)

/-- The per-file loop of parse_quic_ttfb: first labeled value wins, duplicate
occurrences are discarded (with a warning in the source). -/
def quicTtfbFold : List (List Char) → Option ℤ → Option ℤ →
    Option (Option ℤ × Option ℤ)
  | [], c, t => some (c, t)
  | l :: ls, c, t =>
    if startsWithL "connection establishment time:".data l then
      match c with
      | some v => quicTtfbFold ls (some v) t
      | none =>
        match quicTtfbVal l with
        | some v => quicTtfbFold ls (some v) t
        | none => none
    else if startsWithL "time to first byte:".data l then
      match t with
      | some v => quicTtfbFold ls c (some v)
      | none =>
        match quicTtfbVal l with
        | some v => quicTtfbFold ls c (some v)
        | none => none
    else quicTtfbFold ls c t

/-- The per-file loop of parse_tcp_ttfb. -/
def tcpTtfbFold : List (List Char) → Option ℚ → Option ℚ →
    Option (Option ℚ × Option ℚ)
  | [], c, t => some (c, t)
  | l :: ls, c, t =>
    if startsWithL "established=".data l then
      match c with
      | some v => tcpTtfbFold ls (some v) t
      | none =>
        match tcpTtfbVal l with
        | some v => tcpTtfbFold ls (some v) t
        | none => none
    else if startsWithL "ttfb=".data l then
      match t with
      | some v => tcpTtfbFold ls c (some v)
      | none =>
        match tcpTtfbVal l with
        | some v => tcpTtfbFold ls c (some v)
        | none => none
    else tcpTtfbFold ls c t

def optValI : Option ℤ → Val
  | some v => Val.i v
  | none => Val.na

def optValF : Option ℚ → Val
  | some v => Val.f v
  | none => Val.na

def parse_quic_ttfb (dirFiles : List (String × String)) (pep : Bool) : Option DF :=
  dirFiles.foldl (fun acc file => acc.bind fun df =>
    match matchRunFile (quicTtfbPre pep) "_client.txt".data file.1.data with
    | none => some df
    | some run =>
      (quicTtfbFold (fileLines file.2) none none).map (fun ct =>
        df.appendRow [("run", Val.i run), ("con_est", optValI ct.1),
          ("ttfb", optValI ct.2)]))
    (some ⟨["run", "con_est", "ttfb"], []⟩)

def parse_tcp_ttfb (dirFiles : List (String × String)) (pep : Bool) : Option DF :=
  dirFiles.foldl (fun acc file => acc.bind fun df =>
    match matchRunFile (tcpTtfbPre pep) "_client.txt".data file.1.data with
    | none => some df
    | some run =>
      (tcpTtfbFold (fileLines file.2) none none).map (fun ct =>
        df.appendRow [("run", Val.i run), ("con_est", optValF ct.1),
          ("ttfb", optValF ct.2)]))
    (some ⟨["run", "con_est", "ttfb"], []⟩)

/-! ## Ping extractor (parse_ping, parse.py lines 334-369) -/

/-- Tail of the reply regex after the greedy `.*`:
`: icmp_seq=(\d+) ttl=(\d+) time=(\d+) ms` (anything may follow ` ms`).
Captures are returned as character lists, exactly as `match.group` returns
strings. -/
def pingReplyTail (cs : List Char) : Option (List Char × List Char × List Char) :=
  (stripLit ": icmp_seq=".data cs).bind fun r1 =>
  (digits1 r1).bind fun sp =>
  (stripLit " ttl=".data sp.2).bind fun r2 =>
  (digits1 r2).bind fun tp =>
  (stripLit " time=".data tp.2).bind fun r3 =>
  (digits1 r3).bind fun rp =>
  (stripLit " ms".data rp.2).map fun _ => (sp.1, tp.1, rp.1)

/-- `re.match(r"^\d+ bytes from .*: icmp_seq=(\d+) ttl=(\d+) time=(\d+) ms", line)`. -/
def pingReplyLine (line : List Char) : Option (List Char × List Char × List Char) :=
  (digits1 line).bind fun dp =>
  (stripLit " bytes from ".data dp.2).bind fun r =>
  searchLast pingReplyTail r

/-- `re.search(r"^(\d+) packets transmitted, (\d+) received", line)`. -/
def pingSummaryLine (line : List Char) : Option (ℤ × ℤ) :=
  (digits1 line).bind fun ap =>
  (stripLit " packets transmitted, ".data ap.2).bind fun r =>
  (digits1 r).bind fun bp =>
  (stripLit " received".data bp.2).map fun _ =>
    ((digitsVal ap.1 : ℤ), (digitsVal bp.1 : ℤ))

/-- Tail of `= (\d+(?:\.\d+)?)/(...)/(...)/(...) ms` at a candidate start. -/
def pingStatsTail (cs : List Char) : Option (ℚ × ℚ × ℚ × ℚ) :=
  (stripLit "= ".data cs).bind fun r0 =>
  (numTok1 r0).bind fun a =>
  (stripLit "/".data a.2).bind fun r1 =>
  (numTok1 r1).bind fun b =>
  (stripLit "/".data b.2).bind fun r2 =>
  (numTok1 r2).bind fun c =>
  (stripLit "/".data c.2).bind fun r3 =>
  (numTok1 r3).bind fun d =>
  (stripLit " ms".data d.2).map fun _ =>
    (numVal a.1, numVal b.1, numVal c.1, numVal d.1)

/-- `re.search(r"= (\d+(?:\.\d+)?)/.../... ms", line)` (unanchored). -/
def pingStatsLine (line : List Char) : Option (ℚ × ℚ × ℚ × ℚ) :=
  searchFirst pingStatsTail line

/-- One iteration of the parse_ping line loop over the state
(raw_data, summary_data). -/
def pingFoldStep (st : List (List (String × Val)) × List (String × Val))
    (line : List Char) :
    List (List (String × Val)) × List (String × Val) :=
  match pingReplyLine line with
  | some (s, t, r) =>
    (st.1 ++ [[("seq", Val.s ⟨s⟩), ("ttl", Val.s ⟨t⟩), ("rtt", Val.s ⟨r⟩)]], st.2)
  | none =>
    match pingSummaryLine line with
    | some (a, b) =>
      (st.1, dictSet (dictSet st.2 "packets_sent" (Val.i a))
        "packets_received" (Val.i b))
    | none =>
      match pingStatsLine line with
      | some (mn, av, mx, md) =>
        (st.1, dictSet (dictSet (dictSet (dictSet st.2
          "rtt_min" (Val.f mn)) "rtt_avg" (Val.f av))
          "rtt_max" (Val.f mx)) "rtt_mdev" (Val.f md))
      | none => st

/-- parse_ping: `none` when `ping.txt` is absent; otherwise builds
`pd.DataFrame(raw_data)` (whose columns exist only when a row does) and the
one-row summary frame. -/
def parse_ping (dirFiles : List (String × String)) : Option (DF × DF) :=
  match dirFiles.lookup "ping.txt" with
  | none => none
  | some content =>
    let st := (fileLines content).foldl pingFoldStep ([], [])
    some (⟨if st.1.isEmpty then [] else ["seq", "ttl", "rtt"], st.1⟩,
          ⟨st.2.map Prod.fst, if st.2.isEmpty then [] else [st.2]⟩)

/-! ## Type normalizer (fix_dtypes, parse.py lines 419-455)

`np.float32` vs `np.float64` are kept as distinct tags but their values are
modelled as exact rationals.  A cast that pandas/numpy would reject with an
exception (string that does not parse as a number, NaN to integer, numeric to
string whose float repr is not modelled) is `none`. -/

inductive DType where
  | tStr | tBool | tI32 | tF32 | tF64
deriving DecidableEq, Repr

/-- The `dtypes` dictionary of fix_dtypes, in source order. -/
def dtypesTable : List (String × DType) :=
  [("protocol", DType.tStr), ("pep", DType.tBool), ("sat", DType.tStr),
   ("rate", DType.tI32), ("loss", DType.tF32), ("queue", DType.tI32),
   ("txq", DType.tI32), ("run", DType.tI32), ("second", DType.tI32),
   ("bps", DType.tF64), ("bytes", DType.tI32),
   ("packets_received", DType.tI32), ("cwnd", DType.tI32),
   ("packets_sent", DType.tI32), ("packets_lost", DType.tI32),
   ("con_est", DType.tF64), ("ttfb", DType.tF64), ("omitted", DType.tBool),
   ("rtt", DType.tI32), ("seq", DType.tI32), ("ttl", DType.tI32),
   ("rtt_min", DType.tF32), ("rtt_avg", DType.tF32),
   ("rtt_max", DType.tF32), ("rtt_mdev", DType.tF32)]

/-- Two's-complement wrap into the int32 range. -/
def wrap32 (n : ℤ) : ℤ :=
  (n + 2 ^ 31) % 2 ^ 32 - 2 ^ 31

/-- Cast a cell to float (float32 and float64 behave identically in the
exact-rational model); NaN stays NaN. -/
def castToFloat : Val → Option Val
  | Val.f q => some (Val.f q)
  | Val.i n => some (Val.f n)
  | Val.b v => some (Val.f (if v then 1 else 0))
  | Val.s v => (pyFloat v.data).map Val.f
  | Val.na => some Val.na

/-- `astype` of a single cell. -/
def castVal : DType → Val → Option Val
  | DType.tStr, Val.s v => some (Val.s v)
  | DType.tStr, Val.b v => some (Val.s (if v then "True" else "False"))
  | DType.tStr, Val.i n => some (Val.s (toString n))
  | DType.tStr, Val.na => some (Val.s "nan")
  | DType.tStr, Val.f _ => none
  | DType.tBool, Val.b v => some (Val.b v)
  | DType.tBool, Val.i n => some (Val.b (decide (n ≠ 0)))
  | DType.tBool, Val.f q => some (Val.b (decide (q ≠ 0)))
  | DType.tBool, Val.s v => some (Val.b (decide (v ≠ "")))
  | DType.tBool, Val.na => some (Val.b true)
  | DType.tI32, Val.i n => some (Val.i (wrap32 n))
  | DType.tI32, Val.b v => some (Val.i (if v then 1 else 0))
  | DType.tI32, Val.f q => some (Val.i (wrap32 (truncQ q)))
  | DType.tI32, Val.s v => (pyInt v.data).map (fun n => Val.i (wrap32 n))
  | DType.tI32, Val.na => none
  | DType.tF32, v => castToFloat v
  | DType.tF64, v => castToFloat v

/-- Cast one cell of a row: only columns present in the frame AND in the
dtypes table are touched (`set(df.columns).intersection(dtypes.keys())`). -/
def castCell (cols : List String) (kv : String × Val) : Option (String × Val) :=
  match dtypesTable.lookup kv.1 with
  | some t =>
    if cols.contains kv.1 then (castVal t kv.2).map (fun v => (kv.1, v))
    else some kv
  | none => some kv

def castRow (cols : List String) : List (String × Val) → Option (List (String × Val))
  | [] => some []
  | kv :: t =>
    (castCell cols kv).bind fun kv' => (castRow cols t).map (fun t' => kv' :: t')

def castRows (cols : List String) :
    List (List (String × Val)) → Option (List (List (String × Val)))
  | [] => some []
  | r :: t =>
    (castRow cols r).bind fun r' => (castRows cols t).map (fun t' => r' :: t')

/-- fix_dtypes: `df.astype({...})` over the intersection of the frame's
columns with the dtype table. -/
def fix_dtypes (df : DF) : Option DF :=
  (castRows df.cols df.rows).map (fun rs => ⟨df.cols, rs⟩)

/-! ## Specification-side helpers for the TTFB and dtype claims -/

/-- First element of a line list satisfying a predicate (used to state
"first occurrence wins"). -/
def findFirst (p : List Char → Bool) : List (List Char) → Option (List Char)
  | [] => none
  | l :: ls => if p l then some l else findFirst p ls

/-- A value inhabits the canonical form of a dtype (floats may be NaN, as in
pandas). -/
def hasDType : DType → Val → Bool
  | DType.tStr, Val.s _ => true
  | DType.tBool, Val.b _ => true
  | DType.tI32, Val.i _ => true
  | DType.tF32, Val.f _ => true
  | DType.tF32, Val.na => true
  | DType.tF64, Val.f _ => true
  | DType.tF64, Val.na => true
  | _, _ => false

/-! ## extend_df (parse.py lines 394-416) -/

def extend_df (df : DF) (protocol : String) (pep : Bool) (sat : String)
    (rate : ℤ) (loss : ℚ) (queue : ℚ) (txq : ℤ) : DF :=
  ((((((df.setCol "protocol" (Val.s protocol)).setCol "pep" (Val.b pep)).setCol
    "sat" (Val.s sat)).setCol "rate" (Val.i rate)).setCol
    "loss" (Val.f loss)).setCol "queue" (Val.f queue)).setCol "txq" (Val.i txq)

/-! ## JSON model (Python json library behavior, used by load_json_file)

The stdlib `json.load`/`json.loads` is modelled by a recursive-descent parser
over character lists.  Number and string lexemes are kept unprocessed (their
decoded value is a function of the lexeme, so value identity is preserved);
escape validation inside strings and the NaN/Infinity constants are not
modelled.  `json.loads` raises `JSONDecodeError("Extra data", s, pos)` with
`pos` the position of the first non-whitespace character after the first
complete document; `pyLoads` reproduces exactly that. -/

def quoteC : Char := Char.ofNat 34

def bslashC : Char := Char.ofNat 92

inductive Json where
  | null : Json
  | bool : Bool → Json
  | num : List Char → Json
  | str : List Char → Json
  | arr : List Json → Json
  | obj : List (List Char × Json) → Json

/-- JSON string body after the opening quote: a backslash escapes the next
character, an unescaped quote ends the string. -/
def parseStringBody : List Char → Option (List Char × List Char)
  | [] => none
  | c :: cs =>
    if c = quoteC then some ([], cs)
    else if c = bslashC then
      match cs with
      | [] => none
      | d :: ds => (parseStringBody ds).map (fun p => (c :: d :: p.1, p.2))
    else (parseStringBody cs).map (fun p => (c :: p.1, p.2))

/-- `-?(?:0|[1-9]\d*)`: integer part of the number regex. -/
def parseIntPart : List Char → Option (List Char × List Char)
  | [] => none
  | c :: cs =>
    if c = '0' then some (['0'], cs)
    else if c.isDigit then
      some (c :: cs.takeWhile Char.isDigit, cs.dropWhile Char.isDigit)
    else none

def expDigits : List Char → Option (List Char × List Char)
  | [] => none
  | c :: t =>
    if c.isDigit then some (c :: t.takeWhile Char.isDigit, t.dropWhile Char.isDigit)
    else none

/-- `([eE][-+]?\d+)?`: committed exactly when it can match (regex
backtracking on the optional group). -/
def parseExpPart (cs : List Char) : List Char × List Char :=
  match cs with
  | e :: r =>
    if e = 'e' ∨ e = 'E' then
      match r with
      | s :: t =>
        if s = '+' ∨ s = '-' then
          match expDigits t with
          | some (ds, rest) => (e :: s :: ds, rest)
          | none => ([], cs)
        else
          match expDigits r with
          | some (ds, rest) => (e :: ds, rest)
          | none => ([], cs)
      | [] => ([], cs)
    else ([], cs)
  | [] => ([], cs)

/-- `(\.\d+)?`. -/
def parseFracPart (cs : List Char) : List Char × List Char :=
  match cs with
  | c :: d :: t =>
    if c = '.' ∧ d.isDigit = true then
      ('.' :: d :: t.takeWhile Char.isDigit, t.dropWhile Char.isDigit)
    else ([], cs)
  | _ => ([], cs)

/-- The JSON number token (Python json NUMBER_RE). -/
def parseNumber (cs : List Char) : Option (List Char × List Char) :=
  let p : List Char × List Char :=
    match cs with
    | c :: t => if c = '-' then (['-'], t) else ([], cs)
    | [] => ([], cs)
  match parseIntPart p.2 with
  | none => none
  | some (ip, r1) =>
    let fp := parseFracPart r1
    let ep := parseExpPart fp.2
    some (p.1 ++ ip ++ fp.1 ++ ep.1, ep.2)

mutual

def parseValue : ℕ → List Char → Option (Json × List Char)
  | 0, _ => none
  | Nat.succ fuel, cs =>
    match cs with
    | [] => none
    | c :: rest =>
      if c = quoteC then
        (parseStringBody rest).map (fun p => (Json.str p.1, p.2))
      else if c = '{' then
        match List.dropWhile isPyWs rest with
        | c2 :: r2 =>
          if c2 = '}' then some (Json.obj [], r2)
          else (parseMembers fuel (c2 :: r2)).map (fun p => (Json.obj p.1, p.2))
        | [] => none
      else if c = '[' then
        match List.dropWhile isPyWs rest with
        | c2 :: r2 =>
          if c2 = ']' then some (Json.arr [], r2)
          else (parseItems fuel (c2 :: r2)).map (fun p => (Json.arr p.1, p.2))
        | [] => none
      else
        match stripLit "null".data cs with
        | some r => some (Json.null, r)
        | none =>
          match stripLit "true".data cs with
          | some r => some (Json.bool true, r)
          | none =>
            match stripLit "false".data cs with
            | some r => some (Json.bool false, r)
            | none => (parseNumber cs).map (fun p => (Json.num p.1, p.2))

def parseMembers : ℕ → List Char → Option (List (List Char × Json) × List Char)
  | 0, _ => none
  | Nat.succ fuel, cs =>
    match cs with
    | [] => none
    | c :: r1 =>
      if c = quoteC then
        match parseStringBody r1 with
        | none => none
        | some (key, r2) =>
          match List.dropWhile isPyWs r2 with
          | [] => none
          | c2 :: r3 =>
            if c2 = ':' then
              match parseValue fuel (List.dropWhile isPyWs r3) with
              | none => none
              | some (v, r4) =>
                match List.dropWhile isPyWs r4 with
                | [] => none
                | c3 :: r5 =>
                  if c3 = ',' then
                    (parseMembers fuel (List.dropWhile isPyWs r5)).map
                      (fun p => ((key, v) :: p.1, p.2))
                  else if c3 = '}' then some ([(key, v)], r5)
                  else none
            else none
      else none

def parseItems : ℕ → List Char → Option (List Json × List Char)
  | 0, _ => none
  | Nat.succ fuel, cs =>
    match parseValue fuel cs with
    | none => none
    | some (v, r1) =>
      match List.dropWhile isPyWs r1 with
      | [] => none
      | c :: r2 =>
        if c = ',' then
          (parseItems fuel (List.dropWhile isPyWs r2)).map
            (fun p => (v :: p.1, p.2))
        else if c = ']' then some ([v], r2)
        else none

end

structure JsonError where
  msg : String
  pos : ℕ
deriving DecidableEq, Repr

/-- `json.loads` on the full text. -/
def pyLoads (s : List Char) : Except JsonError Json :=
  let core := List.dropWhile isPyWs s
  match parseValue (s.length + 1) core with
  | none => Except.error ⟨"Expecting value", s.length - core.length⟩
  | some (v, rest) =>
    let rest2 := List.dropWhile isPyWs rest
    if rest2.isEmpty then Except.ok v
    else Except.error ⟨"Extra data", s.length - rest2.length⟩

/-- load_json_file (parse.py lines 26-51) over an abstract file system
(`fs path = none` models a missing file): on an "Extra data" failure the first
`err.pos` characters are re-parsed, any other failure or a missing file gives
`none`. -/
def load_json_file (fs : String → Option String) (path : String) : Option Json :=
  match fs path with
  | none => none
  | some content =>
    match pyLoads content.data with
    | Except.ok v => some v
    | Except.error e =>
      if e.msg ≠ "Extra data" then none
      else
        match pyLoads (content.data.take e.pos) with
        | Except.ok v => some v
        | Except.error _ => none

/-! ## TCP client/server extractors (parse.py lines 197-237 and 288-331)

Dynamic JSON field accesses (`results['intervals']`, `streams[0]`, …) raise
on shape mismatch; such accesses are Option-valued with `none` for the
exception. -/

/-- Python dict lookup of a decoded JSON object (later duplicate keys
overwrite earlier ones, hence the reversed search). -/
def jGet : Json → String → Option Json
  | Json.obj xs, k => xs.reverse.lookup k.data
  | _, _ => none

/-- `lst[0]`. -/
def jHead : Json → Option Json
  | Json.arr (x :: _) => some x
  | _ => none

/-- Numeric value of a JSON number lexeme. -/
def lexVal (lex : List Char) : ℚ :=
  let p : ℚ × List Char :=
    match lex with
    | c :: t => if c = '-' then (-1, t) else (1, lex)
    | [] => (1, [])
  let ip := p.2.takeWhile Char.isDigit
  let r1 := p.2.dropWhile Char.isDigit
  let q : List Char × List Char :=
    match r1 with
    | c :: t =>
      if c = '.' then (t.takeWhile Char.isDigit, t.dropWhile Char.isDigit)
      else ([], r1)
    | [] => ([], r1)
  let es : ℤ :=
    match q.2 with
    | c :: t =>
      if c = 'e' ∨ c = 'E' then
        match t with
        | c2 :: t2 =>
          if c2 = '-' then -(digitsVal t2 : ℤ)
          else if c2 = '+' then (digitsVal t2 : ℤ)
          else (digitsVal t : ℤ)
        | [] => 0
      else 0
    | [] => 0
  p.1 * ((digitsVal ip : ℚ) + (digitsVal q.1 : ℚ) / 10 ^ q.1.length) * 10 ^ es

/-- Python `float()` of a decoded JSON value. -/
def jNum : Json → Option ℚ
  | Json.num lex => some (lexVal lex)
  | Json.bool b => some (if b then 1 else 0)
  | Json.str s => pyFloat s
  | _ => none

/-- Python `int()` of a decoded JSON value. -/
def jInt : Json → Option ℤ
  | Json.num lex => some (truncQ (lexVal lex))
  | Json.bool b => some (if b then 1 else 0)
  | Json.str s => pyInt s
  | _ => none

/-- Python `bool()` of a decoded JSON value (total). -/
def jBool : Json → Bool
  | Json.null => false
  | Json.bool b => b
  | Json.num lex => decide (lexVal lex ≠ 0)
  | Json.str s => !s.isEmpty
  | Json.arr xs => !xs.isEmpty
  | Json.obj xs => !xs.isEmpty

/-- `round()` of a number argument (banker's rounding); non-numbers raise. -/
def jRoundable : Json → Option ℚ
  | Json.num lex => some (lexVal lex)
  | Json.bool b => some (if b then 1 else 0)
  | _ => none

def pyRound (q : ℚ) : ℤ :=
  let fl := Int.floor q
  let r := q - fl
  if r < 1/2 then fl
  else if 1/2 < r then fl + 1
  else if fl % 2 = 0 then fl else fl + 1

/-- `for interval in results['intervals']` requires a JSON array. -/
def jElems : Json → Option (List Json)
  | Json.arr xs => some xs
  | _ => none

/-- `int(obj[k])` on a stream/interval object. -/
def jGetInt (o : Json) (k : String) : Option ℤ :=
  (jGet o k).bind jInt

/-- `float(obj[k])`. -/
def jGetNum (o : Json) (k : String) : Option ℚ :=
  (jGet o k).bind jNum

/-- `bool(obj[k])`. -/
def jGetBool (o : Json) (k : String) : Option Bool :=
  (jGet o k).map jBool

/-- `round(interval['sum']['start'])`. -/
def tcpIntervalStart (iv : Json) : Option ℤ := do
  let sum0 ← jGet iv "sum"
  let startJ ← jGet sum0 "start"
  let startV ← jRoundable startJ
  some (pyRound startV)

/-- `interval['streams'][0]`. -/
def tcpStream0 (iv : Json) : Option Json := do
  let streams ← jGet iv "streams"
  jHead streams

def tcpClientInterval (run : ℤ) (iv : Json) : Option (List (String × Val)) :=
  (tcpIntervalStart iv).bind fun second =>
  (tcpStream0 iv).bind fun s0 =>
  (jGetNum s0 "bits_per_second").bind fun bpsV =>
  (jGetInt s0 "bytes").bind fun bytesV =>
  (jGetBool s0 "omitted").bind fun omV =>
  some [("run", Val.i run), ("second", Val.i second),
    ("bps", Val.f bpsV), ("bytes", Val.i bytesV), ("omitted", Val.b omV)]

def tcpServerInterval (run : ℤ) (iv : Json) : Option (List (String × Val)) :=
  (tcpIntervalStart iv).bind fun second =>
  (tcpStream0 iv).bind fun s0 =>
  (jGetInt s0 "snd_cwnd").bind fun cwndV =>
  (jGetNum s0 "bits_per_second").bind fun bpsV =>
  (jGetInt s0 "bytes").bind fun bytesV =>
  (jGetInt s0 "retransmits").bind fun reV =>
  (jGetInt s0 "rtt").bind fun rttV =>
  (jGetBool s0 "omitted").bind fun omV =>
  some [("run", Val.i run), ("second", Val.i second),
    ("cwnd", Val.i cwndV), ("bps", Val.f bpsV), ("bytes", Val.i bytesV),
    ("packets_lost", Val.i reV), ("rtt", Val.i rttV), ("omitted", Val.b omV)]

def parse_tcp_client (dirFiles : List (String × String)) (pep : Bool) : Option DF :=
  dirFiles.foldl (fun acc file => acc.bind fun df =>
    match matchRunFile (tcpClientPre pep) "_client.json".data file.1.data with
    | none => some df
    | some run =>
      match load_json_file (fun n => dirFiles.lookup n) file.1 with
      | none => some df
      | some results =>
        ((jGet results "intervals").bind jElems).bind fun ivs =>
          ivs.foldl (fun acc2 iv => acc2.bind fun d2 =>
            (tcpClientInterval run iv).map d2.appendRow) (some df))
    (some ⟨["run", "second", "bps", "bytes", "omitted"], []⟩)

def parse_tcp_server (dirFiles : List (String × String)) (pep : Bool) : Option DF :=
  dirFiles.foldl (fun acc file => acc.bind fun df =>
    match matchRunFile (tcpClientPre pep) "_server.json".data file.1.data with
    | none => some df
    | some run =>
      match load_json_file (fun n => dirFiles.lookup n) file.1 with
      | none => some df
      | some results =>
        ((jGet results "intervals").bind jElems).bind fun ivs =>
          ivs.foldl (fun acc2 iv => acc2.bind fun d2 =>
            (tcpServerInterval run iv).map d2.appendRow) (some df))
    (some ⟨["run", "second", "cwnd", "bps", "bytes", "packets_lost", "rtt",
            "omitted"], []⟩)

/-- Cell-level relation between an input cell and its normalized output
(used by the fix_dtypes theorems). -/
def cellRel (cols : List String) (kv kv' : String × Val) : Prop :=
  kv'.1 = kv.1 ∧
  (dtypesTable.lookup kv.1 = none → kv' = kv) ∧
  (∀ t, dtypesTable.lookup kv.1 = some t → cols.contains kv.1 = true →
    hasDType t kv'.2 = true)

/-- A character that cannot extend a JSON document to its left: replacing the
text after a complete document with text whose first character satisfies this
leaves the parse of the document unchanged (used by the loader theorems). -/
def noExt (o : Option Char) : Prop :=
  ∀ x, o = some x → x.isDigit = false ∧ x ≠ '.' ∧ x ≠ 'e' ∧ x ≠ 'E'

/-- A character that cannot extend a digit run to its left. -/
def noDig (o : Option Char) : Prop :=
  ∀ x, o = some x → x.isDigit = false

/-! ## The full pipeline (parse, parse.py lines 458-560) -/

structure ParsedResults where
  quic_client : DF
  quic_server : DF
  quic_times : DF
  tcp_client : DF
  tcp_server : DF
  tcp_times : DF
  ping_raw : DF
  ping_summary : DF
deriving DecidableEq, Repr

/-- The eight accumulators with their declared column lists. -/
def initParsed : ParsedResults :=
  ⟨⟨["protocol", "pep", "sat", "rate", "loss", "queue", "txq",
     "run", "second", "bps", "bytes", "packets_received"], []⟩,
   ⟨["protocol", "pep", "sat", "rate", "loss", "queue", "txq",
     "run", "second", "cwnd", "packets_sent", "packets_lost"], []⟩,
   ⟨["protocol", "pep", "sat", "rate", "loss", "queue", "txq",
     "run", "con_est", "ttfb"], []⟩,
   ⟨["protocol", "pep", "sat", "rate", "loss", "queue", "txq",
     "run", "second", "bps", "bytes", "omitted"], []⟩,
   ⟨["protocol", "pep", "sat", "rate", "loss", "queue", "txq",
     "run", "second", "cwnd", "bps", "bytes", "packets_lost", "rtt",
     "omitted"], []⟩,
   ⟨["protocol", "pep", "sat", "rate", "loss", "queue", "txq",
     "run", "con_est", "ttfb"], []⟩,
   ⟨["protocol", "pep", "sat", "rate", "loss", "queue", "txq",
     "seq", "ttl", "rtt"], []⟩,
   ⟨["protocol", "pep", "sat", "rate", "loss", "queue", "txq",
     "packets_sent", "packets_received", "rtt_min", "rtt_avg", "rtt_max",
     "rtt_mdev"], []⟩⟩

/-- One PEP iteration of the per-directory loop: the six per-run extractors,
each extended with the decoded parameters. -/
def processPep (dirFiles : List (String × String)) (p : FolderParams)
    (pep : Bool) : Option (DF × DF × DF × DF × DF × DF) :=
  let e := fun df proto => extend_df df proto pep p.sat p.rate p.loss p.queue p.txq
  (parse_quic_ttfb dirFiles pep).bind fun d3 =>
  (parse_tcp_client dirFiles pep).bind fun d4 =>
  (parse_tcp_server dirFiles pep).bind fun d5 =>
  (parse_tcp_ttfb dirFiles pep).map fun d6 =>
    (e (parse_quic_client dirFiles pep) "quic",
     e (parse_quic_server dirFiles pep) "quic",
     e d3 "quic", e d4 "tcp", e d5 "tcp", e d6 "tcp")

/-- One directory of the Dataset-Builder loop: both PEP variants of the six
per-run extractors, then ping (whose absence is tolerated). -/
def parseDirStep (a : ParsedResults) (dirFiles : List (String × String))
    (p : FolderParams) : Option ParsedResults :=
  (processPep dirFiles p false).bind fun t1 =>
  (processPep dirFiles p true).map fun t2 =>
    let pr : DF × DF :=
      match parse_ping dirFiles with
      | none => (a.ping_raw, a.ping_summary)
      | some (raw, summ) =>
        (a.ping_raw.appendDF
          (extend_df raw "icmp" false p.sat p.rate p.loss p.queue p.txq),
         a.ping_summary.appendDF
          (extend_df summ "icmp" false p.sat p.rate p.loss p.queue p.txq))
    ParsedResults.mk
      ((a.quic_client.appendDF t1.1).appendDF t2.1)
      ((a.quic_server.appendDF t1.2.1).appendDF t2.2.1)
      ((a.quic_times.appendDF t1.2.2.1).appendDF t2.2.2.1)
      ((a.tcp_client.appendDF t1.2.2.2.1).appendDF t2.2.2.2.1)
      ((a.tcp_server.appendDF t1.2.2.2.2.1).appendDF t2.2.2.2.2.1)
      ((a.tcp_times.appendDF t1.2.2.2.2.2).appendDF t2.2.2.2.2.2)
      pr.1 pr.2

/-- The whole parse() pipeline over a model root directory: decode each
directory name (skipping non-matches), run all extractors, then normalize
all eight frames with fix_dtypes. -/
def parse (inDir : List (String × List (String × String))) :
    Option ParsedResults :=
  (inDir.foldl (fun acc dir => acc.bind fun a =>
      match decode_folder_name dir.1 with
      | none => some a
      | some p => parseDirStep a dir.2 p)
    (some initParsed)).bind fun r =>
  (fix_dtypes r.quic_client).bind fun a1 =>
  (fix_dtypes r.quic_server).bind fun a2 =>
  (fix_dtypes r.quic_times).bind fun a3 =>
  (fix_dtypes r.tcp_client).bind fun a4 =>
  (fix_dtypes r.tcp_server).bind fun a5 =>
  (fix_dtypes r.tcp_times).bind fun a6 =>
  (fix_dtypes r.ping_raw).bind fun a7 =>
  (fix_dtypes r.ping_summary).map fun a8 =>
  ParsedResults.mk a1 a2 a3 a4 a5 a6 a7 a8

end QOE

open QOE

/-! ## Helper lemmas on the token parsers -/

theorem stripLit_some {lit cs r : List Char} (h : stripLit lit cs = some r) :
    cs = lit ++ r := by
  induction lit generalizing cs with
  | nil =>
    simp only [stripLit, Option.some.injEq] at h
    simp [h]
  | cons l lt ih =>
    cases cs with
    | nil => simp [stripLit] at h
    | cons c ct =>
      simp only [stripLit] at h
      split at h
      · next hc => rw [List.cons_append, hc]; exact congrArg _ (ih h)
      · exact absurd h (by simp)

theorem stripLit_self (lit r : List Char) : stripLit lit (lit ++ r) = some r := by
  induction lit with
  | nil => rfl
  | cons l lt ih => simp [stripLit, ih]

theorem takeWhile_app {p : Char → Bool} :
    ∀ (a b : List Char), (∀ x ∈ a, p x = true) →
      (∀ c t, b = c :: t → p c = false) →
      (a ++ b).takeWhile p = a ∧ (a ++ b).dropWhile p = b := by
  intro a
  induction a with
  | nil =>
    intro b _ h2
    cases b with
    | nil => exact ⟨rfl, rfl⟩
    | cons c t => simp [List.takeWhile_cons, List.dropWhile_cons, h2 c t rfl]
  | cons x xs ih =>
    intro b h1 h2
    have hx : p x = true := h1 x (by simp)
    have hr := ih b (fun y hy => h1 y (by simp [hy])) h2
    simp [List.takeWhile_cons, List.dropWhile_cons, hx, hr.1, hr.2]

theorem dropWhile_head_false {p : Char → Bool} :
    ∀ {cs : List Char} {c t}, cs.dropWhile p = c :: t → p c = false := by
  intro cs
  induction cs with
  | nil => intro c t h; simp at h
  | cons x xs ih =>
    intro c t h
    rw [List.dropWhile_cons] at h
    split at h
    · exact ih h
    · next hx =>
      injection h with h1 _
      subst h1
      simpa using hx

theorem digits1_app {ds : List Char} (h1 : isDigitStr ds) {b : List Char}
    (h2 : ∀ c t, b = c :: t → c.isDigit = false) :
    digits1 (ds ++ b) = some (ds, b) := by
  have h := takeWhile_app ds b h1.2 h2
  simp [digits1, h.1, h.2, h1.1]

theorem digits1_exact {ds : List Char} (h1 : isDigitStr ds) :
    digits1 ds = some (ds, []) := by
  simpa using digits1_app h1 (b := []) (fun c t h => nomatch h)

theorem digits1_some {cs ds r : List Char} (h : digits1 cs = some (ds, r)) :
    cs = ds ++ r ∧ isDigitStr ds ∧ ∀ c t, r = c :: t → c.isDigit = false := by
  simp only [digits1] at h
  split at h
  · exact absurd h (by simp)
  · next hne =>
    simp only [Option.some.injEq, Prod.mk.injEq] at h
    obtain ⟨h1, h2⟩ := h
    subst h1; subst h2
    exact ⟨(List.takeWhile_append_dropWhile _ _).symm,
      ⟨hne, fun x hx => List.mem_takeWhile_imp hx⟩,
      fun c t ht => dropWhile_head_false ht⟩

theorem numTok1_app {tok : List Char} (h1 : isNumStr tok) {b : List Char}
    (h2 : ∀ c t, b = c :: t → c.isDigit = false ∧ c ≠ '.') :
    numTok1 (tok ++ b) = some (tok, b) := by
  obtain ⟨ip, fp, hip, hcase⟩ := h1
  rcases hcase with rfl | ⟨hfp, rfl⟩
  · have hd : digits1 (tok ++ b) = some (tok, b) :=
      digits1_app hip (fun c t h => (h2 c t h).1)
    simp only [numTok1, hd]
    cases b with
    | nil => rfl
    | cons c t =>
      cases t with
      | nil => rfl
      | cons d t2 =>
        have hc := h2 c (d :: t2) rfl
        exact if_neg (fun hand : c = '.' ∧ d.isDigit = true => hc.2 hand.1)
  · obtain ⟨d, fp', rfl⟩ : ∃ d fp', fp = d :: fp' := by
      cases fp with
      | nil => exact absurd rfl hfp.1
      | cons d f => exact ⟨d, f, rfl⟩
    have hdd : d.isDigit = true := hfp.2 d (by simp)
    have hfp' : ∀ x ∈ fp', x.isDigit = true := fun x hx => hfp.2 x (by simp [hx])
    have hTW := takeWhile_app fp' b hfp' (fun c t h => (h2 c t h).1)
    have hshape : (ip ++ '.' :: d :: fp') ++ b = ip ++ '.' :: d :: (fp' ++ b) := by
      simp
    rw [hshape]
    have hd2 : digits1 (ip ++ '.' :: d :: (fp' ++ b)) =
        some (ip, '.' :: d :: (fp' ++ b)) :=
      digits1_app hip (fun c t h => by cases h; decide)
    simp [numTok1, hd2, hdd, hTW.1, hTW.2]

theorem numTok1_exact {tok : List Char} (h1 : isNumStr tok) :
    numTok1 tok = some (tok, []) := by
  simpa using numTok1_app h1 (b := []) (fun c t h => nomatch h)

theorem numTok1_some {cs tok r : List Char} (h : numTok1 cs = some (tok, r)) :
    cs = tok ++ r ∧ isNumStr tok := by
  simp only [numTok1] at h
  cases hD : digits1 cs with
  | none => rw [hD] at h; exact absurd h (by simp)
  | some pr =>
    obtain ⟨ip, r1⟩ := pr
    rw [hD] at h
    obtain ⟨hcs, hip, _⟩ := digits1_some hD
    rcases r1 with _ | ⟨c, _ | ⟨d, t⟩⟩
    · simp only [Option.some.injEq, Prod.mk.injEq] at h
      obtain ⟨rfl, rfl⟩ := h
      exact ⟨by simpa using hcs, ⟨ip, [], hip, Or.inl rfl⟩⟩
    · simp only [Option.some.injEq, Prod.mk.injEq] at h
      obtain ⟨rfl, rfl⟩ := h
      exact ⟨hcs, ⟨ip, [], hip, Or.inl rfl⟩⟩
    · have h' : (if c = '.' ∧ d.isDigit = true then
          some (ip ++ '.' :: d :: t.takeWhile Char.isDigit, t.dropWhile Char.isDigit)
        else some (ip, c :: d :: t)) = some (tok, r) := h
      by_cases hcd : c = '.' ∧ d.isDigit = true
      · rw [if_pos hcd] at h'
        obtain ⟨hc, hdd⟩ := hcd
        subst hc
        simp only [Option.some.injEq, Prod.mk.injEq] at h'
        obtain ⟨rfl, rfl⟩ := h'
        constructor
        · rw [hcs]
          simp [List.takeWhile_append_dropWhile]
        · refine ⟨ip, d :: t.takeWhile Char.isDigit, hip, Or.inr ⟨⟨by simp, ?_⟩, rfl⟩⟩
          intro x hx
          rcases List.mem_cons.mp hx with rfl | hx2
          · exact hdd
          · exact List.mem_takeWhile_imp hx2
      · rw [if_neg hcd] at h'
        simp only [Option.some.injEq, Prod.mk.injEq] at h'
        obtain ⟨rfl, rfl⟩ := h'
        exact ⟨hcs, ⟨ip, [], hip, Or.inl rfl⟩⟩

theorem satTok_GEO (r : List Char) : satTok ('G' :: 'E' :: 'O' :: r) = some ("GEO", r) := rfl

theorem satTok_MEO (r : List Char) : satTok ('M' :: 'E' :: 'O' :: r) = some ("MEO", r) := rfl

theorem satTok_LEO (r : List Char) : satTok ('L' :: 'E' :: 'O' :: r) = some ("LEO", r) := rfl

theorem satTok_NONE (r : List Char) : satTok ('N' :: 'O' :: 'N' :: 'E' :: r) = some ("NONE", r) := rfl

theorem satTok_some {cs : List Char} {s : String} {r : List Char}
    (h : satTok cs = some (s, r)) :
    cs = s.data ++ r ∧ s ∈ (["GEO", "MEO", "LEO", "NONE"] : List String) := by
  simp only [satTok] at h
  cases h1 : stripLit "GEO".data cs with
  | some r1 =>
    rw [h1] at h
    simp only [Option.some.injEq, Prod.mk.injEq] at h
    obtain ⟨rfl, rfl⟩ := h
    exact ⟨stripLit_some h1, by simp⟩
  | none =>
    rw [h1] at h
    cases h2 : stripLit "MEO".data cs with
    | some r2 =>
      rw [h2] at h
      simp only [Option.some.injEq, Prod.mk.injEq] at h
      obtain ⟨rfl, rfl⟩ := h
      exact ⟨stripLit_some h2, by simp⟩
    | none =>
      rw [h2] at h
      cases h3 : stripLit "LEO".data cs with
      | some r3 =>
        rw [h3] at h
        simp only [Option.some.injEq, Prod.mk.injEq] at h
        obtain ⟨rfl, rfl⟩ := h
        exact ⟨stripLit_some h3, by simp⟩
      | none =>
        rw [h3] at h
        cases h4 : stripLit "NONE".data cs with
        | some r4 =>
          rw [h4] at h
          simp only [Option.some.injEq, Prod.mk.injEq] at h
          obtain ⟨rfl, rfl⟩ := h
          exact ⟨stripLit_some h4, by simp⟩
        | none => rw [h4] at h; exact absurd h (by simp)

theorem rLit : "_r".data = ['_', 'r'] := rfl

theorem mbitlLit : "mbit_l".data = ['m', 'b', 'i', 't', '_', 'l'] := rfl

theorem qLit : "_q".data = ['_', 'q'] := rfl

theorem txqLit : "_txq".data = ['_', 't', 'x', 'q'] := rfl

theorem stripLit_rr (r : List Char) : stripLit "_r".data ('_' :: 'r' :: r) = some r := rfl

theorem stripLit_mbitl (r : List Char) :
    stripLit "mbit_l".data ('m' :: 'b' :: 'i' :: 't' :: '_' :: 'l' :: r) = some r := rfl

theorem stripLit_qq (r : List Char) : stripLit "_q".data ('_' :: 'q' :: r) = some r := rfl

theorem stripLit_txq (r : List Char) :
    stripLit "_txq".data ('_' :: 't' :: 'x' :: 'q' :: r) = some r := rfl

theorem satTok_app {sat : String}
    (hmem : sat ∈ (["GEO", "MEO", "LEO", "NONE"] : List String)) (r : List Char) :
    satTok (sat.data ++ r) = some (sat, r) := by
  fin_cases hmem <;> rfl

theorem numVal_nonneg (cs : List Char) : 0 ≤ numVal cs := by
  unfold numVal
  positivity

/-- The decoder agrees with the spec grammar (both directions). -/
theorem decode_grammar_iff (name : String) (p : FolderParams) :
    decode_folder_name name = some p ↔ SpecParses name p := by
  constructor
  · intro h
    simp only [decode_folder_name, Option.bind_eq_some] at h
    obtain ⟨⟨sat, r1⟩, hsat, h⟩ := h
    obtain ⟨r2, hr2, h⟩ := h
    obtain ⟨⟨rateDs, r3⟩, hrate, h⟩ := h
    obtain ⟨r4, hr4, h⟩ := h
    obtain ⟨⟨lossTok, r5⟩, hloss, h⟩ := h
    obtain ⟨r6, hr6, h⟩ := h
    obtain ⟨⟨queueTok, r7⟩, hqueue, h⟩ := h
    dsimp only at hr2 hr4 hr6 h
    obtain ⟨hn1, hmem⟩ := satTok_some hsat
    have hn2 := stripLit_some hr2
    obtain ⟨hn3, hrateD, _⟩ := digits1_some hrate
    have hn4 := stripLit_some hr4
    obtain ⟨hn5, hlossN⟩ := numTok1_some hloss
    have hn6 := stripLit_some hr6
    obtain ⟨hn7, hqueueN⟩ := numTok1_some hqueue
    rcases r7 with _ | ⟨c7, t7⟩
    · have h' : some (FolderParams.mk sat (digitsVal rateDs) (numVal lossTok / 100)
          (numVal queueTok) 1000) = some p := h
      obtain rfl := (Option.some.injEq _ _).mp h'
      refine ⟨sat, rateDs, lossTok, queueTok, [], hmem, hrateD, hlossN, hqueueN, ?_,
        Or.inl ⟨rfl, rfl⟩, rfl, rfl, rfl, rfl⟩
      rw [hn1, hn2, hn3, hn4, hn5, hn6, hn7]
      simp [rLit, mbitlLit, qLit, txqLit, List.append_assoc]
    · have h' : (stripLit "_txq".data (c7 :: t7)).bind (fun r8 =>
          (digits1 r8).bind fun tr =>
          if tr.2 = [] then
            some (FolderParams.mk sat (digitsVal rateDs) (numVal lossTok / 100)
              (numVal queueTok) (digitsVal tr.1))
          else none) = some p := h
      simp only [Option.bind_eq_some] at h'
      obtain ⟨r8, hr8, h'⟩ := h'
      obtain ⟨⟨txqDs, r9⟩, htxq, h'⟩ := h'
      dsimp only at h'
      obtain ⟨hn8, htxqD, _⟩ := digits1_some htxq
      by_cases h9 : r9 = []
      · subst h9
        rw [if_pos rfl] at h'
        obtain rfl := (Option.some.injEq _ _).mp h'
        refine ⟨sat, rateDs, lossTok, queueTok, "_txq".data ++ txqDs, hmem, hrateD,
          hlossN, hqueueN, ?_, Or.inr ⟨txqDs, htxqD, rfl, rfl⟩, rfl, rfl, rfl, rfl⟩
        have hn8' := stripLit_some hr8
        rw [hn1, hn2, hn3, hn4, hn5, hn6, hn7, hn8', hn8]
        simp [rLit, mbitlLit, qLit, txqLit, List.append_assoc]
      · rw [if_neg (by simpa using h9)] at h'
        exact absurd h' (by simp)
  · rintro ⟨sat, rateDs, lossTok, queueTok, txqPart, hmem, hrate, hloss, hqueue,
      hname, htxq, hps, hpr, hpl, hpq⟩
    obtain ⟨psat, prate, ploss, pqueue, ptxq⟩ := p
    simp only at hps hpr hpl hpq
    subst hps; subst hpr; subst hpl; subst hpq
    rcases htxq with ⟨hT, hTxq⟩ | ⟨txqDs, htxqD, hT, hTxq⟩
    · subst hT
      simp only at hTxq
      subst hTxq
      have hname' : name.data = psat.data ++ ('_' :: 'r' :: (rateDs ++
          ('m' :: 'b' :: 'i' :: 't' :: '_' :: 'l' :: (lossTok ++
          ('_' :: 'q' :: queueTok))))) := by
        rw [hname]
        simp [rLit, mbitlLit, qLit, List.append_assoc]
      simp only [decode_folder_name, hname']
      rw [satTok_app hmem]
      simp only [Option.some_bind]
      rw [stripLit_rr]
      simp only [Option.some_bind]
      rw [digits1_app hrate (fun c t h => by cases h; decide)]
      simp only [Option.some_bind]
      rw [stripLit_mbitl]
      simp only [Option.some_bind]
      rw [numTok1_app hloss (fun c t h => by cases h; decide)]
      simp only [Option.some_bind]
      rw [stripLit_qq]
      simp only [Option.some_bind]
      rw [numTok1_exact hqueue]
      simp only [Option.some_bind]
    · subst hT
      simp only at hTxq
      subst hTxq
      have hname' : name.data = psat.data ++ ('_' :: 'r' :: (rateDs ++
          ('m' :: 'b' :: 'i' :: 't' :: '_' :: 'l' :: (lossTok ++
          ('_' :: 'q' :: (queueTok ++
          ('_' :: 't' :: 'x' :: 'q' :: txqDs))))))) := by
        rw [hname]
        simp [rLit, mbitlLit, qLit, txqLit, List.append_assoc]
      simp only [decode_folder_name, hname']
      rw [satTok_app hmem]
      simp only [Option.some_bind]
      rw [stripLit_rr]
      simp only [Option.some_bind]
      rw [digits1_app hrate (fun c t h => by cases h; decide)]
      simp only [Option.some_bind]
      rw [stripLit_mbitl]
      simp only [Option.some_bind]
      rw [numTok1_app hloss (fun c t h => by cases h; decide)]
      simp only [Option.some_bind]
      rw [stripLit_qq]
      simp only [Option.some_bind]
      rw [numTok1_app hqueue (fun c t h => by cases h; decide)]
      simp only [Option.some_bind]
      rw [show stripLit "_txq".data ('_' :: 't' :: 'x' :: 'q' :: txqDs) = some txqDs
        from rfl]
      simp only [Option.some_bind]
      rw [digits1_exact htxqD]
      simp only [Option.some_bind]
      simp

/-! ## Claim C1 -/

/-- Claim C1 (code bug): the spec demands powers of two 2^10 … 2^80 for the
prefixes k..y, but the source writes `2*60`, `2*70`, `2*80` for E/Z/Y.  This
theorem evaluates the code at the failing inputs: the factors for e/z/y are
120, 140 and 160 instead of 2^60, 2^70, 2^80, while the factors for k/m/g/t/p,
the empty prefix, and the two worked examples of the spec sentence behave as
claimed. -/
theorem C1_bps_factor_ezy_bug :
    QOE.bps_factor "e" = 120 ∧ QOE.bps_factor "E" = 120 ∧
    QOE.bps_factor "z" = 140 ∧ QOE.bps_factor "y" = 160 ∧
    QOE.bps_factor "e" ≠ 2 ^ 60 ∧
    QOE.bps_factor "k" = 2 ^ 10 ∧ QOE.bps_factor "m" = 2 ^ 20 ∧
    QOE.bps_factor "g" = 2 ^ 30 ∧ QOE.bps_factor "t" = 2 ^ 40 ∧
    QOE.bps_factor "p" = 2 ^ 50 ∧ QOE.bps_factor "" = 1 ∧
    ((5.5 : ℚ) * QOE.bps_factor "m" = 5767168) ∧
    ((100 : ℚ) * QOE.bps_factor "" = 100) := by
  refine ⟨rfl, rfl, rfl, rfl, by decide, rfl, rfl, rfl, rfl, rfl, rfl, ?_, ?_⟩
  · rw [show QOE.bps_factor "m" = 2 ^ 20 from rfl]; norm_num
  · rw [show QOE.bps_factor "" = 1 from rfl]; norm_num

/-! ## Claim C4 -/

/-- Claim C4: a directory name is decoded to parameters exactly when it
matches the grammar `SAT_r{rate}mbit_l{loss}_q{queue}[_txq{txq}]` with SAT in
GEO/MEO/LEO/NONE, in which case loss is the encoded value divided by 100, txq
the encoded value (1000 when the optional group is absent) and rate the
encoded integer; any other directory name yields a skip (`none`). -/
theorem C4_param_decoder_grammar (name : String) (p : FolderParams) :
    decode_folder_name name = some p ↔ SpecParses name p :=
  decode_grammar_iff name p

/-! ## Claim C8 -/

/-- Claim C8, counterexample: the directory name `NONE_r1mbit_l200_q1` is
accepted by the decoder and yields loss = 2, which is not in [0,1]. -/
theorem C8_counterexample :
    decode_folder_name "NONE_r1mbit_l200_q1" =
      some (FolderParams.mk "NONE" 1 2 1 1000) ∧
    ¬ (FolderParams.mk "NONE" 1 2 1 1000).loss ≤ 1 := by
  constructor
  · have h1 : decode_folder_name "NONE_r1mbit_l200_q1" =
        some ⟨"NONE", 1, numVal ['2', '0', '0'] / 100, numVal ['1'], 1000⟩ := rfl
    rw [h1, show numVal ['2', '0', '0'] = (200 : ℚ) + (0 : ℚ) / (10 : ℚ) ^ (0 : ℕ) from rfl,
      show numVal ['1'] = (1 : ℚ) + (0 : ℚ) / (10 : ℚ) ^ (0 : ℕ) from rfl]
    norm_num
  · norm_num [FolderParams.loss]

/-- Claim C8 as amended: for every directory name accepted by the Parameter
Decoder the resulting loss value is nonnegative (the upper bound 1 of the
claim fails, see the counterexample). -/
theorem C8_loss_nonneg (name : String) (p : FolderParams)
    (h : decode_folder_name name = some p) : 0 ≤ p.loss := by
  obtain ⟨sat, rateDs, lossTok, queueTok, txqPart, _, _, _, _, _, _, _, _, hpl, _⟩ :=
    (decode_grammar_iff name p).mp h
  rw [hpl]
  have hnn := numVal_nonneg lossTok
  positivity

/-- Witness for C8: the decoder accepts `LEO_r50mbit_l2_q500` and its loss
value 1/50 is nonnegative. -/
theorem C8_loss_nonneg_witness :
    (0 : ℚ) ≤ (FolderParams.mk "LEO" 50 (1/50) 500 1000).loss := by
  refine C8_loss_nonneg "LEO_r50mbit_l2_q500" _ ?_
  rw [show decode_folder_name "LEO_r50mbit_l2_q500" =
      some ⟨"LEO", 50, numVal ['2'] / 100, numVal ['5', '0', '0'], 1000⟩ from rfl,
    show numVal ['2'] = (2 : ℚ) + (0 : ℚ) / (10 : ℚ) ^ (0 : ℕ) from rfl,
    show numVal ['5', '0', '0'] = (500 : ℚ) + (0 : ℚ) / (10 : ℚ) ^ (0 : ℕ) from rfl]
  norm_num

/-! ## TTFB fold lemmas (for claims C6 and C9) -/

theorem quic_con_not_ttfb {l : List Char}
    (h : startsWithL "connection establishment time:".data l = true) :
    startsWithL "time to first byte:".data l = false := by
  cases l with
  | nil => simp [startsWithL, stripLit] at h
  | cons c t =>
    have h' : (if c = 'c' then stripLit "onnection establishment time:".data t
        else none).isSome = true := h
    by_cases hc : c = 'c'
    · subst hc
      rfl
    · rw [if_neg hc] at h'
      simp at h'

theorem tcp_con_not_ttfb {l : List Char}
    (h : startsWithL "established=".data l = true) :
    startsWithL "ttfb=".data l = false := by
  cases l with
  | nil => simp [startsWithL, stripLit] at h
  | cons c t =>
    have h' : (if c = 'e' then stripLit "stablished=".data t
        else none).isSome = true := h
    by_cases hc : c = 'e'
    · subst hc
      rfl
    · rw [if_neg hc] at h'
      simp at h'

theorem quicTtfbFold_spec (lines : List (List Char)) :
    ∀ (c t : Option ℤ),
      (c = none → ∀ l,
        findFirst (fun s => startsWithL "connection establishment time:".data s) lines = some l →
        (quicTtfbVal l).isSome = true) →
      (t = none → ∀ l,
        findFirst (fun s => startsWithL "time to first byte:".data s) lines = some l →
        (quicTtfbVal l).isSome = true) →
      quicTtfbFold lines c t = some
        ((match c with
          | some v => some v
          | none => (findFirst (fun s => startsWithL "connection establishment time:".data s) lines).bind quicTtfbVal),
         (match t with
          | some v => some v
          | none => (findFirst (fun s => startsWithL "time to first byte:".data s) lines).bind quicTtfbVal)) := by
  induction lines with
  | nil =>
    intro c t _ _
    cases c <;> cases t <;> rfl
  | cons l ls ih =>
    intro c t hc ht
    by_cases hcon : startsWithL "connection establishment time:".data l = true
    · have hnt : startsWithL "time to first byte:".data l = false := quic_con_not_ttfb hcon
      have hffc : findFirst (fun s => startsWithL "connection establishment time:".data s) (l :: ls) = some l := by
        simp [findFirst, hcon]
      have hfft : findFirst (fun s => startsWithL "time to first byte:".data s) (l :: ls) =
          findFirst (fun s => startsWithL "time to first byte:".data s) ls := by
        simp [findFirst, hnt]
      cases c with
      | some v =>
        have step : quicTtfbFold (l :: ls) (some v) t = quicTtfbFold ls (some v) t := by
          simp [quicTtfbFold, hcon]
        rw [step, hfft]
        exact ih (some v) t (fun h => absurd h (by simp))
          (fun h l' hl' => ht h l' (hfft.trans hl'))
      | none =>
        have hvs := hc rfl l hffc
        obtain ⟨v, hv⟩ := Option.isSome_iff_exists.mp hvs
        have step : quicTtfbFold (l :: ls) none t = quicTtfbFold ls (some v) t := by
          simp [quicTtfbFold, hcon, hv]
        rw [step, hffc, hfft]
        simp only [Option.some_bind, hv]
        exact ih (some v) t (fun h => absurd h (by simp))
          (fun h l' hl' => ht h l' (hfft.trans hl'))
    · rw [Bool.not_eq_true] at hcon
      have hffc : findFirst (fun s => startsWithL "connection establishment time:".data s) (l :: ls) =
          findFirst (fun s => startsWithL "connection establishment time:".data s) ls := by
        simp [findFirst, hcon]
      by_cases httfb : startsWithL "time to first byte:".data l = true
      · have hfft : findFirst (fun s => startsWithL "time to first byte:".data s) (l :: ls) = some l := by
          simp [findFirst, httfb]
        cases t with
        | some v =>
          have step : quicTtfbFold (l :: ls) c (some v) = quicTtfbFold ls c (some v) := by
            simp [quicTtfbFold, hcon, httfb]
          rw [step, hffc]
          exact ih c (some v) (fun h l' hl' => hc h l' (hffc.trans hl'))
            (fun h => absurd h (by simp))
        | none =>
          have hvs := ht rfl l hfft
          obtain ⟨v, hv⟩ := Option.isSome_iff_exists.mp hvs
          have step : quicTtfbFold (l :: ls) c none = quicTtfbFold ls c (some v) := by
            simp [quicTtfbFold, hcon, httfb, hv]
          rw [step, hffc, hfft]
          simp only [Option.some_bind, hv]
          exact ih c (some v) (fun h l' hl' => hc h l' (hffc.trans hl'))
            (fun h => absurd h (by simp))
      · rw [Bool.not_eq_true] at httfb
        have hfft : findFirst (fun s => startsWithL "time to first byte:".data s) (l :: ls) =
            findFirst (fun s => startsWithL "time to first byte:".data s) ls := by
          simp [findFirst, httfb]
        have step : quicTtfbFold (l :: ls) c t = quicTtfbFold ls c t := by
          simp [quicTtfbFold, hcon, httfb]
        rw [step, hffc, hfft]
        exact ih c t (fun h l' hl' => hc h l' (hffc.trans hl'))
          (fun h l' hl' => ht h l' (hfft.trans hl'))

theorem tcpTtfbFold_spec (lines : List (List Char)) :
    ∀ (c t : Option ℚ),
      (c = none → ∀ l,
        findFirst (fun s => startsWithL "established=".data s) lines = some l →
        (tcpTtfbVal l).isSome = true) →
      (t = none → ∀ l,
        findFirst (fun s => startsWithL "ttfb=".data s) lines = some l →
        (tcpTtfbVal l).isSome = true) →
      tcpTtfbFold lines c t = some
        ((match c with
          | some v => some v
          | none => (findFirst (fun s => startsWithL "established=".data s) lines).bind tcpTtfbVal),
         (match t with
          | some v => some v
          | none => (findFirst (fun s => startsWithL "ttfb=".data s) lines).bind tcpTtfbVal)) := by
  induction lines with
  | nil =>
    intro c t _ _
    cases c <;> cases t <;> rfl
  | cons l ls ih =>
    intro c t hc ht
    by_cases hcon : startsWithL "established=".data l = true
    · have hnt : startsWithL "ttfb=".data l = false := tcp_con_not_ttfb hcon
      have hffc : findFirst (fun s => startsWithL "established=".data s) (l :: ls) = some l := by
        simp [findFirst, hcon]
      have hfft : findFirst (fun s => startsWithL "ttfb=".data s) (l :: ls) =
          findFirst (fun s => startsWithL "ttfb=".data s) ls := by
        simp [findFirst, hnt]
      cases c with
      | some v =>
        have step : tcpTtfbFold (l :: ls) (some v) t = tcpTtfbFold ls (some v) t := by
          simp [tcpTtfbFold, hcon]
        rw [step, hfft]
        exact ih (some v) t (fun h => absurd h (by simp))
          (fun h l' hl' => ht h l' (hfft.trans hl'))
      | none =>
        have hvs := hc rfl l hffc
        obtain ⟨v, hv⟩ := Option.isSome_iff_exists.mp hvs
        have step : tcpTtfbFold (l :: ls) none t = tcpTtfbFold ls (some v) t := by
          simp [tcpTtfbFold, hcon, hv]
        rw [step, hffc, hfft]
        simp only [Option.some_bind, hv]
        exact ih (some v) t (fun h => absurd h (by simp))
          (fun h l' hl' => ht h l' (hfft.trans hl'))
    · rw [Bool.not_eq_true] at hcon
      have hffc : findFirst (fun s => startsWithL "established=".data s) (l :: ls) =
          findFirst (fun s => startsWithL "established=".data s) ls := by
        simp [findFirst, hcon]
      by_cases httfb : startsWithL "ttfb=".data l = true
      · have hfft : findFirst (fun s => startsWithL "ttfb=".data s) (l :: ls) = some l := by
          simp [findFirst, httfb]
        cases t with
        | some v =>
          have step : tcpTtfbFold (l :: ls) c (some v) = tcpTtfbFold ls c (some v) := by
            simp [tcpTtfbFold, hcon, httfb]
          rw [step, hffc]
          exact ih c (some v) (fun h l' hl' => hc h l' (hffc.trans hl'))
            (fun h => absurd h (by simp))
        | none =>
          have hvs := ht rfl l hfft
          obtain ⟨v, hv⟩ := Option.isSome_iff_exists.mp hvs
          have step : tcpTtfbFold (l :: ls) c none = tcpTtfbFold ls c (some v) := by
            simp [tcpTtfbFold, hcon, httfb, hv]
          rw [step, hffc, hfft]
          simp only [Option.some_bind, hv]
          exact ih c (some v) (fun h l' hl' => hc h l' (hffc.trans hl'))
            (fun h => absurd h (by simp))
      · rw [Bool.not_eq_true] at httfb
        have hfft : findFirst (fun s => startsWithL "ttfb=".data s) (l :: ls) =
            findFirst (fun s => startsWithL "ttfb=".data s) ls := by
          simp [findFirst, httfb]
        have step : tcpTtfbFold (l :: ls) c t = tcpTtfbFold ls c t := by
          simp [tcpTtfbFold, hcon, httfb]
        rw [step, hffc, hfft]
        exact ih c t (fun h l' hl' => hc h l' (hffc.trans hl'))
          (fun h l' hl' => ht h l' (hfft.trans hl'))

theorem quicTtfbFold_inv (lines : List (List Char)) :
    ∀ (c t : Option ℤ) res, quicTtfbFold lines c t = some res →
      res = ((match c with
          | some v => some v
          | none => (findFirst (fun s => startsWithL "connection establishment time:".data s) lines).bind quicTtfbVal),
        (match t with
          | some v => some v
          | none => (findFirst (fun s => startsWithL "time to first byte:".data s) lines).bind quicTtfbVal)) := by
  induction lines with
  | nil =>
    intro c t res h
    have h' : some (c, t) = some res := h
    obtain rfl := (Option.some.injEq _ _).mp h'
    cases c <;> cases t <;> rfl
  | cons l ls ih =>
    intro c t res h
    by_cases hcon : startsWithL "connection establishment time:".data l = true
    · have hnt : startsWithL "time to first byte:".data l = false := quic_con_not_ttfb hcon
      have hffc : findFirst (fun s => startsWithL "connection establishment time:".data s) (l :: ls) = some l := by
        simp [findFirst, hcon]
      have hfft : findFirst (fun s => startsWithL "time to first byte:".data s) (l :: ls) =
          findFirst (fun s => startsWithL "time to first byte:".data s) ls := by
        simp [findFirst, hnt]
      cases c with
      | some v =>
        have step : quicTtfbFold (l :: ls) (some v) t = quicTtfbFold ls (some v) t := by
          simp [quicTtfbFold, hcon]
        rw [hfft]
        exact ih (some v) t res (step.symm.trans h)
      | none =>
        cases hv : quicTtfbVal l with
        | none =>
          have step : quicTtfbFold (l :: ls) none t = none := by
            simp [quicTtfbFold, hcon, hv]
          rw [step] at h
          exact absurd h (by simp)
        | some v =>
          have step : quicTtfbFold (l :: ls) none t = quicTtfbFold ls (some v) t := by
            simp [quicTtfbFold, hcon, hv]
          rw [hffc, hfft]
          simp only [Option.some_bind, hv]
          exact ih (some v) t res (step.symm.trans h)
    · rw [Bool.not_eq_true] at hcon
      have hffc : findFirst (fun s => startsWithL "connection establishment time:".data s) (l :: ls) =
          findFirst (fun s => startsWithL "connection establishment time:".data s) ls := by
        simp [findFirst, hcon]
      by_cases httfb : startsWithL "time to first byte:".data l = true
      · have hfft : findFirst (fun s => startsWithL "time to first byte:".data s) (l :: ls) = some l := by
          simp [findFirst, httfb]
        cases t with
        | some v =>
          have step : quicTtfbFold (l :: ls) c (some v) = quicTtfbFold ls c (some v) := by
            simp [quicTtfbFold, hcon, httfb]
          rw [hffc]
          exact ih c (some v) res (step.symm.trans h)
        | none =>
          cases hv : quicTtfbVal l with
          | none =>
            have step : quicTtfbFold (l :: ls) c none = none := by
              simp [quicTtfbFold, hcon, httfb, hv]
            rw [step] at h
            exact absurd h (by simp)
          | some v =>
            have step : quicTtfbFold (l :: ls) c none = quicTtfbFold ls c (some v) := by
              simp [quicTtfbFold, hcon, httfb, hv]
            rw [hffc, hfft]
            simp only [Option.some_bind, hv]
            exact ih c (some v) res (step.symm.trans h)
      · rw [Bool.not_eq_true] at httfb
        have hfft : findFirst (fun s => startsWithL "time to first byte:".data s) (l :: ls) =
            findFirst (fun s => startsWithL "time to first byte:".data s) ls := by
          simp [findFirst, httfb]
        have step : quicTtfbFold (l :: ls) c t = quicTtfbFold ls c t := by
          simp [quicTtfbFold, hcon, httfb]
        rw [hffc, hfft]
        exact ih c t res (step.symm.trans h)

theorem tcpTtfbFold_inv (lines : List (List Char)) :
    ∀ (c t : Option ℚ) res, tcpTtfbFold lines c t = some res →
      res = ((match c with
          | some v => some v
          | none => (findFirst (fun s => startsWithL "established=".data s) lines).bind tcpTtfbVal),
        (match t with
          | some v => some v
          | none => (findFirst (fun s => startsWithL "ttfb=".data s) lines).bind tcpTtfbVal)) := by
  induction lines with
  | nil =>
    intro c t res h
    have h' : some (c, t) = some res := h
    obtain rfl := (Option.some.injEq _ _).mp h'
    cases c <;> cases t <;> rfl
  | cons l ls ih =>
    intro c t res h
    by_cases hcon : startsWithL "established=".data l = true
    · have hnt : startsWithL "ttfb=".data l = false := tcp_con_not_ttfb hcon
      have hffc : findFirst (fun s => startsWithL "established=".data s) (l :: ls) = some l := by
        simp [findFirst, hcon]
      have hfft : findFirst (fun s => startsWithL "ttfb=".data s) (l :: ls) =
          findFirst (fun s => startsWithL "ttfb=".data s) ls := by
        simp [findFirst, hnt]
      cases c with
      | some v =>
        have step : tcpTtfbFold (l :: ls) (some v) t = tcpTtfbFold ls (some v) t := by
          simp [tcpTtfbFold, hcon]
        rw [hfft]
        exact ih (some v) t res (step.symm.trans h)
      | none =>
        cases hv : tcpTtfbVal l with
        | none =>
          have step : tcpTtfbFold (l :: ls) none t = none := by
            simp [tcpTtfbFold, hcon, hv]
          rw [step] at h
          exact absurd h (by simp)
        | some v =>
          have step : tcpTtfbFold (l :: ls) none t = tcpTtfbFold ls (some v) t := by
            simp [tcpTtfbFold, hcon, hv]
          rw [hffc, hfft]
          simp only [Option.some_bind, hv]
          exact ih (some v) t res (step.symm.trans h)
    · rw [Bool.not_eq_true] at hcon
      have hffc : findFirst (fun s => startsWithL "established=".data s) (l :: ls) =
          findFirst (fun s => startsWithL "established=".data s) ls := by
        simp [findFirst, hcon]
      by_cases httfb : startsWithL "ttfb=".data l = true
      · have hfft : findFirst (fun s => startsWithL "ttfb=".data s) (l :: ls) = some l := by
          simp [findFirst, httfb]
        cases t with
        | some v =>
          have step : tcpTtfbFold (l :: ls) c (some v) = tcpTtfbFold ls c (some v) := by
            simp [tcpTtfbFold, hcon, httfb]
          rw [hffc]
          exact ih c (some v) res (step.symm.trans h)
        | none =>
          cases hv : tcpTtfbVal l with
          | none =>
            have step : tcpTtfbFold (l :: ls) c none = none := by
              simp [tcpTtfbFold, hcon, httfb, hv]
            rw [step] at h
            exact absurd h (by simp)
          | some v =>
            have step : tcpTtfbFold (l :: ls) c none = tcpTtfbFold ls c (some v) := by
              simp [tcpTtfbFold, hcon, httfb, hv]
            rw [hffc, hfft]
            simp only [Option.some_bind, hv]
            exact ih c (some v) res (step.symm.trans h)
      · rw [Bool.not_eq_true] at httfb
        have hfft : findFirst (fun s => startsWithL "ttfb=".data s) (l :: ls) =
            findFirst (fun s => startsWithL "ttfb=".data s) ls := by
          simp [findFirst, httfb]
        have step : tcpTtfbFold (l :: ls) c t = tcpTtfbFold ls c t := by
          simp [tcpTtfbFold, hcon, httfb]
        rw [hffc, hfft]
        exact ih c t res (step.symm.trans h)

theorem parse_quic_ttfb_single (name content : String) (pep : Bool) (run : ℤ)
    (ct : Option ℤ × Option ℤ)
    (hm : matchRunFile (quicTtfbPre pep) "_client.txt".data name.data = some run)
    (hf : quicTtfbFold (fileLines content) none none = some ct) :
    parse_quic_ttfb [(name, content)] pep =
      some ⟨["run", "con_est", "ttfb"],
        [[("run", Val.i run), ("con_est", optValI ct.1), ("ttfb", optValI ct.2)]]⟩ := by
  have step : parse_quic_ttfb [(name, content)] pep =
      (some (⟨["run", "con_est", "ttfb"], []⟩ : DF)).bind fun df =>
        match matchRunFile (quicTtfbPre pep) "_client.txt".data name.data with
        | none => some df
        | some run =>
          (quicTtfbFold (fileLines content) none none).map (fun ct =>
            df.appendRow [("run", Val.i run), ("con_est", optValI ct.1),
              ("ttfb", optValI ct.2)]) := rfl
  rw [step]
  simp only [Option.some_bind, hm, hf, Option.map_some']
  rfl

theorem parse_tcp_ttfb_single (name content : String) (pep : Bool) (run : ℤ)
    (ct : Option ℚ × Option ℚ)
    (hm : matchRunFile (tcpTtfbPre pep) "_client.txt".data name.data = some run)
    (hf : tcpTtfbFold (fileLines content) none none = some ct) :
    parse_tcp_ttfb [(name, content)] pep =
      some ⟨["run", "con_est", "ttfb"],
        [[("run", Val.i run), ("con_est", optValF ct.1), ("ttfb", optValF ct.2)]]⟩ := by
  have step : parse_tcp_ttfb [(name, content)] pep =
      (some (⟨["run", "con_est", "ttfb"], []⟩ : DF)).bind fun df =>
        match matchRunFile (tcpTtfbPre pep) "_client.txt".data name.data with
        | none => some df
        | some run =>
          (tcpTtfbFold (fileLines content) none none).map (fun ct =>
            df.appendRow [("run", Val.i run), ("con_est", optValF ct.1),
              ("ttfb", optValF ct.2)]) := rfl
  rw [step]
  simp only [Option.some_bind, hm, hf, Option.map_some']
  rfl

/-! ## Claim C6 -/

/-- Claim C6, counterexample: a matched QUIC TTFB file whose labeled line
carries a malformed value makes the extractor raise (modelled `none`) instead
of emitting a row, so "exactly one row per matched file" fails as stated. -/
theorem C6_counterexample :
    parse_quic_ttfb [("quic_ttfb_1_client.txt", "time to first byte: xy\n")] false
      = none := rfl

/-- Claim C6 as amended: provided the first occurrence of each labeled line
carries a well-formed value, the per-file parse yields exactly one row whose
entries are the first occurrences' values (later duplicates are discarded,
absent labels are recorded as absent), and the extractor emits exactly that
one row for a matched file; for the QUIC and the TCP extractor alike. -/
theorem C6_ttfb_one_row_first_wins :
    (∀ (lines : List (List Char)),
      (∀ l, findFirst (fun s => startsWithL "connection establishment time:".data s) lines = some l →
        (quicTtfbVal l).isSome = true) →
      (∀ l, findFirst (fun s => startsWithL "time to first byte:".data s) lines = some l →
        (quicTtfbVal l).isSome = true) →
      quicTtfbFold lines none none = some
        ((findFirst (fun s => startsWithL "connection establishment time:".data s) lines).bind quicTtfbVal,
         (findFirst (fun s => startsWithL "time to first byte:".data s) lines).bind quicTtfbVal)) ∧
    (∀ (lines : List (List Char)),
      (∀ l, findFirst (fun s => startsWithL "established=".data s) lines = some l →
        (tcpTtfbVal l).isSome = true) →
      (∀ l, findFirst (fun s => startsWithL "ttfb=".data s) lines = some l →
        (tcpTtfbVal l).isSome = true) →
      tcpTtfbFold lines none none = some
        ((findFirst (fun s => startsWithL "established=".data s) lines).bind tcpTtfbVal,
         (findFirst (fun s => startsWithL "ttfb=".data s) lines).bind tcpTtfbVal)) ∧
    (∀ (name content : String) (pep : Bool) (run : ℤ) ct,
      matchRunFile (quicTtfbPre pep) "_client.txt".data name.data = some run →
      quicTtfbFold (fileLines content) none none = some ct →
      parse_quic_ttfb [(name, content)] pep =
        some ⟨["run", "con_est", "ttfb"],
          [[("run", Val.i run), ("con_est", optValI ct.1), ("ttfb", optValI ct.2)]]⟩) ∧
    (∀ (name content : String) (pep : Bool) (run : ℤ) ct,
      matchRunFile (tcpTtfbPre pep) "_client.txt".data name.data = some run →
      tcpTtfbFold (fileLines content) none none = some ct →
      parse_tcp_ttfb [(name, content)] pep =
        some ⟨["run", "con_est", "ttfb"],
          [[("run", Val.i run), ("con_est", optValF ct.1), ("ttfb", optValF ct.2)]]⟩) :=
  ⟨fun lines h1 h2 => quicTtfbFold_spec lines none none (fun _ => h1) (fun _ => h2),
   fun lines h1 h2 => tcpTtfbFold_spec lines none none (fun _ => h1) (fun _ => h2),
   parse_quic_ttfb_single, parse_tcp_ttfb_single⟩

/-- Witness for C6: a file with a duplicate `time to first byte:` line keeps
the first value 250 and discards 999. -/
theorem C6_witness :
    quicTtfbFold (fileLines
      "connection establishment time: 130ms\ntime to first byte: 250ms\ntime to first byte: 999ms\n")
      none none = some (some 130, some 250) := by
  have h := C6_ttfb_one_row_first_wins
  refine (h.1 _ ?_ ?_).trans ?_
  · intro l hl
    have hl' : some "connection establishment time: 130ms".data = some l := hl
    injection hl' with h1
    subst h1
    rfl
  · intro l hl
    have hl' : some "time to first byte: 250ms".data = some l := hl
    injection hl' with h1
    subst h1
    rfl
  · rfl

/-! ## Claim C9 -/

/-- Claim C9: the two TTFB extractors normalize units differently: whenever a
TCP TTFB file parse succeeds, the recorded con_est/ttfb equal the first
`established=`/`ttfb=` value parsed as a float and multiplied by 1000.0,
while for QUIC they equal the first labeled value with its final two
characters stripped and the remainder parsed as an integer. -/
theorem C9_ttfb_units :
    (∀ (lines : List (List Char)) res l q,
      tcpTtfbFold lines none none = some res →
      findFirst (fun s => startsWithL "established=".data s) lines = some l →
      pyFloat (pyStrip (afterChar '=' l)) = some q →
      res.1 = some (q * 1000)) ∧
    (∀ (lines : List (List Char)) res l q,
      tcpTtfbFold lines none none = some res →
      findFirst (fun s => startsWithL "ttfb=".data s) lines = some l →
      pyFloat (pyStrip (afterChar '=' l)) = some q →
      res.2 = some (q * 1000)) ∧
    (∀ (lines : List (List Char)) res l n,
      quicTtfbFold lines none none = some res →
      findFirst (fun s => startsWithL "connection establishment time:".data s) lines = some l →
      pyInt (dropLast2 (pyStrip (afterChar ':' l))) = some n →
      res.1 = some n) ∧
    (∀ (lines : List (List Char)) res l n,
      quicTtfbFold lines none none = some res →
      findFirst (fun s => startsWithL "time to first byte:".data s) lines = some l →
      pyInt (dropLast2 (pyStrip (afterChar ':' l))) = some n →
      res.2 = some n) := by
  refine ⟨?_, ?_, ?_, ?_⟩
  · intro lines res l q hf hff hq
    have h := tcpTtfbFold_inv lines none none res hf
    subst h
    simp only [hff, Option.some_bind]
    simp only [tcpTtfbVal, hq, Option.map_some']
  · intro lines res l q hf hff hq
    have h := tcpTtfbFold_inv lines none none res hf
    subst h
    simp only [hff, Option.some_bind]
    simp only [tcpTtfbVal, hq, Option.map_some']
  · intro lines res l n hf hff hn
    have h := quicTtfbFold_inv lines none none res hf
    subst h
    simp only [hff, Option.some_bind]
    simp only [quicTtfbVal] at hn ⊢
    exact hn
  · intro lines res l n hf hff hn
    have h := quicTtfbFold_inv lines none none res hf
    subst h
    simp only [hff, Option.some_bind]
    simp only [quicTtfbVal] at hn ⊢
    exact hn

/-- Witness for C9: applies the QUIC clause at a concrete file (value
`130ms` gives 130) and the TCP clause at a concrete file (value `0.13`
gives 0.13 × 1000). -/
theorem C9_witness :
    ((some (130 : ℤ), some (250 : ℤ)) : Option ℤ × Option ℤ).1 = some 130 ∧
    ((some ((13/100 : ℚ) * 1000), none) : Option ℚ × Option ℚ).1 =
      some ((13/100 : ℚ) * 1000) := by
  constructor
  · exact C9_ttfb_units.2.2.1
      (fileLines "connection establishment time: 130ms\ntime to first byte: 250ms\n")
      (some 130, some 250) "connection establishment time: 130ms".data 130
      (by rfl) (by rfl) (by rfl)
  · refine C9_ttfb_units.1 (fileLines "established=0.13\n")
      (some ((13/100 : ℚ) * 1000), none) "established=0.13".data (13/100)
      ?_ (by rfl) ?_
    · have h1 : tcpTtfbFold (fileLines "established=0.13\n") none none =
          some (some ((1 : ℚ) * (((digitsVal ['0'] : ℕ) : ℚ) +
            ((digitsVal ['1', '3'] : ℕ) : ℚ) / (10 : ℚ) ^ (2 : ℕ)) * 1000), none) := rfl
      rw [h1]
      norm_num [show digitsVal ['0'] = 0 from rfl, show digitsVal ['1', '3'] = 13 from rfl]
    · have h2 : pyFloat (pyStrip (afterChar '=' "established=0.13".data)) =
          some ((1 : ℚ) * (((digitsVal ['0'] : ℕ) : ℚ) +
            ((digitsVal ['1', '3'] : ℕ) : ℚ) / (10 : ℚ) ^ (2 : ℕ))) := rfl
      rw [h2]
      norm_num [show digitsVal ['0'] = 0 from rfl, show digitsVal ['1', '3'] = 13 from rfl]

/-! ## Suffix and search lemmas (for claim C10) -/

theorem suffix_append_cases {s' y : List Char} :
    ∀ {x : List Char}, s' <:+ x ++ y →
      s' <:+ y ∨ ∃ x', x' <:+ x ∧ x' ≠ [] ∧ s' = x' ++ y := by
  intro x
  induction x with
  | nil => intro h; exact Or.inl (by simpa using h)
  | cons c x2 ih =>
    intro h
    rcases List.suffix_cons_iff.mp h with rfl | h2
    · exact Or.inr ⟨c :: x2, List.suffix_refl _, by simp, by simp⟩
    · rcases ih h2 with h3 | ⟨x', hx1, hx2, hx3⟩
      · exact Or.inl h3
      · exact Or.inr ⟨x', hx1.trans (List.suffix_cons c x2), hx2, hx3⟩

theorem searchLast_some_suffix {α : Type} {f : List Char → Option α} :
    ∀ {cs : List Char} {x : α}, searchLast f cs = some x →
      ∃ s, s <:+ cs ∧ f s = some x := by
  intro cs
  induction cs with
  | nil =>
    intro x h
    exact ⟨[], List.suffix_refl _, by simpa [searchLast] using h⟩
  | cons c t ih =>
    intro x h
    simp only [searchLast] at h
    cases hrec : searchLast f t with
    | some r =>
      rw [hrec] at h
      obtain ⟨s, hs1, hs2⟩ := ih hrec
      exact ⟨s, hs1.trans (List.suffix_cons c t), by rw [hs2]; exact h⟩
    | none =>
      rw [hrec] at h
      exact ⟨c :: t, List.suffix_refl _, h⟩

theorem searchLast_none {α : Type} {f : List Char → Option α} :
    ∀ {cs : List Char}, (∀ s, s <:+ cs → f s = none) → searchLast f cs = none := by
  intro cs
  induction cs with
  | nil => intro h; simpa [searchLast] using h [] (List.suffix_refl _)
  | cons c t ih =>
    intro h
    have hrec : searchLast f t = none :=
      ih (fun s hs => h s (hs.trans (List.suffix_cons c t)))
    simp [searchLast, hrec, h (c :: t) (List.suffix_refl _)]

/-! ## Ping reply lemmas (claim C10) -/

theorem pingReplyTail_head {cs : List Char}
    (h : ∀ t', cs = ':' :: t' → False) : pingReplyTail cs = none := by
  cases cs with
  | nil => rfl
  | cons c t'' =>
    have hc : c ≠ ':' := fun he => h t'' (by rw [he])
    have hstrip : stripLit ": icmp_seq=".data (c :: t'') = none := by
      have h2 : (if c = ':' then stripLit " icmp_seq=".data t'' else none) = none := by
        rw [if_neg hc]
      exact h2
    simp [pingReplyTail, hstrip]

theorem pingReplyTail_some {cs s t r : List Char}
    (h : pingReplyTail cs = some (s, t, r)) :
    isDigitStr s ∧ isDigitStr t ∧ isDigitStr r ∧
    ∃ post, cs = ": icmp_seq=".data ++ s ++ " ttl=".data ++ t ++
      " time=".data ++ r ++ " ms".data ++ post := by
  simp only [pingReplyTail, Option.bind_eq_some, Option.map_eq_some'] at h
  obtain ⟨r1, hr1, ⟨sp, rs⟩, hsp, r2, hr2, ⟨tp, rt⟩, htp, r3, hr3, ⟨rp, rr⟩, hrp,
    post, hpost, heq⟩ := h
  cases heq
  dsimp only at hr2 hr3 hpost
  obtain ⟨e1, hds, _⟩ := digits1_some hsp
  obtain ⟨e2, hdt, _⟩ := digits1_some htp
  obtain ⟨e3, hdr, _⟩ := digits1_some hrp
  refine ⟨hds, hdt, hdr, post, ?_⟩
  rw [stripLit_some hr1, e1, stripLit_some hr2, e2, stripLit_some hr3, e3,
    stripLit_some hpost]
  simp [List.append_assoc]

theorem pingReplyLine_some {line s t r : List Char}
    (h : pingReplyLine line = some (s, t, r)) :
    isDigitStr s ∧ isDigitStr t ∧ isDigitStr r ∧
    ∃ pre post, line = pre ++ " time=".data ++ r ++ " ms".data ++ post := by
  simp only [pingReplyLine, Option.bind_eq_some] at h
  obtain ⟨⟨n, rest1⟩, hn, r2, hr2, hsearch⟩ := h
  dsimp only at hr2 hsearch
  obtain ⟨sfx, hsfx, htail⟩ := searchLast_some_suffix hsearch
  obtain ⟨hds, hdt, hdr, post, hdec⟩ := pingReplyTail_some htail
  refine ⟨hds, hdt, hdr, ?_⟩
  obtain ⟨p, hp⟩ := hsfx
  obtain ⟨e1, _, _⟩ := digits1_some hn
  refine ⟨n ++ " bytes from ".data ++ p ++ ": icmp_seq=".data ++ s ++
    " ttl=".data ++ t, post, ?_⟩
  rw [e1, stripLit_some hr2, ← hp, hdec]
  simp [List.append_assoc]

theorem stripLit_bytes_from (r : List Char) :
    stripLit " bytes from ".data
      (' ' :: 'b' :: 'y' :: 't' :: 'e' :: 's' :: ' ' :: 'f' :: 'r' :: 'o' :: 'm' :: ' ' :: r) =
      some r := rfl

theorem stripLit_icmp (r : List Char) :
    stripLit ": icmp_seq=".data
      (':' :: ' ' :: 'i' :: 'c' :: 'm' :: 'p' :: '_' :: 's' :: 'e' :: 'q' :: '=' :: r) =
      some r := rfl

theorem stripLit_ttl5 (r : List Char) :
    stripLit " ttl=".data (' ' :: 't' :: 't' :: 'l' :: '=' :: r) = some r := rfl

theorem stripLit_time6 (r : List Char) :
    stripLit " time=".data (' ' :: 't' :: 'i' :: 'm' :: 'e' :: '=' :: r) = some r := rfl

theorem stripLit_ms_dot (r : List Char) :
    stripLit " ms".data ('.' :: r) = none := rfl

theorem not_mem_digits {c : Char} (hc : c.isDigit = false) {X : List Char}
    (h : ∀ x ∈ X, x.isDigit = true) : c ∉ X := by
  intro hx
  simp [h c hx] at hc

theorem not_mem_app {c : Char} {X Y : List Char} (hX : c ∉ X) (hY : c ∉ Y) :
    c ∉ X ++ Y := by
  intro hx
  rcases List.mem_append.mp hx with h | h
  exacts [hX h, hY h]

theorem not_mem_cons_of {c d : Char} (hcd : c ≠ d) {Y : List Char}
    (hY : c ∉ Y) : c ∉ d :: Y := by
  intro hx
  rcases List.mem_cons.mp hx with h | h
  exacts [hcd h, hY h]

theorem ping_decimal_no_row
    (n host s t a b : List Char)
    (hn : isDigitStr n) (hs : isDigitStr s) (ht : isDigitStr t)
    (ha : isDigitStr a) (hb : isDigitStr b)
    (hhost : ∀ c ∈ host, c ≠ ':') :
    pingReplyLine (n ++ (" bytes from ".data ++ (host ++ (": icmp_seq=".data ++
      (s ++ (" ttl=".data ++ (t ++ (" time=".data ++
      (a ++ ('.' :: (b ++ " ms".data))))))))))) = none := by
  show pingReplyLine (n ++ (' ' :: 'b' :: 'y' :: 't' :: 'e' :: 's' :: ' ' :: 'f' ::
    'r' :: 'o' :: 'm' :: ' ' :: (host ++ (':' :: ' ' :: 'i' :: 'c' :: 'm' :: 'p' ::
    '_' :: 's' :: 'e' :: 'q' :: '=' :: (s ++ (' ' :: 't' :: 't' :: 'l' :: '=' ::
    (t ++ (' ' :: 't' :: 'i' :: 'm' :: 'e' :: '=' ::
    (a ++ ('.' :: (b ++ (' ' :: 'm' :: 's' :: [])))))))))))) = none
  simp only [pingReplyLine]
  rw [digits1_app hn (fun c t' h => by cases h; decide)]
  simp only [Option.some_bind]
  rw [stripLit_bytes_from]
  simp only [Option.some_bind]
  refine searchLast_none ?_
  intro sfx hsfx
  rcases suffix_append_cases hsfx with hT | ⟨h', hh1, hh2, rfl⟩
  · have hT2 : sfx <:+ ':' :: (' ' :: 'i' :: 'c' :: 'm' :: 'p' :: '_' :: 's' :: 'e' ::
        'q' :: '=' :: (s ++ (' ' :: 't' :: 't' :: 'l' :: '=' :: (t ++ (' ' :: 't' ::
        'i' :: 'm' :: 'e' :: '=' :: (a ++ ('.' :: (b ++ (' ' :: 'm' :: 's' :: []))))))))) := hT
    rcases List.suffix_cons_iff.mp hT2 with rfl | hT3
    · show pingReplyTail (':' :: ' ' :: 'i' :: 'c' :: 'm' :: 'p' :: '_' :: 's' :: 'e' ::
        'q' :: '=' :: (s ++ (' ' :: 't' :: 't' :: 'l' :: '=' :: (t ++ (' ' :: 't' ::
        'i' :: 'm' :: 'e' :: '=' :: (a ++ ('.' :: (b ++ (' ' :: 'm' :: 's' :: []))))))))) = none
      simp only [pingReplyTail]
      rw [stripLit_icmp]
      simp only [Option.some_bind]
      rw [digits1_app hs (fun c t' h => by cases h; decide)]
      simp only [Option.some_bind]
      rw [stripLit_ttl5]
      simp only [Option.some_bind]
      rw [digits1_app ht (fun c t' h => by cases h; decide)]
      simp only [Option.some_bind]
      rw [stripLit_time6]
      simp only [Option.some_bind]
      rw [digits1_app ha (fun c t' h => by cases h; decide)]
      simp only [Option.some_bind]
      rw [stripLit_ms_dot]
      rfl
    · apply pingReplyTail_head
      intro t3 h3
      subst h3
      have hmem : (':' : Char) ∈ ' ' :: 'i' :: 'c' :: 'm' :: 'p' :: '_' :: 's' :: 'e' ::
          'q' :: '=' :: (s ++ (' ' :: 't' :: 't' :: 'l' :: '=' :: (t ++ (' ' :: 't' ::
          'i' :: 'm' :: 'e' :: '=' :: (a ++ ('.' :: (b ++ (' ' :: 'm' :: 's' :: [])))))))) :=
        hT3.subset (List.mem_cons_self _ _)
      have m1 : (':' : Char) ∉ b ++ (' ' :: 'm' :: 's' :: []) :=
        not_mem_app (not_mem_digits (by decide) hb.2) (by decide)
      have m2 : (':' : Char) ∉ '.' :: (b ++ (' ' :: 'm' :: 's' :: [])) :=
        not_mem_cons_of (by decide) m1
      have m3 : (':' : Char) ∉ a ++ ('.' :: (b ++ (' ' :: 'm' :: 's' :: []))) :=
        not_mem_app (not_mem_digits (by decide) ha.2) m2
      have m4 : (':' : Char) ∉ ([' ', 't', 'i', 'm', 'e', '='] : List Char) ++
          (a ++ ('.' :: (b ++ (' ' :: 'm' :: 's' :: [])))) :=
        not_mem_app (by decide) m3
      have m5 : (':' : Char) ∉ t ++ (' ' :: 't' :: 'i' :: 'm' :: 'e' :: '=' ::
          (a ++ ('.' :: (b ++ (' ' :: 'm' :: 's' :: []))))) :=
        not_mem_app (not_mem_digits (by decide) ht.2) m4
      have m6 : (':' : Char) ∉ ([' ', 't', 't', 'l', '='] : List Char) ++
          (t ++ (' ' :: 't' :: 'i' :: 'm' :: 'e' :: '=' ::
          (a ++ ('.' :: (b ++ (' ' :: 'm' :: 's' :: [])))))) :=
        not_mem_app (by decide) m5
      have m7 : (':' : Char) ∉ s ++ (' ' :: 't' :: 't' :: 'l' :: '=' :: (t ++
          (' ' :: 't' :: 'i' :: 'm' :: 'e' :: '=' ::
          (a ++ ('.' :: (b ++ (' ' :: 'm' :: 's' :: []))))))) :=
        not_mem_app (not_mem_digits (by decide) hs.2) m6
      have m8 : (':' : Char) ∉ ([' ', 'i', 'c', 'm', 'p', '_', 's', 'e', 'q', '='] : List Char) ++
          (s ++ (' ' :: 't' :: 't' :: 'l' :: '=' :: (t ++ (' ' :: 't' :: 'i' :: 'm' ::
          'e' :: '=' :: (a ++ ('.' :: (b ++ (' ' :: 'm' :: 's' :: [])))))))) :=
        not_mem_app (by decide) m7
      exact m8 hmem
  · rcases h' with _ | ⟨c, t''⟩
    · exact absurd rfl hh2
    · have hcm : c ∈ host := hh1.subset (List.mem_cons_self _ _)
      apply pingReplyTail_head
      intro t3 h3
      have h3' : c :: (t'' ++ (": icmp_seq=".data ++ (s ++ (" ttl=".data ++ (t ++
          (" time=".data ++ (a ++ ('.' :: (b ++ " ms".data))))))))) = ':' :: t3 := h3
      injection h3' with hc _
      exact hhost c hcm hc

theorem pingFoldStep_raw (st : List (List (String × Val)) × List (String × Val))
    (line : List Char) :
    (pingFoldStep st line).1 = st.1 ∨
    ∃ s t r, pingReplyLine line = some (s, t, r) ∧
      (pingFoldStep st line).1 =
        st.1 ++ [[("seq", Val.s ⟨s⟩), ("ttl", Val.s ⟨t⟩), ("rtt", Val.s ⟨r⟩)]] := by
  cases hr : pingReplyLine line with
  | some v =>
    obtain ⟨s, t, r⟩ := v
    right
    exact ⟨s, t, r, rfl, by simp [pingFoldStep, hr]⟩
  | none =>
    left
    cases hsum : pingSummaryLine line with
    | some v =>
      obtain ⟨x, y⟩ := v
      simp [pingFoldStep, hr, hsum]
    | none =>
      cases hst : pingStatsLine line with
      | some v =>
        obtain ⟨x, ⟨y, ⟨z, w⟩⟩⟩ := v
        simp [pingFoldStep, hr, hsum, hst]
      | none => simp [pingFoldStep, hr, hsum, hst]

/-! ## Claim C10 -/

/-- Claim C10: a ping reply line yields a raw row only when its time field is
an unbroken digit run immediately followed by ` ms` (in particular a decimal
time like `23.4` yields no row), and the captured seq/ttl/rtt are stored as
strings in the raw row, converted to integers only by the dtype table. -/
theorem C10_ping_reply :
    (∀ (line s t r : List Char), pingReplyLine line = some (s, t, r) →
      isDigitStr s ∧ isDigitStr t ∧ isDigitStr r ∧
      ∃ pre post, line = pre ++ " time=".data ++ r ++ " ms".data ++ post) ∧
    (∀ (n host s t a b : List Char),
      isDigitStr n → isDigitStr s → isDigitStr t → isDigitStr a → isDigitStr b →
      (∀ c ∈ host, c ≠ ':') →
      pingReplyLine (n ++ (" bytes from ".data ++ (host ++ (": icmp_seq=".data ++
        (s ++ (" ttl=".data ++ (t ++ (" time=".data ++
        (a ++ ('.' :: (b ++ " ms".data))))))))))) = none) ∧
    (∀ st line,
      (pingFoldStep st line).1 = st.1 ∨
      ∃ s t r, pingReplyLine line = some (s, t, r) ∧
        (pingFoldStep st line).1 =
          st.1 ++ [[("seq", Val.s ⟨s⟩), ("ttl", Val.s ⟨t⟩), ("rtt", Val.s ⟨r⟩)]]) ∧
    dtypesTable.lookup "seq" = some DType.tI32 ∧
    dtypesTable.lookup "ttl" = some DType.tI32 ∧
    dtypesTable.lookup "rtt" = some DType.tI32 :=
  ⟨fun _ _ _ _ h => pingReplyLine_some h,
   fun n host s t a b hn hs ht ha hb hhost =>
     ping_decimal_no_row n host s t a b hn hs ht ha hb hhost,
   pingFoldStep_raw, rfl, rfl, rfl⟩

/-- Witness for C10: the integer-time reply line matches with string digit
captures, and the decimal-time variant of the same line matches nothing. -/
theorem C10_witness :
    (isDigitStr ['1'] ∧ isDigitStr ['6', '4'] ∧ isDigitStr ['2', '3'] ∧
      ∃ pre post, "64 bytes from 10.0.0.1: icmp_seq=1 ttl=64 time=23 ms".data =
        pre ++ " time=".data ++ ['2', '3'] ++ " ms".data ++ post) ∧
    pingReplyLine (['6', '4'] ++ (" bytes from ".data ++ ("10.0.0.1".data ++
      (": icmp_seq=".data ++ (['1'] ++ (" ttl=".data ++ (['6', '4'] ++
      (" time=".data ++ (['2', '3'] ++ ('.' :: (['4'] ++ " ms".data))))))))))) = none := by
  constructor
  · exact C10_ping_reply.1 "64 bytes from 10.0.0.1: icmp_seq=1 ttl=64 time=23 ms".data
      ['1'] ['6', '4'] ['2', '3'] (by rfl)
  · exact C10_ping_reply.2.1 ['6', '4'] "10.0.0.1".data ['1'] ['6', '4'] ['2', '3'] ['4']
      ⟨by decide, by decide⟩ ⟨by decide, by decide⟩ ⟨by decide, by decide⟩
      ⟨by decide, by decide⟩ ⟨by decide, by decide⟩ (by decide)

/-! ## fix_dtypes lemmas (claim C7) -/

theorem wrap32_idem (n : ℤ) : wrap32 (wrap32 n) = wrap32 n := by
  unfold wrap32
  have h1 : (0 : ℤ) ≤ (n + 2 ^ 31) % 2 ^ 32 := Int.emod_nonneg _ (by norm_num)
  have h2 : (n + 2 ^ 31) % 2 ^ 32 < 2 ^ 32 := Int.emod_lt_of_pos _ (by norm_num)
  rw [sub_add_cancel, Int.emod_eq_of_lt h1 h2]

theorem castVal_idem {t : DType} {v v' : Val} (h : castVal t v = some v') :
    castVal t v' = some v' := by
  cases t with
  | tStr =>
    cases v with
    | s x => simp only [castVal, Option.some.injEq] at h; subst h; rfl
    | b x => simp only [castVal, Option.some.injEq] at h; subst h; cases x <;> rfl
    | i n => simp only [castVal, Option.some.injEq] at h; subst h; rfl
    | na => simp only [castVal, Option.some.injEq] at h; subst h; rfl
    | f q => simp [castVal] at h
  | tBool =>
    cases v with
    | b x => simp only [castVal, Option.some.injEq] at h; subst h; rfl
    | i n => simp only [castVal, Option.some.injEq] at h; subst h; rfl
    | f q => simp only [castVal, Option.some.injEq] at h; subst h; rfl
    | s x => simp only [castVal, Option.some.injEq] at h; subst h; rfl
    | na => simp only [castVal, Option.some.injEq] at h; subst h; rfl
  | tI32 =>
    cases v with
    | i n =>
      simp only [castVal, Option.some.injEq] at h
      subst h
      simp [castVal, wrap32_idem]
    | b x =>
      simp only [castVal, Option.some.injEq] at h
      subst h
      cases x <;> simp [castVal] <;> decide
    | f q =>
      simp only [castVal, Option.some.injEq] at h
      subst h
      simp [castVal, wrap32_idem]
    | s x =>
      simp only [castVal, Option.map_eq_some'] at h
      obtain ⟨n, _, rfl⟩ := h
      simp [castVal, wrap32_idem]
    | na => simp [castVal] at h
  | tF32 =>
    cases v with
    | f q => simp only [castVal, castToFloat, Option.some.injEq] at h; subst h; rfl
    | i n => simp only [castVal, castToFloat, Option.some.injEq] at h; subst h; rfl
    | b x => simp only [castVal, castToFloat, Option.some.injEq] at h; subst h; rfl
    | na => simp only [castVal, castToFloat, Option.some.injEq] at h; subst h; rfl
    | s x =>
      simp only [castVal, castToFloat, Option.map_eq_some'] at h
      obtain ⟨q, _, rfl⟩ := h
      rfl
  | tF64 =>
    cases v with
    | f q => simp only [castVal, castToFloat, Option.some.injEq] at h; subst h; rfl
    | i n => simp only [castVal, castToFloat, Option.some.injEq] at h; subst h; rfl
    | b x => simp only [castVal, castToFloat, Option.some.injEq] at h; subst h; rfl
    | na => simp only [castVal, castToFloat, Option.some.injEq] at h; subst h; rfl
    | s x =>
      simp only [castVal, castToFloat, Option.map_eq_some'] at h
      obtain ⟨q, _, rfl⟩ := h
      rfl

theorem castVal_hasType {t : DType} {v v' : Val} (h : castVal t v = some v') :
    hasDType t v' = true := by
  cases t with
  | tStr =>
    cases v with
    | s x => simp only [castVal, Option.some.injEq] at h; subst h; rfl
    | b x => simp only [castVal, Option.some.injEq] at h; subst h; rfl
    | i n => simp only [castVal, Option.some.injEq] at h; subst h; rfl
    | na => simp only [castVal, Option.some.injEq] at h; subst h; rfl
    | f q => simp [castVal] at h
  | tBool =>
    cases v <;> simp only [castVal, Option.some.injEq] at h <;> subst h <;> rfl
  | tI32 =>
    cases v with
    | i n => simp only [castVal, Option.some.injEq] at h; subst h; rfl
    | b x => simp only [castVal, Option.some.injEq] at h; subst h; rfl
    | f q => simp only [castVal, Option.some.injEq] at h; subst h; rfl
    | s x =>
      simp only [castVal, Option.map_eq_some'] at h
      obtain ⟨n, _, rfl⟩ := h
      rfl
    | na => simp [castVal] at h
  | tF32 =>
    cases v with
    | f q => simp only [castVal, castToFloat, Option.some.injEq] at h; subst h; rfl
    | i n => simp only [castVal, castToFloat, Option.some.injEq] at h; subst h; rfl
    | b x => simp only [castVal, castToFloat, Option.some.injEq] at h; subst h; rfl
    | na => simp only [castVal, castToFloat, Option.some.injEq] at h; subst h; rfl
    | s x =>
      simp only [castVal, castToFloat, Option.map_eq_some'] at h
      obtain ⟨q, _, rfl⟩ := h
      rfl
  | tF64 =>
    cases v with
    | f q => simp only [castVal, castToFloat, Option.some.injEq] at h; subst h; rfl
    | i n => simp only [castVal, castToFloat, Option.some.injEq] at h; subst h; rfl
    | b x => simp only [castVal, castToFloat, Option.some.injEq] at h; subst h; rfl
    | na => simp only [castVal, castToFloat, Option.some.injEq] at h; subst h; rfl
    | s x =>
      simp only [castVal, castToFloat, Option.map_eq_some'] at h
      obtain ⟨q, _, rfl⟩ := h
      rfl

theorem castCell_fst {cols : List String} {kv kv' : String × Val}
    (h : castCell cols kv = some kv') : kv'.1 = kv.1 := by
  simp only [castCell] at h
  cases hl : dtypesTable.lookup kv.1 with
  | none =>
    rw [hl] at h
    dsimp only at h
    simp only [Option.some.injEq] at h
    subst h; rfl
  | some t =>
    rw [hl] at h
    dsimp only at h
    by_cases hc : cols.contains kv.1 = true
    · rw [if_pos hc] at h
      simp only [Option.map_eq_some'] at h
      obtain ⟨v, _, rfl⟩ := h
      rfl
    · rw [if_neg hc] at h
      simp only [Option.some.injEq] at h
      subst h; rfl

theorem castCell_unmapped {cols : List String} {kv kv' : String × Val}
    (h : castCell cols kv = some kv') (hl : dtypesTable.lookup kv.1 = none) :
    kv' = kv := by
  simp only [castCell, hl, Option.some.injEq] at h
  exact h.symm

theorem castCell_mapped {cols : List String} {kv kv' : String × Val} {t : DType}
    (h : castCell cols kv = some kv') (hl : dtypesTable.lookup kv.1 = some t)
    (hc : cols.contains kv.1 = true) : hasDType t kv'.2 = true := by
  simp only [castCell, hl, if_pos hc, Option.map_eq_some'] at h
  obtain ⟨v, hv, rfl⟩ := h
  exact castVal_hasType hv

theorem castCell_idem {cols : List String} {kv kv' : String × Val}
    (h : castCell cols kv = some kv') : castCell cols kv' = some kv' := by
  have hf : kv'.1 = kv.1 := castCell_fst h
  simp only [castCell, hf] at h ⊢
  cases hl : dtypesTable.lookup kv.1 with
  | none => dsimp only
  | some t =>
    rw [hl] at h
    dsimp only at h ⊢
    by_cases hc : cols.contains kv.1 = true
    · rw [if_pos hc] at h ⊢
      simp only [Option.map_eq_some'] at h
      obtain ⟨v, hv, rfl⟩ := h
      simp [castVal_idem hv]
    · rw [if_neg hc]

theorem castRow_spec {cols : List String} :
    ∀ {r r' : List (String × Val)}, castRow cols r = some r' →
      r'.map Prod.fst = r.map Prod.fst ∧
      castRow cols r' = some r' ∧
      List.Forall₂ (cellRel cols) r r' := by
  intro r
  induction r with
  | nil =>
    intro r' h
    simp only [castRow, Option.some.injEq] at h
    subst h
    exact ⟨rfl, rfl, List.Forall₂.nil⟩
  | cons kv rt ih =>
    intro r' h
    simp only [castRow, Option.bind_eq_some, Option.map_eq_some'] at h
    obtain ⟨kv', hkv, rt', hrt, rfl⟩ := h
    obtain ⟨h1, h2, h3⟩ := ih hrt
    have hf : kv'.1 = kv.1 := castCell_fst hkv
    refine ⟨by simp [h1, hf], ?_, List.Forall₂.cons
      ⟨hf, fun hl => castCell_unmapped hkv hl,
        fun t hl hc => castCell_mapped hkv hl hc⟩ h3⟩
    simp only [castRow, castCell_idem hkv, Option.some_bind, h2, Option.map_some']

theorem castRows_spec {cols : List String} :
    ∀ {rs rs' : List (List (String × Val))}, castRows cols rs = some rs' →
      castRows cols rs' = some rs' ∧
      List.Forall₂ (fun r r' =>
        r'.map Prod.fst = r.map Prod.fst ∧ List.Forall₂ (cellRel cols) r r') rs rs' := by
  intro rs
  induction rs with
  | nil =>
    intro rs' h
    simp only [castRows, Option.some.injEq] at h
    subst h
    exact ⟨rfl, List.Forall₂.nil⟩
  | cons r rt ih =>
    intro rs' h
    simp only [castRows, Option.bind_eq_some, Option.map_eq_some'] at h
    obtain ⟨r', hr, rt', hrt, rfl⟩ := h
    obtain ⟨h1, h2, h3⟩ := castRow_spec hr
    obtain ⟨h4, h5⟩ := ih hrt
    refine ⟨?_, List.Forall₂.cons ⟨h1, h3⟩ h5⟩
    simp only [castRows, h2, Option.some_bind, h4, Option.map_some']

/-- Claim C7: whenever the type normalizer succeeds on a DataFrame, it keeps the
column list and the row order (every input row corresponds in order to an output
row with the same key sequence), maps every cell in a column named in the dtype
table to a value of that column's canonical dtype, leaves cells of unmapped
columns exactly unchanged, and is idempotent: applying it again to the output
returns the output itself. -/
theorem C7_fix_dtypes_normalizer (df df' : DF) (h : fix_dtypes df = some df') :
    df'.cols = df.cols ∧
    List.Forall₂ (fun r r' =>
      r'.map Prod.fst = r.map Prod.fst ∧
      List.Forall₂ (fun kv kv' : String × Val =>
        kv'.1 = kv.1 ∧
        (dtypesTable.lookup kv.1 = none → kv' = kv) ∧
        (∀ t, dtypesTable.lookup kv.1 = some t → df.cols.contains kv.1 = true →
          hasDType t kv'.2 = true)) r r') df.rows df'.rows ∧
    fix_dtypes df' = some df' := by
  simp only [fix_dtypes, Option.map_eq_some'] at h
  obtain ⟨rs', hrs, rfl⟩ := h
  obtain ⟨h1, h2⟩ := castRows_spec hrs
  exact ⟨rfl, h2, by simp only [fix_dtypes, h1, Option.map_some']⟩

/-- Concrete instantiation of C7: a frame with a mapped string column and an
unmapped column is normalized, and the normalizer is idempotent on the result. -/
theorem C7_witness :
    fix_dtypes ⟨["rate", "zzz"], [[("rate", Val.s "50"), ("zzz", Val.b true)]]⟩ =
      some ⟨["rate", "zzz"], [[("rate", Val.i 50), ("zzz", Val.b true)]]⟩ ∧
    (⟨["rate", "zzz"], [[("rate", Val.i 50), ("zzz", Val.b true)]]⟩ : DF).cols =
      ["rate", "zzz"] ∧
    fix_dtypes ⟨["rate", "zzz"], [[("rate", Val.i 50), ("zzz", Val.b true)]]⟩ =
      some ⟨["rate", "zzz"], [[("rate", Val.i 50), ("zzz", Val.b true)]]⟩ := by
  have h := C7_fix_dtypes_normalizer
    ⟨["rate", "zzz"], [[("rate", Val.s "50"), ("zzz", Val.b true)]]⟩
    ⟨["rate", "zzz"], [[("rate", Val.i 50), ("zzz", Val.b true)]]⟩ (by rfl)
  exact ⟨by rfl, h.1, h.2.2⟩

/-! ## Extractor schema lemmas (claim C2) -/

theorem foldl_pres {α β : Type} (P : β → Prop) (f : β → α → β)
    (hf : ∀ o a, P o → P (f o a)) :
    ∀ (l : List α) (o : β), P o → P (l.foldl f o) := by
  intro l
  induction l with
  | nil => intro o h; exact h
  | cons a t ih => intro o h; exact ih (f o a) (hf o a h)

theorem appendRow_cols {df : DF} {r : List (String × Val)}
    (h : ∀ k ∈ r.map Prod.fst, df.cols.contains k = true) :
    (df.appendRow r).cols = df.cols := by
  simp only [DF.appendRow]
  rw [List.filter_eq_nil_iff.mpr, List.append_nil]
  intro k hk
  rw [h k hk]
  decide

theorem parse_quic_client_cols (dirFiles : List (String × String)) (pep : Bool) :
    (parse_quic_client dirFiles pep).cols =
      ["run", "second", "bps", "bytes", "packets_received"] := by
  unfold parse_quic_client
  refine foldl_pres (fun df : DF => df.cols =
    ["run", "second", "bps", "bytes", "packets_received"]) _ ?_ dirFiles _ rfl
  intro df file h
  dsimp only
  cases matchRunFile (quicClientPre pep) "_client.txt".data file.1.data with
  | none => exact h
  | some run =>
    refine foldl_pres (fun df : DF => df.cols =
      ["run", "second", "bps", "bytes", "packets_received"]) _ ?_
      (fileLines file.2) df h
    intro df2 line h2
    dsimp only
    cases quicClientLine line with
    | none => exact h2
    | some row =>
      refine (appendRow_cols ?_).trans h2
      intro k hk
      rw [h2]
      simp only [List.map_cons, List.map_nil] at hk
      fin_cases hk <;> rfl

theorem parse_quic_server_cols (dirFiles : List (String × String)) (pep : Bool) :
    (parse_quic_server dirFiles pep).cols =
      ["run", "second", "cwnd", "packets_sent", "packets_lost"] := by
  unfold parse_quic_server
  refine foldl_pres (fun df : DF => df.cols =
    ["run", "second", "cwnd", "packets_sent", "packets_lost"]) _ ?_ dirFiles _ rfl
  intro df file h
  dsimp only
  cases matchRunFile (quicClientPre pep) "_server.txt".data file.1.data with
  | none => exact h
  | some run =>
    refine foldl_pres (fun df : DF => df.cols =
      ["run", "second", "cwnd", "packets_sent", "packets_lost"]) _ ?_
      (fileLines file.2) df h
    intro df2 line h2
    dsimp only
    cases quicServerLine line with
    | none => exact h2
    | some row =>
      refine (appendRow_cols ?_).trans h2
      intro k hk
      rw [h2]
      simp only [List.map_cons, List.map_nil] at hk
      fin_cases hk <;> rfl

theorem parse_quic_ttfb_cols (dirFiles : List (String × String)) (pep : Bool) :
    ∀ df, parse_quic_ttfb dirFiles pep = some df →
      df.cols = ["run", "con_est", "ttfb"] := by
  unfold parse_quic_ttfb
  refine foldl_pres (fun o : Option DF => ∀ df, o = some df →
    df.cols = ["run", "con_est", "ttfb"]) _ ?_ dirFiles _ ?_
  · intro o file hP df hdf
    dsimp only at hdf
    rw [Option.bind_eq_some] at hdf
    obtain ⟨d0, hd0, hstep⟩ := hdf
    have h0 := hP d0 hd0
    revert hstep
    cases matchRunFile (quicTtfbPre pep) "_client.txt".data file.1.data with
    | none => intro hstep; exact Option.some.inj hstep ▸ h0
    | some run =>
      intro hstep
      dsimp only at hstep
      rw [Option.map_eq_some'] at hstep
      obtain ⟨ct, -, rfl⟩ := hstep
      refine (appendRow_cols ?_).trans h0
      intro k hk
      rw [h0]
      simp only [List.map_cons, List.map_nil] at hk
      fin_cases hk <;> rfl
  · intro df hdf
    cases hdf
    rfl

theorem parse_tcp_ttfb_cols (dirFiles : List (String × String)) (pep : Bool) :
    ∀ df, parse_tcp_ttfb dirFiles pep = some df →
      df.cols = ["run", "con_est", "ttfb"] := by
  unfold parse_tcp_ttfb
  refine foldl_pres (fun o : Option DF => ∀ df, o = some df →
    df.cols = ["run", "con_est", "ttfb"]) _ ?_ dirFiles _ ?_
  · intro o file hP df hdf
    dsimp only at hdf
    rw [Option.bind_eq_some] at hdf
    obtain ⟨d0, hd0, hstep⟩ := hdf
    have h0 := hP d0 hd0
    revert hstep
    cases matchRunFile (tcpTtfbPre pep) "_client.txt".data file.1.data with
    | none => intro hstep; exact Option.some.inj hstep ▸ h0
    | some run =>
      intro hstep
      dsimp only at hstep
      rw [Option.map_eq_some'] at hstep
      obtain ⟨ct, -, rfl⟩ := hstep
      refine (appendRow_cols ?_).trans h0
      intro k hk
      rw [h0]
      simp only [List.map_cons, List.map_nil] at hk
      fin_cases hk <;> rfl
  · intro df hdf
    cases hdf
    rfl

theorem tcpClientInterval_keys (run : ℤ) (iv : Json)
    {r : List (String × Val)} (h : tcpClientInterval run iv = some r) :
    r.map Prod.fst = ["run", "second", "bps", "bytes", "omitted"] := by
  simp only [tcpClientInterval, Option.bind_eq_some, Option.some.injEq] at h
  obtain ⟨a, -, b, -, c, -, d, -, e, -, rfl⟩ := h
  rfl

theorem tcpServerInterval_keys (run : ℤ) (iv : Json)
    {r : List (String × Val)} (h : tcpServerInterval run iv = some r) :
    r.map Prod.fst =
      ["run", "second", "cwnd", "bps", "bytes", "packets_lost", "rtt",
       "omitted"] := by
  simp only [tcpServerInterval, Option.bind_eq_some, Option.some.injEq] at h
  obtain ⟨a, -, b, -, c, -, d, -, e, -, f, -, g, -, i, -, rfl⟩ := h
  rfl

theorem parse_tcp_client_cols (dirFiles : List (String × String)) (pep : Bool) :
    ∀ df, parse_tcp_client dirFiles pep = some df →
      df.cols = ["run", "second", "bps", "bytes", "omitted"] := by
  unfold parse_tcp_client
  refine foldl_pres (fun o : Option DF => ∀ df, o = some df →
    df.cols = ["run", "second", "bps", "bytes", "omitted"]) _ ?_ dirFiles _ ?_
  · intro o file hP df hdf
    dsimp only at hdf
    rw [Option.bind_eq_some] at hdf
    obtain ⟨d0, hd0, hstep⟩ := hdf
    have h0 := hP d0 hd0
    revert hstep
    cases matchRunFile (tcpClientPre pep) "_client.json".data file.1.data with
    | none => intro hstep; exact Option.some.inj hstep ▸ h0
    | some run =>
      cases load_json_file (fun n => dirFiles.lookup n) file.1 with
      | none => intro hstep; exact Option.some.inj hstep ▸ h0
      | some results =>
        intro hstep
        dsimp only at hstep
        rw [Option.bind_eq_some] at hstep
        obtain ⟨ivs, -, hfold⟩ := hstep
        refine foldl_pres (fun o2 : Option DF => ∀ d, o2 = some d →
          d.cols = ["run", "second", "bps", "bytes", "omitted"]) _ ?_ ivs _ ?_
          df hfold
        · intro o2 iv hP2 d hd
          rw [Option.bind_eq_some] at hd
          obtain ⟨d2, hd2, hmap⟩ := hd
          rw [Option.map_eq_some'] at hmap
          obtain ⟨row, hrow, rfl⟩ := hmap
          have h2 := hP2 d2 hd2
          refine (appendRow_cols ?_).trans h2
          intro k hk
          rw [tcpClientInterval_keys run iv hrow] at hk
          rw [h2]
          fin_cases hk <;> rfl
        · intro d hd
          exact Option.some.inj hd ▸ h0
  · intro df hdf
    cases hdf
    rfl

theorem parse_tcp_server_cols (dirFiles : List (String × String)) (pep : Bool) :
    ∀ df, parse_tcp_server dirFiles pep = some df →
      df.cols = ["run", "second", "cwnd", "bps", "bytes", "packets_lost",
        "rtt", "omitted"] := by
  unfold parse_tcp_server
  refine foldl_pres (fun o : Option DF => ∀ df, o = some df →
    df.cols = ["run", "second", "cwnd", "bps", "bytes", "packets_lost",
      "rtt", "omitted"]) _ ?_ dirFiles _ ?_
  · intro o file hP df hdf
    dsimp only at hdf
    rw [Option.bind_eq_some] at hdf
    obtain ⟨d0, hd0, hstep⟩ := hdf
    have h0 := hP d0 hd0
    revert hstep
    cases matchRunFile (tcpClientPre pep) "_server.json".data file.1.data with
    | none => intro hstep; exact Option.some.inj hstep ▸ h0
    | some run =>
      cases load_json_file (fun n => dirFiles.lookup n) file.1 with
      | none => intro hstep; exact Option.some.inj hstep ▸ h0
      | some results =>
        intro hstep
        dsimp only at hstep
        rw [Option.bind_eq_some] at hstep
        obtain ⟨ivs, -, hfold⟩ := hstep
        refine foldl_pres (fun o2 : Option DF => ∀ d, o2 = some d →
          d.cols = ["run", "second", "cwnd", "bps", "bytes", "packets_lost",
            "rtt", "omitted"]) _ ?_ ivs _ ?_ df hfold
        · intro o2 iv hP2 d hd
          rw [Option.bind_eq_some] at hd
          obtain ⟨d2, hd2, hmap⟩ := hd
          rw [Option.map_eq_some'] at hmap
          obtain ⟨row, hrow, rfl⟩ := hmap
          have h2 := hP2 d2 hd2
          refine (appendRow_cols ?_).trans h2
          intro k hk
          rw [tcpServerInterval_keys run iv hrow] at hk
          rw [h2]
          fin_cases hk <;> rfl
        · intro d hd
          exact Option.some.inj hd ▸ h0
  · intro df hdf
    cases hdf
    rfl

theorem parse_ping_cols (dirFiles : List (String × String)) :
    (dirFiles.lookup "ping.txt" = none → parse_ping dirFiles = none) ∧
    (∀ raw summ, parse_ping dirFiles = some (raw, summ) →
      raw.cols = if raw.rows.isEmpty then [] else ["seq", "ttl", "rtt"]) := by
  constructor
  · intro h
    simp only [parse_ping, h]
  · intro raw summ h
    simp only [parse_ping] at h
    cases hl : dirFiles.lookup "ping.txt" with
    | none => rw [hl] at h; cases h
    | some content =>
      rw [hl] at h
      dsimp only at h
      rw [Option.some.injEq, Prod.mk.injEq] at h
      obtain ⟨h1, -⟩ := h
      subst h1
      rfl

/-- Claim C2 counterexample: the ping extractor does NOT share the
never-absent guarantee.  With no ping.txt in the directory it returns an
absent result, and with an empty ping.txt the raw frame it returns has no
columns at all rather than the declared seq/ttl/rtt schema. -/
theorem C2_counterexample :
    parse_ping [] = none ∧
    parse_ping [("ping.txt", "")] = some (⟨[], []⟩, ⟨[], []⟩) := by
  exact ⟨rfl, rfl⟩

/-- Claim C2 (amended): each of the six per-run extractors always carries its
declared column set — the two QUIC text extractors unconditionally, and the
four fallible extractors whenever they return at all, in particular when zero
files or zero lines match.  The ping extractor is the exception: a missing
ping.txt yields an absent result, and its raw frame has the seq/ttl/rtt
columns only when at least one reply row was matched. -/
theorem C2_extractor_schemas (dirFiles : List (String × String)) (pep : Bool) :
    (parse_quic_client dirFiles pep).cols =
      ["run", "second", "bps", "bytes", "packets_received"] ∧
    (parse_quic_server dirFiles pep).cols =
      ["run", "second", "cwnd", "packets_sent", "packets_lost"] ∧
    (∀ df, parse_quic_ttfb dirFiles pep = some df →
      df.cols = ["run", "con_est", "ttfb"]) ∧
    (∀ df, parse_tcp_ttfb dirFiles pep = some df →
      df.cols = ["run", "con_est", "ttfb"]) ∧
    (∀ df, parse_tcp_client dirFiles pep = some df →
      df.cols = ["run", "second", "bps", "bytes", "omitted"]) ∧
    (∀ df, parse_tcp_server dirFiles pep = some df →
      df.cols = ["run", "second", "cwnd", "bps", "bytes", "packets_lost",
        "rtt", "omitted"]) ∧
    (dirFiles.lookup "ping.txt" = none → parse_ping dirFiles = none) ∧
    (∀ raw summ, parse_ping dirFiles = some (raw, summ) →
      raw.cols = if raw.rows.isEmpty then [] else ["seq", "ttl", "rtt"]) :=
  ⟨parse_quic_client_cols dirFiles pep, parse_quic_server_cols dirFiles pep,
   parse_quic_ttfb_cols dirFiles pep, parse_tcp_ttfb_cols dirFiles pep,
   parse_tcp_client_cols dirFiles pep, parse_tcp_server_cols dirFiles pep,
   (parse_ping_cols dirFiles).1, (parse_ping_cols dirFiles).2⟩

/-- Concrete instantiation of C2 at an empty directory: the QUIC client frame
keeps its schema with zero files, the QUIC TTFB extractor succeeds with the
declared schema, and ping is absent. -/
theorem C2_witness :
    (parse_quic_client [] false).cols =
      ["run", "second", "bps", "bytes", "packets_received"] ∧
    (⟨["run", "con_est", "ttfb"], []⟩ : DF).cols = ["run", "con_est", "ttfb"] ∧
    parse_ping [] = none := by
  have h := C2_extractor_schemas [] false
  exact ⟨h.1, h.2.2.1 ⟨["run", "con_est", "ttfb"], []⟩ rfl,
    h.2.2.2.2.2.2.1 rfl⟩

/-- Claim C3 counterexample: on the exact input of the claim, whose line reads
`5.5 Mbit/s` with a capital M, the line regex `([a-z]?)bit/s` does not match
(the optional group is lowercase-only and `Mbit/s` cannot be consumed), so the
pipeline's quic_client table has zero rows, not one. -/
theorem C3_counterexample :
    (parse [("LEO_r50mbit_l2_q500",
      [("quic_1_client.txt",
        "second 3: 5.5 Mbit/s (1000000 bytes received, 700 packets received)")])]).map
      (fun r => r.quic_client.rows.length) = some 0 := rfl

/-- Claim C3 (amended): with the throughput unit written in lower case
(`5.5 mbit/s`), the pipeline produces exactly one quic_client row with
run=1, second=3, bps=5767168, bytes=1000000, packets_received=700,
protocol=quic, pep=False, sat=LEO, rate=50, loss=0.02, queue=500, txq=1000;
with the capital `Mbit/s` of the claim's input the regex does not match and
the table is empty. -/
theorem C3_pipeline_row :
    (parse [("LEO_r50mbit_l2_q500",
      [("quic_1_client.txt",
        "second 3: 5.5 mbit/s (1000000 bytes received, 700 packets received)")])]).map
      (fun r => r.quic_client.rows) =
    some [[("run", Val.i 1), ("second", Val.i 3), ("bps", Val.f 5767168),
      ("bytes", Val.i 1000000), ("packets_received", Val.i 700),
      ("protocol", Val.s "quic"), ("pep", Val.b false), ("sat", Val.s "LEO"),
      ("rate", Val.i 50), ("loss", Val.f ((1 : ℚ) / 50)),
      ("queue", Val.i 500), ("txq", Val.i 1000)]] := by
  have hb : ((truncQ (numVal ['5', '.', '5'] * (bps_factor "m" : ℚ)) : ℤ) : ℚ) =
      (5767168 : ℚ) := by
    rw [show numVal ['5', '.', '5'] = (5 : ℚ) + (5 : ℚ) / (10 : ℚ) ^ (1 : ℕ) from rfl,
      show (bps_factor "m" : ℚ) = (1048576 : ℚ) from rfl]
    simp only [truncQ]
    rw [if_neg (by norm_num)]
    norm_num
  have hl : numVal ['2'] / 100 = (1 : ℚ) / 50 := by
    rw [show numVal ['2'] = (2 : ℚ) + (0 : ℚ) / (10 : ℚ) ^ (0 : ℕ) from rfl]
    norm_num
  have hq : wrap32 (truncQ (numVal ['5', '0', '0'])) = 500 := by
    have ht : truncQ (numVal ['5', '0', '0']) = 500 := by
      rw [show numVal ['5', '0', '0'] = (500 : ℚ) + (0 : ℚ) / (10 : ℚ) ^ (0 : ℕ) from rfl]
      simp only [truncQ]
      rw [if_neg (by norm_num)]
      norm_num
    rw [ht]
    decide
  have h1 : (parse [("LEO_r50mbit_l2_q500",
      [("quic_1_client.txt",
        "second 3: 5.5 mbit/s (1000000 bytes received, 700 packets received)")])]).map
      (fun r => r.quic_client.rows) =
    some [[("run", Val.i 1), ("second", Val.i 3),
      ("bps", Val.f ((truncQ (numVal ['5', '.', '5'] * (bps_factor "m" : ℚ)) : ℤ) : ℚ)),
      ("bytes", Val.i 1000000), ("packets_received", Val.i 700),
      ("protocol", Val.s "quic"), ("pep", Val.b false), ("sat", Val.s "LEO"),
      ("rate", Val.i 50), ("loss", Val.f (numVal ['2'] / 100)),
      ("queue", Val.i (wrap32 (truncQ (numVal ['5', '0', '0'])))),
      ("txq", Val.i 1000)]] := rfl
  rw [h1, hb, hl, hq]

/-! ## JSON loader lemmas (claim C5): token-level prefix stability -/

theorem pv_zero (cs : List Char) : parseValue 0 cs = none := rfl

theorem pv_nil (n : ℕ) : parseValue (n + 1) [] = none := rfl

theorem pv_quote (n : ℕ) (r : List Char) :
    parseValue (n + 1) (quoteC :: r) =
      (parseStringBody r).map (fun p => (Json.str p.1, p.2)) := by
  conv_lhs => unfold parseValue
  dsimp only
  rw [if_pos rfl]

theorem pv_obrace (n : ℕ) (r : List Char) :
    parseValue (n + 1) ('{' :: r) =
      (match List.dropWhile isPyWs r with
       | c2 :: r2 =>
         if c2 = '}' then some (Json.obj [], r2)
         else (parseMembers n (c2 :: r2)).map (fun p => (Json.obj p.1, p.2))
       | [] => none) := by
  conv_lhs => unfold parseValue
  dsimp only
  rw [if_neg (by decide), if_pos rfl]

theorem pv_obracket (n : ℕ) (r : List Char) :
    parseValue (n + 1) ('[' :: r) =
      (match List.dropWhile isPyWs r with
       | c2 :: r2 =>
         if c2 = ']' then some (Json.arr [], r2)
         else (parseItems n (c2 :: r2)).map (fun p => (Json.arr p.1, p.2))
       | [] => none) := by
  conv_lhs => unfold parseValue
  dsimp only
  rw [if_neg (by decide), if_neg (by decide), if_pos rfl]

theorem pv_other (n : ℕ) {c : Char} (h1 : ¬c = quoteC) (h2 : ¬c = '{')
    (h3 : ¬c = '[') (r : List Char) :
    parseValue (n + 1) (c :: r) =
      (match stripLit "null".data (c :: r) with
       | some r2 => some (Json.null, r2)
       | none =>
         match stripLit "true".data (c :: r) with
         | some r2 => some (Json.bool true, r2)
         | none =>
           match stripLit "false".data (c :: r) with
           | some r2 => some (Json.bool false, r2)
           | none => (parseNumber (c :: r)).map (fun p => (Json.num p.1, p.2))) := by
  conv_lhs => unfold parseValue
  dsimp only
  rw [if_neg h1, if_neg h2, if_neg h3]

theorem pm_zero (cs : List Char) : parseMembers 0 cs = none := rfl

theorem pm_quote (n : ℕ) (r1 : List Char) :
    parseMembers (n + 1) (quoteC :: r1) =
      (match parseStringBody r1 with
       | none => none
       | some (key, r2) =>
         match List.dropWhile isPyWs r2 with
         | [] => none
         | c2 :: r3 =>
           if c2 = ':' then
             match parseValue n (List.dropWhile isPyWs r3) with
             | none => none
             | some (v, r4) =>
               match List.dropWhile isPyWs r4 with
               | [] => none
               | c3 :: r5 =>
                 if c3 = ',' then
                   (parseMembers n (List.dropWhile isPyWs r5)).map
                     (fun p => ((key, v) :: p.1, p.2))
                 else if c3 = '}' then some ([(key, v)], r5)
                 else none
           else none) := by
  conv_lhs => unfold parseMembers
  dsimp only
  rw [if_pos rfl]

theorem pm_other (n : ℕ) {c : Char} (h : ¬c = quoteC) (r : List Char) :
    parseMembers (n + 1) (c :: r) = none := by
  conv_lhs => unfold parseMembers
  dsimp only
  rw [if_neg h]

theorem pm_nil (n : ℕ) : parseMembers (n + 1) [] = none := rfl

theorem pi_zero (cs : List Char) : parseItems 0 cs = none := rfl

theorem pi_succ (n : ℕ) (cs : List Char) :
    parseItems (n + 1) cs =
      (match parseValue n cs with
       | none => none
       | some (v, r1) =>
         match List.dropWhile isPyWs r1 with
         | [] => none
         | c :: r2 =>
           if c = ',' then
             (parseItems n (List.dropWhile isPyWs r2)).map
               (fun p => (v :: p.1, p.2))
           else if c = ']' then some ([v], r2)
           else none) := by
  conv_lhs => unfold parseItems

theorem noExt_noDig {o : Option Char} (h : noExt o) : noDig o :=
  fun x hx => (h x hx).1

theorem noExt_ws {c : Char} (h : isPyWs c = true) : noExt (some c) := by
  intro x hx
  cases hx
  simp only [isPyWs, decide_eq_true_eq] at h
  rcases h with h | h | h | h <;> subst h <;>
    exact ⟨by decide, by decide, by decide, by decide⟩

theorem noExt_head_ws {w : List Char} (hw : ∀ a ∈ w, isPyWs a = true)
    {x : List Char} (hx : noExt x.head?) : noExt (w ++ x).head? := by
  cases w with
  | nil => exact hx
  | cons a t => exact noExt_ws (hw a (by simp))

theorem noExt_char {c : Char}
    (h : c.isDigit = false ∧ c ≠ '.' ∧ c ≠ 'e' ∧ c ≠ 'E') : noExt (some c) := by
  intro x hx
  cases hx
  exact h

theorem noExt_punct {c : Char}
    (h : c.isDigit = false ∧ c ≠ '.' ∧ c ≠ 'e' ∧ c ≠ 'E') (t : List Char) :
    noExt (c :: t).head? := noExt_char h

theorem noExt_all_ws {w : List Char} (hw : ∀ a ∈ w, isPyWs a = true) :
    noExt w.head? := by
  cases w with
  | nil => exact fun x hx => nomatch hx
  | cons a t => exact noExt_ws (hw a (by simp))

theorem dropWhile_app_ws {p : Char → Bool} {w : List Char}
    (hw : ∀ a ∈ w, p a = true) (x : List Char) :
    List.dropWhile p (w ++ x) = List.dropWhile p x := by
  induction w with
  | nil => rfl
  | cons a t ih =>
    simp only [List.cons_append, List.dropWhile_cons, hw a (by simp), if_true]
    exact ih (fun b hb => hw b (by simp [hb]))

theorem dropWhile_all {p : Char → Bool} {w : List Char}
    (hw : ∀ a ∈ w, p a = true) : List.dropWhile p w = [] := by
  have h2 := dropWhile_app_ws hw ([] : List Char)
  rw [List.append_nil] at h2
  exact h2

theorem ne_of_digit {a : Char} (ha : a.isDigit = true) {b : Char}
    (hb : b.isDigit = false) : ¬a = b := by
  intro h
  subst h
  rw [ha] at hb
  cases hb

theorem parseIntPart_replay {cs ip rest : List Char}
    (h : parseIntPart cs = some (ip, rest)) :
    cs = ip ++ rest ∧ (∃ d t, ip = d :: t ∧ d.isDigit = true) ∧
      ∀ r', noDig r'.head? → parseIntPart (ip ++ r') = some (ip, r') := by
  cases cs with
  | nil => exact absurd h (by simp [parseIntPart])
  | cons c t =>
    by_cases h0 : c = '0'
    · subst h0
      simp only [parseIntPart, if_pos rfl, Option.some.injEq, Prod.mk.injEq] at h
      obtain ⟨rfl, rfl⟩ := h
      refine ⟨rfl, ⟨'0', [], rfl, by decide⟩, fun r' hr => ?_⟩
      simp [parseIntPart]
    · by_cases hd : c.isDigit = true
      · simp only [parseIntPart, if_neg h0, if_pos hd, Option.some.injEq,
          Prod.mk.injEq] at h
        obtain ⟨rfl, rfl⟩ := h
        refine ⟨?_, ⟨c, _, rfl, hd⟩, fun r' hr => ?_⟩
        · simp [List.takeWhile_append_dropWhile]
        · have hta := takeWhile_app (t.takeWhile Char.isDigit) r'
            (fun x hx => List.mem_takeWhile_imp hx)
            (fun c2 t2 ht => hr c2 (by rw [ht]; rfl))
          simp only [List.cons_append, parseIntPart, if_neg h0, if_pos hd,
            Option.some.injEq, Prod.mk.injEq]
          exact ⟨by rw [hta.1], hta.2⟩
      · exact absurd h (by simp [parseIntPart, h0, hd])

theorem expDigits_replay {cs ds rest : List Char}
    (h : expDigits cs = some (ds, rest)) :
    cs = ds ++ rest ∧ (∃ d t, ds = d :: t ∧ d.isDigit = true) ∧
      ∀ r', noDig r'.head? → expDigits (ds ++ r') = some (ds, r') := by
  cases cs with
  | nil => exact absurd h (by simp [expDigits])
  | cons c t =>
    by_cases hd : c.isDigit = true
    · simp only [expDigits, if_pos hd, Option.some.injEq, Prod.mk.injEq] at h
      obtain ⟨rfl, rfl⟩ := h
      refine ⟨by simp [List.takeWhile_append_dropWhile], ⟨c, _, rfl, hd⟩,
        fun r' hr => ?_⟩
      have hta := takeWhile_app (t.takeWhile Char.isDigit) r'
        (fun x hx => List.mem_takeWhile_imp hx)
        (fun c2 t2 ht => hr c2 (by rw [ht]; rfl))
      simp only [List.cons_append, expDigits, if_pos hd, Option.some.injEq,
        Prod.mk.injEq]
      exact ⟨by rw [hta.1], hta.2⟩
    · exact absurd h (by simp [expDigits, hd])

theorem pf_dot {d : Char} (hd : d.isDigit = true) (t2 : List Char) :
    parseFracPart ('.' :: d :: t2) =
      ('.' :: d :: t2.takeWhile Char.isDigit, t2.dropWhile Char.isDigit) := by
  conv_lhs => unfold parseFracPart
  dsimp only
  rw [if_pos (And.intro rfl hd)]

theorem pf_guard {c d : Char} {t2 : List Char} (h : ¬(c = '.' ∧ d.isDigit = true)) :
    parseFracPart (c :: d :: t2) = ([], c :: d :: t2) := by
  conv_lhs => unfold parseFracPart
  dsimp only
  rw [if_neg h]

theorem parseFracPart_spec (cs : List Char) :
    cs = (parseFracPart cs).1 ++ (parseFracPart cs).2 ∧
      ((parseFracPart cs).1 = [] ∨ ∃ t, (parseFracPart cs).1 = '.' :: t) := by
  cases cs with
  | nil => exact ⟨rfl, Or.inl rfl⟩
  | cons c t =>
    cases t with
    | nil => exact ⟨rfl, Or.inl rfl⟩
    | cons d t2 =>
      by_cases hcd : c = '.' ∧ d.isDigit = true
      · obtain ⟨rfl, hd⟩ := hcd
        rw [pf_dot hd]
        exact ⟨by simp [List.takeWhile_append_dropWhile], Or.inr ⟨_, rfl⟩⟩
      · rw [pf_guard hcd]
        exact ⟨rfl, Or.inl rfl⟩

theorem parseFracPart_not_dot {cs : List Char}
    (h : ∀ x, cs.head? = some x → ¬x = '.') : parseFracPart cs = ([], cs) := by
  cases cs with
  | nil => rfl
  | cons c t =>
    cases t with
    | nil => rfl
    | cons d t2 => exact pf_guard (fun hc => h c rfl hc.1)

theorem parseFracPart_replay {cs f rest : List Char}
    (hf : parseFracPart cs = (f, rest)) (hne : f ≠ []) :
    ∀ r', noDig r'.head? → parseFracPart (f ++ r') = (f, r') := by
  cases cs with
  | nil =>
    rw [show parseFracPart [] = ([], []) from rfl, Prod.mk.injEq] at hf
    exact absurd hf.1.symm hne
  | cons c t =>
    cases t with
    | nil =>
      rw [show parseFracPart [c] = ([], [c]) from rfl, Prod.mk.injEq] at hf
      exact absurd hf.1.symm hne
    | cons d t2 =>
      by_cases hcd : c = '.' ∧ d.isDigit = true
      · obtain ⟨rfl, hd⟩ := hcd
        rw [pf_dot hd, Prod.mk.injEq] at hf
        obtain ⟨h1, h2⟩ := hf
        subst h1
        subst h2
        intro r' hr
        have hta := takeWhile_app (t2.takeWhile Char.isDigit) r'
          (fun x hx => List.mem_takeWhile_imp hx)
          (fun c2 t3 ht => hr c2 (by rw [ht]; rfl))
        rw [show ('.' :: d :: t2.takeWhile Char.isDigit) ++ r' =
          '.' :: d :: (t2.takeWhile Char.isDigit ++ r') from rfl]
        rw [pf_dot hd, hta.1, hta.2]
      · rw [pf_guard hcd, Prod.mk.injEq] at hf
        exact absurd hf.1.symm hne

theorem pe_not {c : Char} {r : List Char} (h : ¬(c = 'e' ∨ c = 'E')) :
    parseExpPart (c :: r) = ([], c :: r) := by
  conv_lhs => unfold parseExpPart
  dsimp only
  rw [if_neg h]

theorem pe_e_nil {e : Char} (he : e = 'e' ∨ e = 'E') :
    parseExpPart [e] = ([], [e]) := by
  conv_lhs => unfold parseExpPart
  dsimp only
  rw [if_pos he]

theorem pe_sign {e s : Char} (he : e = 'e' ∨ e = 'E') (hs : s = '+' ∨ s = '-')
    (t : List Char) :
    parseExpPart (e :: s :: t) =
      (match expDigits t with
       | some (ds, rest) => (e :: s :: ds, rest)
       | none => ([], e :: s :: t)) := by
  conv_lhs => unfold parseExpPart
  dsimp only
  rw [if_pos he, if_pos hs]

theorem pe_nosign {e s : Char} (he : e = 'e' ∨ e = 'E') (hs : ¬(s = '+' ∨ s = '-'))
    (t : List Char) :
    parseExpPart (e :: s :: t) =
      (match expDigits (s :: t) with
       | some (ds, rest) => (e :: ds, rest)
       | none => ([], e :: s :: t)) := by
  conv_lhs => unfold parseExpPart
  dsimp only
  rw [if_pos he, if_neg hs]

theorem parseExpPart_spec (cs : List Char) :
    cs = (parseExpPart cs).1 ++ (parseExpPart cs).2 ∧
      ((parseExpPart cs).1 = [] ∨
        ∃ x t, (parseExpPart cs).1 = x :: t ∧ (x = 'e' ∨ x = 'E')) := by
  cases cs with
  | nil => exact ⟨rfl, Or.inl rfl⟩
  | cons e r =>
    by_cases he : e = 'e' ∨ e = 'E'
    · cases r with
      | nil => rw [pe_e_nil he]; exact ⟨rfl, Or.inl rfl⟩
      | cons s t =>
        by_cases hs : s = '+' ∨ s = '-'
        · rw [pe_sign he hs t]
          cases hed : expDigits t with
          | none => exact ⟨rfl, Or.inl rfl⟩
          | some q =>
            obtain ⟨ds, rest⟩ := q
            obtain ⟨hdec, -, -⟩ := expDigits_replay hed
            exact ⟨by rw [hdec]; rfl, Or.inr ⟨e, _, rfl, he⟩⟩
        · rw [pe_nosign he hs t]
          cases hed : expDigits (s :: t) with
          | none => exact ⟨rfl, Or.inl rfl⟩
          | some q =>
            obtain ⟨ds, rest⟩ := q
            obtain ⟨hdec, -, -⟩ := expDigits_replay hed
            exact ⟨by rw [show e :: s :: t = e :: (s :: t) from rfl, hdec]; rfl,
              Or.inr ⟨e, _, rfl, he⟩⟩
    · rw [pe_not he]
      exact ⟨rfl, Or.inl rfl⟩

theorem parseExpPart_not_e {cs : List Char}
    (h : ∀ x, cs.head? = some x → ¬(x = 'e' ∨ x = 'E')) :
    parseExpPart cs = ([], cs) := by
  cases cs with
  | nil => rfl
  | cons c r => exact pe_not (h c rfl)

theorem parseExpPart_replay {cs f rest : List Char}
    (hf : parseExpPart cs = (f, rest)) (hne : f ≠ []) :
    ∀ r', noDig r'.head? → parseExpPart (f ++ r') = (f, r') := by
  cases cs with
  | nil =>
    rw [show parseExpPart [] = ([], []) from rfl, Prod.mk.injEq] at hf
    exact absurd hf.1.symm hne
  | cons e r =>
    by_cases he : e = 'e' ∨ e = 'E'
    · cases r with
      | nil =>
        rw [pe_e_nil he, Prod.mk.injEq] at hf
        exact absurd hf.1.symm hne
      | cons s t =>
        by_cases hs : s = '+' ∨ s = '-'
        · rw [pe_sign he hs t] at hf
          cases hed : expDigits t with
          | none =>
            rw [hed] at hf
            dsimp only at hf
            rw [Prod.mk.injEq] at hf
            exact absurd hf.1.symm hne
          | some q =>
            obtain ⟨ds, rest0⟩ := q
            rw [hed] at hf
            dsimp only at hf
            rw [Prod.mk.injEq] at hf
            obtain ⟨h1, h2⟩ := hf
            subst h1
            subst h2
            obtain ⟨hdec, -, hrep⟩ := expDigits_replay hed
            intro r' hr
            rw [show (e :: s :: ds) ++ r' = e :: s :: (ds ++ r') from rfl]
            rw [pe_sign he hs, hrep r' hr]
        · rw [pe_nosign he hs t] at hf
          cases hed : expDigits (s :: t) with
          | none =>
            rw [hed] at hf
            dsimp only at hf
            rw [Prod.mk.injEq] at hf
            exact absurd hf.1.symm hne
          | some q =>
            obtain ⟨ds, rest0⟩ := q
            rw [hed] at hf
            dsimp only at hf
            rw [Prod.mk.injEq] at hf
            obtain ⟨h1, h2⟩ := hf
            subst h1
            subst h2
            obtain ⟨hdec, ⟨d0, t0, hds, hd0⟩, hrep⟩ := expDigits_replay hed
            intro r' hr
            subst hds
            rw [show (e :: d0 :: t0) ++ r' = e :: d0 :: (t0 ++ r') from rfl]
            have hns : ¬(d0 = '+' ∨ d0 = '-') := by
              rintro (rfl | rfl) <;> exact absurd hd0 (by decide)
            have hrep2 := hrep r' hr
            rw [show (d0 :: t0) ++ r' = d0 :: (t0 ++ r') from rfl] at hrep2
            rw [pe_nosign he hns, hrep2]
    · rw [pe_not he, Prod.mk.injEq] at hf
      exact absurd hf.1.symm hne

theorem pn_minus (t : List Char) :
    parseNumber ('-' :: t) =
      (match parseIntPart t with
       | none => none
       | some (ip, r1) =>
         some ('-' :: ip ++ (parseFracPart r1).1 ++
             (parseExpPart (parseFracPart r1).2).1,
           (parseExpPart (parseFracPart r1).2).2)) := by
  conv_lhs => unfold parseNumber
  dsimp only
  rw [if_pos rfl]
  dsimp only
  simp only [List.cons_append, List.nil_append]

theorem pn_nosign {c : Char} (hm : ¬c = '-') (t : List Char) :
    parseNumber (c :: t) =
      (match parseIntPart (c :: t) with
       | none => none
       | some (ip, r1) =>
         some (ip ++ (parseFracPart r1).1 ++
             (parseExpPart (parseFracPart r1).2).1,
           (parseExpPart (parseFracPart r1).2).2)) := by
  conv_lhs => unfold parseNumber
  dsimp only
  rw [if_neg hm]
  dsimp only
  simp only [List.nil_append]

theorem parseNumber_replay {cs tok rest : List Char}
    (h : parseNumber cs = some (tok, rest)) :
    cs = tok ++ rest ∧
      (∃ hd tl, tok = hd :: tl ∧ (hd = '-' ∨ hd.isDigit = true)) ∧
      ∀ r', noExt r'.head? → parseNumber (tok ++ r') = some (tok, r') := by
  cases cs with
  | nil => exact absurd h (by simp [parseNumber, parseIntPart])
  | cons c t =>
    by_cases hm : c = '-'
    · subst hm
      rw [pn_minus] at h
      cases hip : parseIntPart t with
      | none => rw [hip] at h; simp at h
      | some q =>
        obtain ⟨ip, r1⟩ := q
        rw [hip] at h
        dsimp only at h
        rcases hpf : parseFracPart r1 with ⟨fp1, fp2⟩
        rcases hpe : parseExpPart fp2 with ⟨ep1, ep2⟩
        rw [hpf] at h
        dsimp only at h
        rw [hpe] at h
        dsimp only at h
        rw [Option.some.injEq, Prod.mk.injEq] at h
        obtain ⟨h1, h2⟩ := h
        subst h1
        subst h2
        obtain ⟨hipd, ⟨d0, t0, hipsh, hd0⟩, hiprep⟩ := parseIntPart_replay hip
        have hfa := (parseFracPart_spec r1).1
        have hfsh := (parseFracPart_spec r1).2
        rw [hpf] at hfa hfsh
        dsimp only at hfa hfsh
        have hea := (parseExpPart_spec fp2).1
        have hesh := (parseExpPart_spec fp2).2
        rw [hpe] at hea hesh
        dsimp only at hea hesh
        refine ⟨?_, ⟨'-', _, rfl, Or.inl rfl⟩, ?_⟩
        · rw [hipd, hfa, hea]
          simp
        · intro r' hr
          have hnd1 : noDig (fp1 ++ (ep1 ++ r')).head? := by
            rcases hfsh with hf0 | ⟨tf, hf1⟩
            · subst hf0
              rcases hesh with he0 | ⟨x, tx, he1, hor⟩
              · subst he0
                exact noExt_noDig hr
              · rw [he1]
                intro y hy
                cases hy
                rcases hor with h4 | h4 <;> subst h4 <;> decide
            · rw [hf1]
              intro y hy
              cases hy
              decide
          have h1 := hiprep (fp1 ++ (ep1 ++ r')) hnd1
          have h2 : parseFracPart (fp1 ++ (ep1 ++ r')) = (fp1, ep1 ++ r') := by
            rcases hfsh with hf0 | ⟨tf, hf1⟩
            · subst hf0
              refine parseFracPart_not_dot ?_
              rcases hesh with he0 | ⟨x, tx, he1, hor⟩
              · subst he0
                intro y hy
                exact (hr y hy).2.1
              · rw [he1]
                intro y hy
                cases hy
                rcases hor with h4 | h4 <;> subst h4 <;> decide
            · refine parseFracPart_replay hpf (by simp [hf1]) (ep1 ++ r') ?_
              rcases hesh with he0 | ⟨x, tx, he1, hor⟩
              · subst he0
                exact noExt_noDig hr
              · rw [he1]
                intro y hy
                cases hy
                rcases hor with h4 | h4 <;> subst h4 <;> decide
          have h3 : parseExpPart (ep1 ++ r') = (ep1, r') := by
            rcases hesh with he0 | ⟨x, tx, he1, hor⟩
            · subst he0
              refine parseExpPart_not_e ?_
              intro y hy hor2
              rcases hor2 with h4 | h4
              · exact (hr y hy).2.2.1 h4
              · exact (hr y hy).2.2.2 h4
            · exact parseExpPart_replay hpe (by simp [he1]) r' (noExt_noDig hr)
          rw [show ('-' :: ip ++ fp1 ++ ep1) ++ r' =
            '-' :: (ip ++ (fp1 ++ (ep1 ++ r'))) from by simp]
          rw [pn_minus, h1]
          dsimp only
          rw [h2]
          dsimp only
          rw [h3]
    · rw [pn_nosign hm] at h
      cases hip : parseIntPart (c :: t) with
      | none => rw [hip] at h; simp at h
      | some q =>
        obtain ⟨ip, r1⟩ := q
        rw [hip] at h
        dsimp only at h
        rcases hpf : parseFracPart r1 with ⟨fp1, fp2⟩
        rcases hpe : parseExpPart fp2 with ⟨ep1, ep2⟩
        rw [hpf] at h
        dsimp only at h
        rw [hpe] at h
        dsimp only at h
        rw [Option.some.injEq, Prod.mk.injEq] at h
        obtain ⟨h1, h2⟩ := h
        subst h1
        subst h2
        obtain ⟨hipd, ⟨d0, t0, hipsh, hd0⟩, hiprep⟩ := parseIntPart_replay hip
        subst hipsh
        have hfa := (parseFracPart_spec r1).1
        have hfsh := (parseFracPart_spec r1).2
        rw [hpf] at hfa hfsh
        dsimp only at hfa hfsh
        have hea := (parseExpPart_spec fp2).1
        have hesh := (parseExpPart_spec fp2).2
        rw [hpe] at hea hesh
        dsimp only at hea hesh
        refine ⟨?_, ⟨d0, _, rfl, Or.inr hd0⟩, ?_⟩
        · rw [show (c : Char) :: t = (c :: t : List Char) from rfl, hipd, hfa, hea]
          simp
        · intro r' hr
          have hnd1 : noDig (fp1 ++ (ep1 ++ r')).head? := by
            rcases hfsh with hf0 | ⟨tf, hf1⟩
            · subst hf0
              rcases hesh with he0 | ⟨x, tx, he1, hor⟩
              · subst he0
                exact noExt_noDig hr
              · rw [he1]
                intro y hy
                cases hy
                rcases hor with h4 | h4 <;> subst h4 <;> decide
            · rw [hf1]
              intro y hy
              cases hy
              decide
          have h1 := hiprep (fp1 ++ (ep1 ++ r')) hnd1
          have h2 : parseFracPart (fp1 ++ (ep1 ++ r')) = (fp1, ep1 ++ r') := by
            rcases hfsh with hf0 | ⟨tf, hf1⟩
            · subst hf0
              refine parseFracPart_not_dot ?_
              rcases hesh with he0 | ⟨x, tx, he1, hor⟩
              · subst he0
                intro y hy
                exact (hr y hy).2.1
              · rw [he1]
                intro y hy
                cases hy
                rcases hor with h4 | h4 <;> subst h4 <;> decide
            · refine parseFracPart_replay hpf (by simp [hf1]) (ep1 ++ r') ?_
              rcases hesh with he0 | ⟨x, tx, he1, hor⟩
              · subst he0
                exact noExt_noDig hr
              · rw [he1]
                intro y hy
                cases hy
                rcases hor with h4 | h4 <;> subst h4 <;> decide
          have h3 : parseExpPart (ep1 ++ r') = (ep1, r') := by
            rcases hesh with he0 | ⟨x, tx, he1, hor⟩
            · subst he0
              refine parseExpPart_not_e ?_
              intro y hy hor2
              rcases hor2 with h4 | h4
              · exact (hr y hy).2.2.1 h4
              · exact (hr y hy).2.2.2 h4
            · exact parseExpPart_replay hpe (by simp [he1]) r' (noExt_noDig hr)
          have hmd : ¬d0 = '-' := by
            intro hcon
            subst hcon
            exact absurd hd0 (by decide)
          rw [show ((d0 :: t0) ++ fp1 ++ ep1) ++ r' =
            d0 :: (t0 ++ (fp1 ++ (ep1 ++ r'))) from by simp]
          rw [pn_nosign hmd]
          have h1b : parseIntPart (d0 :: (t0 ++ (fp1 ++ (ep1 ++ r')))) =
              some (d0 :: t0, fp1 ++ (ep1 ++ r')) := by
            have h1c := h1
            rw [show (d0 :: t0) ++ (fp1 ++ (ep1 ++ r')) =
              d0 :: (t0 ++ (fp1 ++ (ep1 ++ r'))) from rfl] at h1c
            exact h1c
          rw [h1b]
          dsimp only
          rw [h2]
          dsimp only
          rw [h3]

theorem psb_quote (cs2 : List Char) :
    parseStringBody (quoteC :: cs2) = some ([], cs2) := by
  unfold parseStringBody
  rw [if_pos rfl]

theorem psb_bslash (d : Char) (ds : List Char) :
    parseStringBody (bslashC :: d :: ds) =
      (parseStringBody ds).map (fun p => (bslashC :: d :: p.1, p.2)) := by
  conv_lhs => unfold parseStringBody
  rw [if_neg (by decide), if_pos rfl]

theorem psb_bslash_nil : parseStringBody [bslashC] = none := by
  conv_lhs => unfold parseStringBody
  rw [if_neg (by decide), if_pos rfl]

theorem psb_other {c : Char} (hq : ¬c = quoteC) (hb : ¬c = bslashC)
    (cs : List Char) :
    parseStringBody (c :: cs) =
      (parseStringBody cs).map (fun p => (c :: p.1, p.2)) := by
  conv_lhs => unfold parseStringBody
  rw [if_neg hq, if_neg hb]

theorem parseStringBody_replay :
    ∀ (n : ℕ) (cs : List Char), cs.length ≤ n → ∀ {b rest : List Char},
      parseStringBody cs = some (b, rest) →
      cs = b ++ quoteC :: rest ∧
        ∀ r', parseStringBody (b ++ quoteC :: r') = some (b, r') := by
  intro n
  induction n with
  | zero =>
    intro cs hlen b rest h
    rw [List.length_eq_zero.mp (Nat.le_zero.mp hlen)] at h
    exact absurd h (by simp [parseStringBody])
  | succ n ih =>
    intro cs hlen b rest h
    cases cs with
    | nil => exact absurd h (by simp [parseStringBody])
    | cons c cs2 =>
      by_cases hq : c = quoteC
      · subst hq
        rw [psb_quote, Option.some.injEq, Prod.mk.injEq] at h
        obtain ⟨rfl, rfl⟩ := h
        exact ⟨rfl, fun r' => psb_quote r'⟩
      · by_cases hb : c = bslashC
        · subst hb
          cases cs2 with
          | nil => rw [psb_bslash_nil] at h; exact absurd h (by simp)
          | cons d ds =>
            rw [psb_bslash] at h
            cases hps : parseStringBody ds with
            | none => rw [hps] at h; simp at h
            | some p =>
              obtain ⟨p1, p2⟩ := p
              rw [hps, Option.map_some', Option.some.injEq, Prod.mk.injEq] at h
              obtain ⟨h1, h2⟩ := h
              subst h1
              subst h2
              obtain ⟨hdec, hrep⟩ := ih ds (by simp at hlen ⊢; omega) hps
              refine ⟨by simp [hdec], fun r' => ?_⟩
              rw [show (bslashC :: d :: p1) ++ quoteC :: r' =
                bslashC :: d :: (p1 ++ quoteC :: r') from rfl]
              rw [psb_bslash, hrep r', Option.map_some']
        · cases hps : parseStringBody cs2 with
          | none => rw [psb_other hq hb, hps] at h; simp at h
          | some p =>
            obtain ⟨p1, p2⟩ := p
            rw [psb_other hq hb, hps, Option.map_some', Option.some.injEq,
              Prod.mk.injEq] at h
            obtain ⟨h1, h2⟩ := h
            subst h1
            subst h2
            obtain ⟨hdec, hrep⟩ := ih cs2 (by simp at hlen ⊢; omega) hps
            refine ⟨by simp [hdec], fun r' => ?_⟩
            rw [show (c :: p1) ++ quoteC :: r' = c :: (p1 ++ quoteC :: r') from rfl]
            rw [psb_other hq hb, hrep r', Option.map_some']

theorem stripLit_guard {x y : Char} {lt t : List Char} (h : ¬y = x) :
    stripLit (x :: lt) (y :: t) = none := by
  simp [stripLit, h]

theorem pv_null (m : ℕ) (r' : List Char) :
    parseValue (m + 1) ('n' :: 'u' :: 'l' :: 'l' :: r') = some (Json.null, r') := by
  rw [pv_other m (by decide) (by decide) (by decide)]
  rw [show stripLit "null".data ('n' :: 'u' :: 'l' :: 'l' :: r') = some r' from
    stripLit_self "null".data r']

theorem pv_true (m : ℕ) (r' : List Char) :
    parseValue (m + 1) ('t' :: 'r' :: 'u' :: 'e' :: r') =
      some (Json.bool true, r') := by
  rw [pv_other m (by decide) (by decide) (by decide)]
  rw [show stripLit "null".data ('t' :: 'r' :: 'u' :: 'e' :: r') = none from
    stripLit_guard (by decide)]
  rw [show stripLit "true".data ('t' :: 'r' :: 'u' :: 'e' :: r') = some r' from
    stripLit_self "true".data r']

theorem pv_false (m : ℕ) (r' : List Char) :
    parseValue (m + 1) ('f' :: 'a' :: 'l' :: 's' :: 'e' :: r') =
      some (Json.bool false, r') := by
  rw [pv_other m (by decide) (by decide) (by decide)]
  rw [show stripLit "null".data ('f' :: 'a' :: 'l' :: 's' :: 'e' :: r') = none from
    stripLit_guard (by decide)]
  rw [show stripLit "true".data ('f' :: 'a' :: 'l' :: 's' :: 'e' :: r') = none from
    stripLit_guard (by decide)]
  rw [show stripLit "false".data ('f' :: 'a' :: 'l' :: 's' :: 'e' :: r') = some r' from
    stripLit_self "false".data r']

set_option maxHeartbeats 1000000 in
theorem json_replay : ∀ g : ℕ,
    (∀ cs v rest, parseValue g cs = some (v, rest) →
      ∃ c, cs = c ++ rest ∧ c ≠ [] ∧
        ∀ g' r', c.length < g' → noExt r'.head? →
          parseValue g' (c ++ r') = some (v, r')) ∧
    (∀ cs ms rest, parseMembers g cs = some (ms, rest) →
      ∃ c, cs = c ++ rest ∧ c ≠ [] ∧
        ∀ g' r', c.length < g' → noExt r'.head? →
          parseMembers g' (c ++ r') = some (ms, r')) ∧
    (∀ cs xs rest, parseItems g cs = some (xs, rest) →
      ∃ c, cs = c ++ rest ∧ c ≠ [] ∧
        ∀ g' r', c.length < g' → noExt r'.head? →
          parseItems g' (c ++ r') = some (xs, r')) := by
  intro g
  induction g with
  | zero =>
    exact ⟨fun cs v rest h => absurd h (by rw [pv_zero]; simp),
           fun cs ms rest h => absurd h (by rw [pm_zero]; simp),
           fun cs xs rest h => absurd h (by rw [pi_zero]; simp)⟩
  | succ n ih =>
    obtain ⟨ihv, ihm, ihi⟩ := ih
    refine ⟨?_, ?_, ?_⟩
    · -- parseValue
      intro cs v rest h
      cases cs with
      | nil => rw [pv_nil] at h; exact absurd h (by simp)
      | cons c r0 =>
        by_cases hq : c = quoteC
        · subst hq
          rw [pv_quote] at h
          cases hps : parseStringBody r0 with
          | none => rw [hps] at h; simp at h
          | some p =>
            obtain ⟨b, r2⟩ := p
            rw [hps, Option.map_some', Option.some.injEq, Prod.mk.injEq] at h
            obtain ⟨h1, h2⟩ := h
            subst h1
            subst h2
            obtain ⟨hdec, hrep⟩ := parseStringBody_replay r0.length r0 le_rfl hps
            refine ⟨quoteC :: (b ++ [quoteC]), by rw [hdec]; simp, by simp, ?_⟩
            intro g' r' hlt hne
            cases g' with
            | zero => exact absurd hlt (Nat.not_lt_zero _)
            | succ m =>
              rw [show (quoteC :: (b ++ [quoteC])) ++ r' =
                quoteC :: (b ++ quoteC :: r') from by simp]
              rw [pv_quote, hrep r', Option.map_some']
        · by_cases hob : c = '{'
          · subst hob
            rw [pv_obrace] at h
            cases hdw : List.dropWhile isPyWs r0 with
            | nil => rw [hdw] at h; simp at h
            | cons c2 r2 =>
              rw [hdw] at h
              dsimp only at h
              have hw0 : r0 = r0.takeWhile isPyWs ++ (c2 :: r2) := by
                conv_lhs => rw [← List.takeWhile_append_dropWhile (p := isPyWs) (l := r0)]
                rw [hdw]
              have hwts : ∀ a ∈ r0.takeWhile isPyWs, isPyWs a = true :=
                fun a ha => List.mem_takeWhile_imp ha
              have hc2ws : isPyWs c2 = false := dropWhile_head_false hdw
              by_cases hcb : c2 = '}'
              · subst hcb
                rw [if_pos rfl, Option.some.injEq, Prod.mk.injEq] at h
                obtain ⟨h1, h2⟩ := h
                subst h1
                subst h2
                have hdecc : '{' :: r0 =
                    ('{' :: (r0.takeWhile isPyWs ++ ['}'])) ++ r2 := by
                  conv_lhs => rw [hw0]
                  simp
                refine ⟨'{' :: (r0.takeWhile isPyWs ++ ['}']), hdecc, by simp, ?_⟩
                intro g' r' hlt hne
                cases g' with
                | zero => exact absurd hlt (Nat.not_lt_zero _)
                | succ m =>
                  rw [show ('{' :: (r0.takeWhile isPyWs ++ ['}'])) ++ r' =
                    '{' :: (r0.takeWhile isPyWs ++ ('}' :: r')) from by simp]
                  rw [pv_obrace, dropWhile_app_ws hwts ('}' :: r'),
                    List.dropWhile_cons_of_neg (by decide)]
                  dsimp only
                  rw [if_pos rfl]
              · rw [if_neg hcb] at h
                cases hpm : parseMembers n (c2 :: r2) with
                | none => rw [hpm] at h; simp at h
                | some q =>
                  obtain ⟨ms, r4⟩ := q
                  rw [hpm, Option.map_some', Option.some.injEq, Prod.mk.injEq] at h
                  obtain ⟨h1, h2⟩ := h
                  subst h1
                  subst h2
                  obtain ⟨cm, hcmdec, hcmne, hcmrep⟩ := ihm (c2 :: r2) ms r4 hpm
                  obtain ⟨cm0, cmt, rfl⟩ : ∃ x xs, cm = x :: xs := by
                    cases cm with
                    | nil => exact absurd rfl hcmne
                    | cons a bb => exact ⟨a, bb, rfl⟩
                  rw [List.cons_append] at hcmdec
                  injection hcmdec with ha hb
                  subst ha
                  have hdecc : '{' :: r0 =
                      ('{' :: (r0.takeWhile isPyWs ++ (c2 :: cmt))) ++ r4 := by
                    conv_lhs => rw [hw0]
                    rw [hb]
                    simp
                  refine ⟨'{' :: (r0.takeWhile isPyWs ++ (c2 :: cmt)), hdecc,
                    by simp, ?_⟩
                  intro g' r' hlt hne
                  cases g' with
                  | zero => exact absurd hlt (Nat.not_lt_zero _)
                  | succ m =>
                    rw [show ('{' :: (r0.takeWhile isPyWs ++ (c2 :: cmt))) ++ r' =
                      '{' :: (r0.takeWhile isPyWs ++ (c2 :: (cmt ++ r'))) from by simp]
                    rw [pv_obrace, dropWhile_app_ws hwts (c2 :: (cmt ++ r')),
                      List.dropWhile_cons_of_neg (by simp [hc2ws])]
                    dsimp only
                    rw [if_neg hcb]
                    have hlen2 : (c2 :: cmt).length < m := by
                      simp only [List.length_cons, List.length_append] at hlt ⊢
                      omega
                    have := hcmrep m r' hlen2 hne
                    rw [show (c2 :: cmt) ++ r' = c2 :: (cmt ++ r') from rfl] at this
                    rw [this, Option.map_some']
          · by_cases har : c = '['
            · subst har
              rw [pv_obracket] at h
              cases hdw : List.dropWhile isPyWs r0 with
              | nil => rw [hdw] at h; simp at h
              | cons c2 r2 =>
                rw [hdw] at h
                dsimp only at h
                have hw0 : r0 = r0.takeWhile isPyWs ++ (c2 :: r2) := by
                  conv_lhs => rw [← List.takeWhile_append_dropWhile (p := isPyWs) (l := r0)]
                  rw [hdw]
                have hwts : ∀ a ∈ r0.takeWhile isPyWs, isPyWs a = true :=
                  fun a ha => List.mem_takeWhile_imp ha
                have hc2ws : isPyWs c2 = false := dropWhile_head_false hdw
                by_cases hcb : c2 = ']'
                · subst hcb
                  rw [if_pos rfl, Option.some.injEq, Prod.mk.injEq] at h
                  obtain ⟨h1, h2⟩ := h
                  subst h1
                  subst h2
                  have hdecc : '[' :: r0 =
                      ('[' :: (r0.takeWhile isPyWs ++ [']'])) ++ r2 := by
                    conv_lhs => rw [hw0]
                    simp
                  refine ⟨'[' :: (r0.takeWhile isPyWs ++ [']']), hdecc, by simp, ?_⟩
                  intro g' r' hlt hne
                  cases g' with
                  | zero => exact absurd hlt (Nat.not_lt_zero _)
                  | succ m =>
                    rw [show ('[' :: (r0.takeWhile isPyWs ++ [']'])) ++ r' =
                      '[' :: (r0.takeWhile isPyWs ++ (']' :: r')) from by simp]
                    rw [pv_obracket, dropWhile_app_ws hwts (']' :: r'),
                      List.dropWhile_cons_of_neg (by decide)]
                    dsimp only
                    rw [if_pos rfl]
                · rw [if_neg hcb] at h
                  cases hpi : parseItems n (c2 :: r2) with
                  | none => rw [hpi] at h; simp at h
                  | some q =>
                    obtain ⟨xs, r4⟩ := q
                    rw [hpi, Option.map_some', Option.some.injEq, Prod.mk.injEq] at h
                    obtain ⟨h1, h2⟩ := h
                    subst h1
                    subst h2
                    obtain ⟨ci, hcidec, hcine, hcirep⟩ := ihi (c2 :: r2) xs r4 hpi
                    obtain ⟨ci0, cit, rfl⟩ : ∃ x xs, ci = x :: xs := by
                      cases ci with
                      | nil => exact absurd rfl hcine
                      | cons a bb => exact ⟨a, bb, rfl⟩
                    rw [List.cons_append] at hcidec
                    injection hcidec with ha hb
                    subst ha
                    have hdecc : '[' :: r0 =
                        ('[' :: (r0.takeWhile isPyWs ++ (c2 :: cit))) ++ r4 := by
                      conv_lhs => rw [hw0]
                      rw [hb]
                      simp
                    refine ⟨'[' :: (r0.takeWhile isPyWs ++ (c2 :: cit)), hdecc,
                      by simp, ?_⟩
                    intro g' r' hlt hne
                    cases g' with
                    | zero => exact absurd hlt (Nat.not_lt_zero _)
                    | succ m =>
                      rw [show ('[' :: (r0.takeWhile isPyWs ++ (c2 :: cit))) ++ r' =
                        '[' :: (r0.takeWhile isPyWs ++ (c2 :: (cit ++ r'))) from by simp]
                      rw [pv_obracket, dropWhile_app_ws hwts (c2 :: (cit ++ r')),
                        List.dropWhile_cons_of_neg (by simp [hc2ws])]
                      dsimp only
                      rw [if_neg hcb]
                      have hlen2 : (c2 :: cit).length < m := by
                        simp only [List.length_cons, List.length_append] at hlt ⊢
                        omega
                      have := hcirep m r' hlen2 hne
                      rw [show (c2 :: cit) ++ r' = c2 :: (cit ++ r') from rfl] at this
                      rw [this, Option.map_some']
            · rw [pv_other n hq hob har] at h
              cases hnull : stripLit "null".data (c :: r0) with
              | some r2 =>
                rw [hnull] at h
                dsimp only at h
                rw [Option.some.injEq, Prod.mk.injEq] at h
                obtain ⟨h1, h2⟩ := h
                subst h1
                subst h2
                refine ⟨"null".data, stripLit_some hnull, by decide, ?_⟩
                intro g' r' hlt hne
                cases g' with
                | zero => exact absurd hlt (Nat.not_lt_zero _)
                | succ m => exact pv_null m r'
              | none =>
                rw [hnull] at h
                dsimp only at h
                cases htrue : stripLit "true".data (c :: r0) with
                | some r2 =>
                  rw [htrue] at h
                  dsimp only at h
                  rw [Option.some.injEq, Prod.mk.injEq] at h
                  obtain ⟨h1, h2⟩ := h
                  subst h1
                  subst h2
                  refine ⟨"true".data, stripLit_some htrue, by decide, ?_⟩
                  intro g' r' hlt hne
                  cases g' with
                  | zero => exact absurd hlt (Nat.not_lt_zero _)
                  | succ m => exact pv_true m r'
                | none =>
                  rw [htrue] at h
                  dsimp only at h
                  cases hfalse : stripLit "false".data (c :: r0) with
                  | some r2 =>
                    rw [hfalse] at h
                    dsimp only at h
                    rw [Option.some.injEq, Prod.mk.injEq] at h
                    obtain ⟨h1, h2⟩ := h
                    subst h1
                    subst h2
                    refine ⟨"false".data, stripLit_some hfalse, by decide, ?_⟩
                    intro g' r' hlt hne
                    cases g' with
                    | zero => exact absurd hlt (Nat.not_lt_zero _)
                    | succ m => exact pv_false m r'
                  | none =>
                    rw [hfalse] at h
                    dsimp only at h
                    cases hnum : parseNumber (c :: r0) with
                    | none => rw [hnum] at h; simp at h
                    | some q =>
                      obtain ⟨tok, rest0⟩ := q
                      rw [hnum, Option.map_some', Option.some.injEq,
                        Prod.mk.injEq] at h
                      obtain ⟨h1, h2⟩ := h
                      subst h1
                      subst h2
                      obtain ⟨hdec, ⟨hd, tl, htok, hor⟩, hrep⟩ :=
                        parseNumber_replay hnum
                      subst htok
                      have hhd : hd = c := by
                        rw [List.cons_append] at hdec
                        injection hdec with ha hb
                        exact ha.symm
                      subst hhd
                      refine ⟨hd :: tl, hdec, by simp, ?_⟩
                      intro g' r' hlt hne
                      cases g' with
                      | zero => exact absurd hlt (Nat.not_lt_zero _)
                      | succ m =>
                        have hdig : hd.isDigit = true ∨ hd = '-' := hor.symm.imp id id |>.symm.elim (fun x => Or.inr x) (fun x => Or.inl x)
                        have hg1 : ¬hd = quoteC := by
                          rcases hor with rfl | hdd
                          · decide
                          · exact ne_of_digit hdd (by decide)
                        have hg2 : ¬hd = '{' := by
                          rcases hor with rfl | hdd
                          · decide
                          · exact ne_of_digit hdd (by decide)
                        have hg3 : ¬hd = '[' := by
                          rcases hor with rfl | hdd
                          · decide
                          · exact ne_of_digit hdd (by decide)
                        have hgn : ¬hd = 'n' := by
                          rcases hor with rfl | hdd
                          · decide
                          · exact ne_of_digit hdd (by decide)
                        have hgt : ¬hd = 't' := by
                          rcases hor with rfl | hdd
                          · decide
                          · exact ne_of_digit hdd (by decide)
                        have hgf : ¬hd = 'f' := by
                          rcases hor with rfl | hdd
                          · decide
                          · exact ne_of_digit hdd (by decide)
                        rw [show (hd :: tl) ++ r' = hd :: (tl ++ r') from rfl]
                        rw [pv_other m hg1 hg2 hg3]
                        rw [show stripLit "null".data (hd :: (tl ++ r')) = none from
                          stripLit_guard hgn]
                        rw [show stripLit "true".data (hd :: (tl ++ r')) = none from
                          stripLit_guard hgt]
                        rw [show stripLit "false".data (hd :: (tl ++ r')) = none from
                          stripLit_guard hgf]
                        dsimp only
                        have := hrep r' hne
                        rw [show (hd :: tl) ++ r' = hd :: (tl ++ r') from rfl] at this
                        rw [this, Option.map_some']
    · -- parseMembers
      intro cs ms rest h
      cases cs with
      | nil => rw [pm_nil] at h; exact absurd h (by simp)
      | cons c0 r1 =>
        by_cases hq : c0 = quoteC
        · subst hq
          rw [pm_quote] at h
          cases hkey : parseStringBody r1 with
          | none => rw [hkey] at h; simp at h
          | some p =>
            obtain ⟨key, r2⟩ := p
            rw [hkey] at h
            dsimp only at h
            cases hdw2 : List.dropWhile isPyWs r2 with
            | nil => rw [hdw2] at h; simp at h
            | cons c2 r3 =>
              rw [hdw2] at h
              dsimp only at h
              by_cases hcol : c2 = ':'
              · subst hcol
                rw [if_pos rfl] at h
                cases hval : parseValue n (List.dropWhile isPyWs r3) with
                | none => rw [hval] at h; simp at h
                | some q =>
                  obtain ⟨v, r4⟩ := q
                  rw [hval] at h
                  dsimp only at h
                  cases hdw3 : List.dropWhile isPyWs r4 with
                  | nil => rw [hdw3] at h; simp at h
                  | cons c3 r5 =>
                    rw [hdw3] at h
                    dsimp only at h
                    obtain ⟨hkdec, hkrep⟩ :=
                      parseStringBody_replay r1.length r1 le_rfl hkey
                    obtain ⟨cv, hvdec, hvne, hvrep⟩ := ihv _ v r4 hval
                    have hw2 : r2 = r2.takeWhile isPyWs ++ (':' :: r3) := by
                      conv_lhs => rw [← List.takeWhile_append_dropWhile
                        (p := isPyWs) (l := r2)]
                      rw [hdw2]
                    have hw2ts : ∀ a ∈ r2.takeWhile isPyWs, isPyWs a = true :=
                      fun a ha => List.mem_takeWhile_imp ha
                    have hw3 : r3 = r3.takeWhile isPyWs ++ (cv ++ r4) := by
                      conv_lhs => rw [← List.takeWhile_append_dropWhile
                        (p := isPyWs) (l := r3)]
                      rw [hvdec]
                    have hw3ts : ∀ a ∈ r3.takeWhile isPyWs, isPyWs a = true :=
                      fun a ha => List.mem_takeWhile_imp ha
                    obtain ⟨cv0, cvt, rfl⟩ : ∃ x xs, cv = x :: xs := by
                      cases cv with
                      | nil => exact absurd rfl hvne
                      | cons a bb => exact ⟨a, bb, rfl⟩
                    have hcv0 : isPyWs cv0 = false := by
                      have hvdec2 := hvdec
                      rw [List.cons_append] at hvdec2
                      exact dropWhile_head_false hvdec2
                    have hw4 : r4 = r4.takeWhile isPyWs ++ (c3 :: r5) := by
                      conv_lhs => rw [← List.takeWhile_append_dropWhile
                        (p := isPyWs) (l := r4)]
                      rw [hdw3]
                    have hw4ts : ∀ a ∈ r4.takeWhile isPyWs, isPyWs a = true :=
                      fun a ha => List.mem_takeWhile_imp ha
                    have hc3ws : isPyWs c3 = false := dropWhile_head_false hdw3
                    by_cases hcm3 : c3 = ','
                    · subst hcm3
                      rw [if_pos rfl] at h
                      cases hmem : parseMembers n (List.dropWhile isPyWs r5) with
                      | none => rw [hmem] at h; simp at h
                      | some q2 =>
                        obtain ⟨ms2, r6⟩ := q2
                        rw [hmem, Option.map_some', Option.some.injEq,
                          Prod.mk.injEq] at h
                        obtain ⟨h1, h2⟩ := h
                        subst h1
                        subst h2
                        obtain ⟨cm2, hm2dec, hm2ne, hm2rep⟩ := ihm _ ms2 r6 hmem
                        have hw5 : r5 = r5.takeWhile isPyWs ++ (cm2 ++ r6) := by
                          conv_lhs => rw [← List.takeWhile_append_dropWhile
                            (p := isPyWs) (l := r5)]
                          rw [hm2dec]
                        have hw5ts : ∀ a ∈ r5.takeWhile isPyWs, isPyWs a = true :=
                          fun a ha => List.mem_takeWhile_imp ha
                        obtain ⟨cm20, cm2t, rfl⟩ : ∃ x xs, cm2 = x :: xs := by
                          cases cm2 with
                          | nil => exact absurd rfl hm2ne
                          | cons a bb => exact ⟨a, bb, rfl⟩
                        have hcm20 : isPyWs cm20 = false := by
                          have hm2dec2 := hm2dec
                          rw [List.cons_append] at hm2dec2
                          exact dropWhile_head_false hm2dec2
                        have hdecc : quoteC :: r1 =
                            (quoteC :: (key ++ quoteC :: (r2.takeWhile isPyWs ++
                              (':' :: (r3.takeWhile isPyWs ++ ((cv0 :: cvt) ++
                                (r4.takeWhile isPyWs ++ (',' :: (r5.takeWhile isPyWs ++
                                  (cm20 :: cm2t)))))))))) ++ r6 := by
                          conv_lhs => rw [hkdec]
                          conv_lhs => rw [hw2]
                          conv_lhs => rw [hw3]
                          conv_lhs => rw [hw4]
                          conv_lhs => rw [hw5]
                          simp
                        refine ⟨quoteC :: (key ++ quoteC :: (r2.takeWhile isPyWs ++
                          (':' :: (r3.takeWhile isPyWs ++ ((cv0 :: cvt) ++
                            (r4.takeWhile isPyWs ++ (',' :: (r5.takeWhile isPyWs ++
                              (cm20 :: cm2t))))))))), hdecc, by simp, ?_⟩
                        intro g' r' hlt hne
                        cases g' with
                        | zero => exact absurd hlt (Nat.not_lt_zero _)
                        | succ m =>
                          rw [show (quoteC :: (key ++ quoteC :: (r2.takeWhile isPyWs ++
                            (':' :: (r3.takeWhile isPyWs ++ ((cv0 :: cvt) ++
                              (r4.takeWhile isPyWs ++ (',' :: (r5.takeWhile isPyWs ++
                                (cm20 :: cm2t)))))))))) ++ r' =
                            quoteC :: (key ++ quoteC :: (r2.takeWhile isPyWs ++
                            (':' :: (r3.takeWhile isPyWs ++ ((cv0 :: cvt) ++
                              (r4.takeWhile isPyWs ++ (',' :: (r5.takeWhile isPyWs ++
                                ((cm20 :: cm2t) ++ r'))))))))) from by simp]
                          rw [pm_quote, hkrep]
                          dsimp only
                          rw [dropWhile_app_ws hw2ts, List.dropWhile_cons_of_neg
                            (by decide)]
                          dsimp only
                          rw [if_pos rfl]
                          have hdv : List.dropWhile isPyWs (r3.takeWhile isPyWs ++
                              ((cv0 :: cvt) ++ (r4.takeWhile isPyWs ++
                                (',' :: (r5.takeWhile isPyWs ++
                                  ((cm20 :: cm2t) ++ r')))))) =
                              (cv0 :: cvt) ++ (r4.takeWhile isPyWs ++
                                (',' :: (r5.takeWhile isPyWs ++
                                  ((cm20 :: cm2t) ++ r')))) := by
                            rw [dropWhile_app_ws hw3ts, List.cons_append,
                              List.dropWhile_cons_of_neg (by simp [hcv0]),
                              ← List.cons_append]
                          rw [hdv]
                          have hlcv : (cv0 :: cvt).length < m := by
                            simp only [List.length_cons, List.length_append] at hlt ⊢
                            omega
                          rw [hvrep m _ hlcv (noExt_head_ws hw4ts
                            (noExt_punct ⟨by decide, by decide, by decide,
                              by decide⟩ _))]
                          dsimp only
                          rw [dropWhile_app_ws hw4ts, List.dropWhile_cons_of_neg
                            (by decide)]
                          dsimp only
                          rw [if_pos rfl]
                          have hdm : List.dropWhile isPyWs (r5.takeWhile isPyWs ++
                              ((cm20 :: cm2t) ++ r')) = (cm20 :: cm2t) ++ r' := by
                            rw [dropWhile_app_ws hw5ts, List.cons_append,
                              List.dropWhile_cons_of_neg (by simp [hcm20]),
                              ← List.cons_append]
                          rw [hdm]
                          have hlcm : (cm20 :: cm2t).length < m := by
                            simp only [List.length_cons, List.length_append] at hlt ⊢
                            omega
                          rw [hm2rep m r' hlcm hne, Option.map_some']
                    · by_cases hbr3 : c3 = '}'
                      · subst hbr3
                        rw [if_neg (by decide), if_pos rfl] at h
                        rw [Option.some.injEq, Prod.mk.injEq] at h
                        obtain ⟨h1, h2⟩ := h
                        subst h1
                        subst h2
                        obtain ⟨hkdec2, hkrep2⟩ :=
                          parseStringBody_replay r1.length r1 le_rfl hkey
                        have hdecc : quoteC :: r1 =
                            (quoteC :: (key ++ quoteC :: (r2.takeWhile isPyWs ++
                              (':' :: (r3.takeWhile isPyWs ++ ((cv0 :: cvt) ++
                                (r4.takeWhile isPyWs ++ ['}']))))))) ++ r5 := by
                          conv_lhs => rw [hkdec]
                          conv_lhs => rw [hw2]
                          conv_lhs => rw [hw3]
                          conv_lhs => rw [hw4]
                          simp
                        refine ⟨quoteC :: (key ++ quoteC :: (r2.takeWhile isPyWs ++
                          (':' :: (r3.takeWhile isPyWs ++ ((cv0 :: cvt) ++
                            (r4.takeWhile isPyWs ++ ['}'])))))), hdecc, by simp, ?_⟩
                        intro g' r' hlt hne
                        cases g' with
                        | zero => exact absurd hlt (Nat.not_lt_zero _)
                        | succ m =>
                          rw [show (quoteC :: (key ++ quoteC :: (r2.takeWhile isPyWs ++
                            (':' :: (r3.takeWhile isPyWs ++ ((cv0 :: cvt) ++
                              (r4.takeWhile isPyWs ++ ['}']))))))) ++ r' =
                            quoteC :: (key ++ quoteC :: (r2.takeWhile isPyWs ++
                            (':' :: (r3.takeWhile isPyWs ++ ((cv0 :: cvt) ++
                              (r4.takeWhile isPyWs ++ ('}' :: r'))))))) from by simp]
                          rw [pm_quote, hkrep]
                          dsimp only
                          rw [dropWhile_app_ws hw2ts, List.dropWhile_cons_of_neg
                            (by decide)]
                          dsimp only
                          rw [if_pos rfl]
                          have hdv : List.dropWhile isPyWs (r3.takeWhile isPyWs ++
                              ((cv0 :: cvt) ++ (r4.takeWhile isPyWs ++
                                ('}' :: r')))) =
                              (cv0 :: cvt) ++ (r4.takeWhile isPyWs ++
                                ('}' :: r')) := by
                            rw [dropWhile_app_ws hw3ts, List.cons_append,
                              List.dropWhile_cons_of_neg (by simp [hcv0]),
                              ← List.cons_append]
                          rw [hdv]
                          have hlcv : (cv0 :: cvt).length < m := by
                            simp only [List.length_cons, List.length_append] at hlt ⊢
                            omega
                          rw [hvrep m _ hlcv (noExt_head_ws hw4ts
                            (noExt_punct ⟨by decide, by decide, by decide,
                              by decide⟩ _))]
                          dsimp only
                          rw [dropWhile_app_ws hw4ts, List.dropWhile_cons_of_neg
                            (by decide)]
                          dsimp only
                          rw [if_neg (by decide), if_pos rfl]
                      · rw [if_neg hcm3, if_neg hbr3] at h
                        simp at h
              · rw [if_neg hcol] at h
                simp at h
        · rw [pm_other n hq] at h
          exact absurd h (by simp)
    · -- parseItems
      intro cs xs rest h
      rw [pi_succ] at h
      cases hval : parseValue n cs with
      | none => rw [hval] at h; simp at h
      | some q =>
        obtain ⟨v, r1⟩ := q
        rw [hval] at h
        dsimp only at h
        cases hdw : List.dropWhile isPyWs r1 with
        | nil => rw [hdw] at h; simp at h
        | cons c2 r2 =>
          rw [hdw] at h
          dsimp only at h
          obtain ⟨cv, hvdec, hvne, hvrep⟩ := ihv cs v r1 hval
          have hw1 : r1 = r1.takeWhile isPyWs ++ (c2 :: r2) := by
            conv_lhs => rw [← List.takeWhile_append_dropWhile
              (p := isPyWs) (l := r1)]
            rw [hdw]
          have hw1ts : ∀ a ∈ r1.takeWhile isPyWs, isPyWs a = true :=
            fun a ha => List.mem_takeWhile_imp ha
          have hc2ws : isPyWs c2 = false := dropWhile_head_false hdw
          by_cases hcm : c2 = ','
          · subst hcm
            rw [if_pos rfl] at h
            cases hits : parseItems n (List.dropWhile isPyWs r2) with
            | none => rw [hits] at h; simp at h
            | some q2 =>
              obtain ⟨xs2, r3⟩ := q2
              rw [hits, Option.map_some', Option.some.injEq, Prod.mk.injEq] at h
              obtain ⟨h1, h2⟩ := h
              subst h1
              subst h2
              obtain ⟨ci, hidec, hine, hirep⟩ := ihi _ xs2 r3 hits
              have hw2 : r2 = r2.takeWhile isPyWs ++ (ci ++ r3) := by
                conv_lhs => rw [← List.takeWhile_append_dropWhile
                  (p := isPyWs) (l := r2)]
                rw [hidec]
              have hw2ts : ∀ a ∈ r2.takeWhile isPyWs, isPyWs a = true :=
                fun a ha => List.mem_takeWhile_imp ha
              obtain ⟨ci0, cit, rfl⟩ : ∃ x xs, ci = x :: xs := by
                cases ci with
                | nil => exact absurd rfl hine
                | cons a bb => exact ⟨a, bb, rfl⟩
              have hci0 : isPyWs ci0 = false := by
                have hidec2 := hidec
                rw [List.cons_append] at hidec2
                exact dropWhile_head_false hidec2
              have hdecc : cs = (cv ++ (r1.takeWhile isPyWs ++
                  (',' :: (r2.takeWhile isPyWs ++ (ci0 :: cit))))) ++ r3 := by
                conv_lhs => rw [hvdec]
                conv_lhs => rw [hw1]
                conv_lhs => rw [hw2]
                simp
              refine ⟨cv ++ (r1.takeWhile isPyWs ++
                (',' :: (r2.takeWhile isPyWs ++ (ci0 :: cit)))), hdecc,
                fun hC => hvne (List.append_eq_nil.mp hC).1, ?_⟩
              intro g' r' hlt hne
              cases g' with
              | zero => exact absurd hlt (Nat.not_lt_zero _)
              | succ m =>
                rw [show (cv ++ (r1.takeWhile isPyWs ++
                  (',' :: (r2.takeWhile isPyWs ++ (ci0 :: cit))))) ++ r' =
                  cv ++ (r1.takeWhile isPyWs ++
                  (',' :: (r2.takeWhile isPyWs ++ ((ci0 :: cit) ++ r')))) from
                  by simp]
                rw [pi_succ]
                have hlcv : cv.length < m := by
                  simp only [List.length_cons, List.length_append] at hlt ⊢
                  omega
                rw [hvrep m _ hlcv (noExt_head_ws hw1ts
                  (noExt_punct ⟨by decide, by decide, by decide,
                    by decide⟩ _))]
                dsimp only
                rw [dropWhile_app_ws hw1ts, List.dropWhile_cons_of_neg (by decide)]
                dsimp only
                rw [if_pos rfl]
                have hdi : List.dropWhile isPyWs (r2.takeWhile isPyWs ++
                    ((ci0 :: cit) ++ r')) = (ci0 :: cit) ++ r' := by
                  rw [dropWhile_app_ws hw2ts, List.cons_append,
                    List.dropWhile_cons_of_neg (by simp [hci0]),
                    ← List.cons_append]
                rw [hdi]
                have hlci : (ci0 :: cit).length < m := by
                  simp only [List.length_cons, List.length_append] at hlt ⊢
                  omega
                rw [hirep m r' hlci hne, Option.map_some']
          · by_cases hbr : c2 = ']'
            · subst hbr
              rw [if_neg (by decide), if_pos rfl] at h
              rw [Option.some.injEq, Prod.mk.injEq] at h
              obtain ⟨h1, h2⟩ := h
              subst h1
              subst h2
              have hdecc : cs = (cv ++ (r1.takeWhile isPyWs ++ [']'])) ++ r2 := by
                conv_lhs => rw [hvdec]
                conv_lhs => rw [hw1]
                simp
              refine ⟨cv ++ (r1.takeWhile isPyWs ++ [']']), hdecc,
                fun hC => hvne (List.append_eq_nil.mp hC).1, ?_⟩
              intro g' r' hlt hne
              cases g' with
              | zero => exact absurd hlt (Nat.not_lt_zero _)
              | succ m =>
                rw [show (cv ++ (r1.takeWhile isPyWs ++ [']'])) ++ r' =
                  cv ++ (r1.takeWhile isPyWs ++ (']' :: r')) from by simp]
                rw [pi_succ]
                have hlcv : cv.length < m := by
                  simp only [List.length_cons, List.length_append] at hlt ⊢
                  omega
                rw [hvrep m _ hlcv (noExt_head_ws hw1ts
                  (noExt_punct ⟨by decide, by decide, by decide,
                    by decide⟩ _))]
                dsimp only
                rw [dropWhile_app_ws hw1ts, List.dropWhile_cons_of_neg (by decide)]
                dsimp only
                rw [if_neg (by decide), if_pos rfl]
            · rw [if_neg hcm, if_neg hbr] at h
              simp at h

theorem pyLoads_extra_data {s : List Char} {e : JsonError}
    (h : pyLoads s = Except.error e) (hmsg : e.msg = "Extra data") :
    ∃ v rest, parseValue (s.length + 1) (List.dropWhile isPyWs s) = some (v, rest) ∧
      pyLoads (s.take e.pos) = Except.ok v := by
  unfold pyLoads at h
  dsimp only at h
  cases hpv : parseValue (s.length + 1) (List.dropWhile isPyWs s) with
  | none =>
    rw [hpv] at h
    dsimp only at h
    rw [Except.error.injEq] at h
    subst h
    dsimp only at hmsg
    exact absurd hmsg (by decide)
  | some p =>
    obtain ⟨v, rest⟩ := p
    rw [hpv] at h
    dsimp only at h
    by_cases hre : (List.dropWhile isPyWs rest).isEmpty = true
    · rw [if_pos hre] at h
      simp at h
    · rw [if_neg hre] at h
      rw [Except.error.injEq] at h
      subst h
      refine ⟨v, rest, rfl, ?_⟩
      obtain ⟨c, hcdec, hcne, hcrep⟩ := (json_replay (s.length + 1)).1 _ v rest hpv
      have hwts : ∀ a ∈ s.takeWhile isPyWs, isPyWs a = true :=
        fun a ha => List.mem_takeWhile_imp ha
      have hw2ts : ∀ a ∈ rest.takeWhile isPyWs, isPyWs a = true :=
        fun a ha => List.mem_takeWhile_imp ha
      have hs : s = s.takeWhile isPyWs ++ (c ++ rest) := by
        conv_lhs => rw [← List.takeWhile_append_dropWhile (p := isPyWs) (l := s)]
        rw [hcdec]
      have hr : rest = rest.takeWhile isPyWs ++ List.dropWhile isPyWs rest :=
        (List.takeWhile_append_dropWhile isPyWs rest).symm
      have hs2 : s = (s.takeWhile isPyWs ++ (c ++ rest.takeWhile isPyWs)) ++
          List.dropWhile isPyWs rest := by
        conv_lhs => rw [hs]
        conv_lhs => rw [hr]
        simp
      have hpos : JsonError.pos ⟨"Extra data",
            s.length - (List.dropWhile isPyWs rest).length⟩ =
          (s.takeWhile isPyWs ++ (c ++ rest.takeWhile isPyWs)).length := by
        dsimp only
        have hrlen : rest.length = (rest.takeWhile isPyWs).length +
            (List.dropWhile isPyWs rest).length := by
          have h9 := congrArg List.length hr
          rw [List.length_append] at h9
          exact h9
        conv_lhs => rw [hs]
        simp only [List.length_append]
        omega
      have htake : s.take (JsonError.pos ⟨"Extra data",
            s.length - (List.dropWhile isPyWs rest).length⟩) =
          s.takeWhile isPyWs ++ (c ++ rest.takeWhile isPyWs) := by
        rw [hpos]
        nth_rewrite 2 [hs2]
        exact List.take_left _ _
      rw [htake]
      obtain ⟨c0, ct, rfl⟩ : ∃ x xs, c = x :: xs := by
        cases c with
        | nil => exact absurd rfl hcne
        | cons a bb => exact ⟨a, bb, rfl⟩
      have hc0 : isPyWs c0 = false := by
        have hcdec2 := hcdec
        rw [List.cons_append] at hcdec2
        exact dropWhile_head_false hcdec2
      have hcore : List.dropWhile isPyWs (s.takeWhile isPyWs ++
          ((c0 :: ct) ++ rest.takeWhile isPyWs)) =
          (c0 :: ct) ++ rest.takeWhile isPyWs := by
        rw [dropWhile_app_ws hwts, List.cons_append,
          List.dropWhile_cons_of_neg (by simp [hc0]), ← List.cons_append]
      unfold pyLoads
      dsimp only
      rw [hcore]
      have hfuel : (c0 :: ct).length <
          (s.takeWhile isPyWs ++ ((c0 :: ct) ++ rest.takeWhile isPyWs)).length + 1 := by
        simp [List.length_append]
        omega
      rw [hcrep _ (rest.takeWhile isPyWs) hfuel (noExt_all_ws hw2ts)]
      dsimp only
      rw [if_pos (by rw [dropWhile_all hw2ts]; rfl)]

/-- Claim C5: the JSON loader returns the parsed document on a clean parse;
when parsing fails only because extra data follows a complete first document,
it returns that first document's value, which is exactly the parse of the
file truncated at the error position; any other parse failure or a missing
file gives an absent result.  (In this embedding an uncaught exception would
be a stuck term; load_json_file is total, so it never raises.) -/
theorem C5_json_loader (fs : String → Option String) (path : String) :
    (fs path = none → load_json_file fs path = none) ∧
    (∀ content v, fs path = some content →
      pyLoads content.data = Except.ok v → load_json_file fs path = some v) ∧
    (∀ content e, fs path = some content →
      pyLoads content.data = Except.error e → e.msg ≠ "Extra data" →
      load_json_file fs path = none) ∧
    (∀ content e, fs path = some content →
      pyLoads content.data = Except.error e → e.msg = "Extra data" →
      ∃ v rest, parseValue (content.data.length + 1)
          (content.data.dropWhile isPyWs) = some (v, rest) ∧
        pyLoads (content.data.take e.pos) = Except.ok v ∧
        load_json_file fs path = some v) := by
  refine ⟨?_, ?_, ?_, ?_⟩
  · intro h
    simp only [load_json_file, h]
  · intro content v h hv
    simp only [load_json_file, h, hv]
  · intro content e h he hne
    simp only [load_json_file, h, he]
    rw [if_pos hne]
  · intro content e h he hmsg
    obtain ⟨v, rest, hpv, hok⟩ := pyLoads_extra_data he hmsg
    refine ⟨v, rest, hpv, hok, ?_⟩
    simp only [load_json_file, h, he]
    rw [if_neg (by simp [hmsg]), hok]

/-- Concrete instantiation of C5: a file holding an empty object followed by
trailing bytes loads as the object, and a missing file loads as absent. -/
theorem C5_witness :
    load_json_file
      (fun p => if p = "data.json" then some "\x7b\x7d trailing" else none)
      "data.json" = some (Json.obj []) ∧
    load_json_file (fun _ => none) "absent.json" = none := by
  have h := C5_json_loader
    (fun p => if p = "data.json" then some "\x7b\x7d trailing" else none)
    "data.json"
  have h2 := C5_json_loader (fun _ => none) "absent.json"
  obtain ⟨v, rest, hpv, hok, hload⟩ :=
    h.2.2.2 "\x7b\x7d trailing" ⟨"Extra data", 3⟩ rfl rfl rfl
  have hcalc : parseValue ("\x7b\x7d trailing".data.length + 1)
      ("\x7b\x7d trailing".data.dropWhile isPyWs) =
      some (Json.obj [], " trailing".data) := rfl
  rw [hcalc, Option.some.injEq, Prod.mk.injEq] at hpv
  obtain ⟨hv1, -⟩ := hpv
  subst hv1
  exact ⟨hload, h2.1 rfl⟩
